import Mathlib

/-!
Shallow embedding of the GrabDoc Blender add-on's bake utilities
(`src/utils/baker.py` and `src/utils/node.py`) together with theorems
settling the specification's claims about them.

Modelling conventions:
* Blender's mutable document state is passed explicitly (`BState` for
  node/material data, `HostState` for render/scene settings).
* Python code that can raise an exception is modelled with `Option`:
  `none` means the call raised.
* Floats are modelled as unnormalized rationals (`Flt`; none of the
  checked claims depends on
  rounding), machine ints as `Int`, enum values as `String`.
* Node positions (`location`, `width`, `height`, `hide`) are pure UI data
  observed by nothing in these files and are not modelled.
-/

namespace GrabDoc

/-- Python floats are modelled as unnormalized rationals (numerator over
a positive denominator).  No checked claim ever compares two
differently-built representations of the same rational, so structural
equality suffices, and skipping gcd-normalization keeps every operation
kernel-computable. -/
structure Flt where
  num : Int
  den : Nat := 1
deriving DecidableEq, Repr

instance (n : Nat) : OfNat Flt n := ⟨⟨n, 1⟩⟩

instance : Neg Flt := ⟨fun a => ⟨-a.num, a.den⟩⟩

instance : Add Flt := ⟨fun a b => ⟨a.num * b.den + b.num * a.den, a.den * b.den⟩⟩

instance : Sub Flt := ⟨fun a b => a + -b⟩

/-- A value stored in a node-socket `default_value`. -/
inductive Value where
  | vFloat (q : Flt)
  | vInt (n : Int)
  | vColor (r g b a : Flt)
  | vVector (x y z : Flt)
deriving DecidableEq, Repr

/-- The socket types occurring in the embedded code
(`NodeSocketShader`, `NodeSocketFloat`, `NodeSocketInt`,
`NodeSocketVector`, `NodeSocketColor`). -/
inductive SocketType where
  | shaderT
  | floatT
  | intT
  | vectorT
  | colorT
deriving DecidableEq, Repr

/-- An input socket of a node: its name, type and `default_value`.
Shader sockets carry no `default_value` (`none`); reading or writing it
raises `AttributeError` in Blender. -/
structure InputSocket where
  name : String
  stype : SocketType
  default : Option Value
deriving DecidableEq, Repr

/-- A link in a node tree, identified by its endpoints
(`from_node`/`from_socket` to `to_node`/`to_socket`). -/
structure Link where
  fromNode : String
  fromSocket : String
  toNode : String
  toSocket : String
deriving DecidableEq, Repr

/-- A node of a material node tree: `name`, its `type` enum string
(for example `OUTPUT_MATERIAL`, `BSDF_PRINCIPLED`, `GROUP`, `FRAME`),
its input sockets and the names of its output sockets.  Color-ramp nodes
additionally carry their `color_ramp.elements` as (position, color)
pairs. -/
structure Node where
  name : String
  type : String
  inputs : List InputSocket
  outputs : List String
  ramp_elements : List (Flt × Value) := []
deriving DecidableEq, Repr

/-- A material with its node tree.  Socket links are stored at tree level
(as in `material.node_tree.links`); a socket's `.links` view is recovered
by filtering. -/
structure Material where
  name : String
  use_nodes : Bool
  blend_method : String
  nodes : List Node
  links : List Link
deriving DecidableEq, Repr

/-- A node group (`bpy.data.node_groups` entry): its interface input and
output sockets and its own node tree. -/
structure NodeGroup where
  name : String
  use_fake_user : Bool
  ifaceInputs : List InputSocket
  ifaceOutputs : List String
  nodes : List Node
  links : List Link
deriving DecidableEq, Repr

/-- An object: its material slots (an empty slot is `none`, matching a
slot whose name is the empty string) and the index of the active slot. -/
structure Obj where
  name : String
  material_slots : List (Option String)
  active_index : Nat
deriving DecidableEq, Repr

/-- The node/material part of `bpy.data` that `node.py` touches:
materials, node groups and text datablocks (name, content). -/
structure BState where
  materials : List Material
  node_groups : List NodeGroup
  texts : List (String × String)
deriving DecidableEq, Repr

/-! ### Constants (`constants.py` is not part of the given sources)

Modelled from the spec: `constants.py` only names the add-on's
node groups, its scratch material, a handful of BSDF socket names and the
list of configured map ids; the names below are fixed distinct strings
standing in for those constants. -/

namespace Glob

def NORMAL_NODE : String := "GD_Normals"
def CURVATURE_NODE : String := "GD_Curvature"
def OCCLUSION_NODE : String := "GD_Occlusion"
def HEIGHT_NODE : String := "GD_Height"
def ALPHA_NODE : String := "GD_Alpha"
def COLOR_NODE : String := "GD_Color"
def EMISSIVE_NODE : String := "GD_Emissive"
def ROUGHNESS_NODE : String := "GD_Roughness"
def METALLIC_NODE : String := "GD_Metallic"

def ALPHA_NAME : String := "Alpha"
def COLOR_NAME : String := "Base Color"
def ROUGHNESS_NAME : String := "Roughness"
def METALLIC_NAME : String := "Metallic"

def GD_MATERIAL_NAME : String := "GD_Material"
def TRIM_CAMERA_NAME : String := "GD_Trim Camera"
def BG_PLANE_NAME : String := "GD_Background Plane"

/-- Modelled from the spec: the map recipes whose passthrough bridges
named channel sockets from a BSDF shader. -/
def SHADER_MAP_NAMES : List String :=
  [NORMAL_NODE, COLOR_NODE, EMISSIVE_NODE, ROUGHNESS_NODE,
   METALLIC_NODE, ALPHA_NODE, OCCLUSION_NODE]

/-- Modelled from the spec: the explanatory note written next to the
spliced node group; its exact wording is irrelevant to every claim. -/
def NG_NODE_WARNING : String :=
  "This node group is auto generated by GrabDoc, do not touch"

/-- Modelled from the spec: the configured bake map ids, in registration
order. -/
def ALL_MAP_IDS : List String :=
  ["normals", "curvature", "occlusion", "height", "alpha",
   "id", "color", "emissive", "roughness", "metalness"]

end Glob

/-! ### Generic node-tree helpers -/

/-- The links currently plugged into socket `sock` of node `node`
(the socket's `.links` view). -/
def linksInto (m : Material) (node sock : String) : List Link :=
  m.links.filter (fun l => l.toNode == node && l.toSocket == sock)

/-- `material.node_tree.nodes.get(n)`. -/
def findNode (m : Material) (n : String) : Option Node :=
  m.nodes.find? (fun x => x.name == n)

/-- The names of the nodes of a material. -/
def nodeNames (m : Material) : List String := m.nodes.map (·.name)

/-- `tree.links.new(dst, src)` on a single-input destination socket:
any link already on the destination is replaced. -/
def addLinkReplacing (m : Material) (l : Link) : Material :=
  { m with links :=
      (m.links.filter (fun x => !(x.toNode == l.toNode && x.toSocket == l.toSocket))) ++ [l] }

/-- Removing every link plugged into one socket
(`for link in socket.links: tree.links.remove(link)`). -/
def removeLinksInto (m : Material) (node sock : String) : Material :=
  { m with links := m.links.filter (fun l => !(l.toNode == node && l.toSocket == sock)) }

/-- `nodes.remove(node)`: the node disappears together with every link
touching it. -/
def removeNode (m : Material) (node : String) : Material :=
  { m with
    nodes := m.nodes.filter (fun n => !(n.name == node)),
    links := m.links.filter (fun l => !(l.fromNode == node) && !(l.toNode == node)) }

/-- Assigning `default_value` on the input socket `inputName` of a list of
sockets. -/
def setInputsDefault (inputs : List InputSocket) (inputName : String) (v : Value) :
    List InputSocket :=
  inputs.map (fun s => if s.name == inputName then { s with default := some v } else s)

/-- Assigning `node.inputs[inputName].default_value = v` inside a material. -/
def setNodeInputDefault (m : Material) (node inputName : String) (v : Value) : Material :=
  { m with nodes := m.nodes.map (fun n =>
      if n.name == node then { n with inputs := setInputsDefault n.inputs inputName v } else n) }

/-- Looking up one input socket of one node of a material. -/
def findNodeInput (m : Material) (node inputName : String) : Option InputSocket :=
  (findNode m node).bind (fun n => n.inputs.find? (fun s => s.name == inputName))

/-- Replace the first material carrying `m.name` (Blender materials are
mutated in place; names are unique keys of `bpy.data.materials`). -/
def replaceFirst (l : List Material) (m : Material) : List Material :=
  match l with
  | [] => []
  | x :: xs => if x.name == m.name then m :: xs else x :: replaceFirst xs m

/-- Write back a mutated material into the document. -/
def writeMaterial (st : BState) (m : Material) : BState :=
  { st with materials := replaceFirst st.materials m }

/-- Create or overwrite a text datablock's content
(`bpy.data.texts`: get-or-new, clear, write). -/
def setText (texts : List (String × String)) (name content : String) :
    List (String × String) :=
  if texts.any (fun t => t.1 == name) then
    texts.map (fun t => if t.1 == name then (t.1, content) else t)
  else
    texts ++ [(name, content)]

/-- Zero-padded numeric suffix used by Blender when uniquifying a name
(".001", ".002", ...). -/
def padNum (k : Nat) : String :=
  if k < 10 then "00" ++ toString k
  else if k < 100 then "0" ++ toString k
  else toString k

/-- The `k`-th candidate name tried by Blender: the base name itself,
then `base.001`, `base.002`, ... -/
def uniquifyCandidate (base : String) (k : Nat) : String :=
  if k == 0 then base else base ++ "." ++ padNum k

def uniquifyGo (base : String) (used : List String) : Nat → Nat → String
  | 0, k => uniquifyCandidate base k
  | fuel + 1, k =>
    if used.contains (uniquifyCandidate base k) then uniquifyGo base used fuel (k + 1)
    else uniquifyCandidate base k

/-- Blender's automatic renaming when a node is given an already-used
name: the first unused candidate is taken. -/
def uniquify (base : String) (used : List String) : String :=
  uniquifyGo base used (used.length + 1) 0

/-- Whether `pat` occurs as a leading run of `l`. -/
def listStarts : List Char → List Char → Bool
  | [], _ => true
  | _ :: _, [] => false
  | p :: ps, c :: cs => p == c && listStarts ps cs

/-- Whether `pat` occurs somewhere inside `l`. -/
def listHasRun (pat : List Char) : List Char → Bool
  | [] => pat.isEmpty
  | c :: cs => listStarts pat (c :: cs) || listHasRun pat cs

/-- `"BSDF" in source_node.type` (Python substring test). -/
def strHasBSDF (t : String) : Bool :=
  listHasRun "BSDF".toList t.toList

/-- `s.startswith(pre)`, implemented on the character list. -/
def strStarts (s pre : String) : Bool :=
  listStarts pre.toList s.toList

/-- `s.upper()` / `str.upper`, implemented on the character list. -/
def pyUpper (s : String) : String :=
  String.mk (s.toList.map Char.toUpper)

/-- `s.replace('_', ' ')` — the only replacement the source performs
(baker.py line 65), implemented on the character list. -/
def pyReplaceUnderscore (s : String) : String :=
  String.mk (s.toList.map (fun c => if c == '_' then ' ' else c))

/-- The characters after the last space of a word list
(`name.split(' ')[-1]`). -/
def lastWordAux : List Char → List Char → List Char
  | cur, [] => cur.reverse
  | cur, c :: cs => if c == ' ' then lastWordAux [] cs else lastWordAux (c :: cur) cs

/-- `name.split(' ')[-1]`. -/
def lastWord (s : String) : String :=
  String.mk (lastWordAux [] s.toList)

/-! ### `get_material_output_inputs` (node.py lines 35-53)

The Python helper creates a scratch node group holding one
`ShaderNodeOutputMaterial`, reads that node's input sockets (skipping
`Thickness`), then deletes the scratch group again, leaving `bpy.data`
unchanged.  Modelled from the host API: in Blender 4.2 the material
output node's inputs are Surface (shader), Volume (shader), Displacement
(vector) and Thickness (float). -/

/-- The input sockets of a `ShaderNodeOutputMaterial` node instance. -/
def materialOutputNodeInputs : List InputSocket :=
  [⟨"Surface", .shaderT, none⟩,
   ⟨"Volume", .shaderT, none⟩,
   ⟨"Displacement", .vectorT, some (.vVector 0 0 0)⟩,
   ⟨"Thickness", .floatT, some (.vFloat 0)⟩]

/-- The dictionary returned by `get_material_output_inputs`:
socket name to interface socket type, `Thickness` skipped. -/
def get_material_output_inputs : List (String × SocketType) :=
  [("Surface", .shaderT), ("Volume", .shaderT), ("Displacement", .vectorT)]

/-! ### `create_node_links` (node.py lines 485-511) -/

/-- Outcome of assigning a value to a socket's `default_value`. -/
inductive SetResult where
  | ok (v : Value)
  | typeErr
  | attrErr
deriving DecidableEq, Repr

/-- `socket.default_value = v`.  A float property accepts ints, an int
property raises `TypeError` on a float, sequence/scalar mismatches raise
`TypeError`, shader sockets have no `default_value` (`AttributeError`). -/
def trySetDefault : SocketType → Value → SetResult
  | .shaderT, _ => .attrErr
  | .floatT, .vFloat q => .ok (.vFloat q)
  | .floatT, .vInt n => .ok (.vFloat ⟨n, 1⟩)
  | .floatT, _ => .typeErr
  | .intT, .vInt n => .ok (.vInt n)
  | .intT, _ => .typeErr
  | .vectorT, .vVector x y z => .ok (.vVector x y z)
  | .vectorT, _ => .typeErr
  | .colorT, .vColor r g b a => .ok (.vColor r g b a)
  | .colorT, _ => .typeErr

/-- Python `int()` truncation toward zero on a rational. -/
def ratTrunc (q : Flt) : Int :=
  q.num.tdiv q.den

/-- The coercion retried after a `TypeError`:
`int(value)` if the value is a float, otherwise `float(value)`
(which itself raises on non-numeric values — unguarded). -/
def coerceValue : Value → Option Value
  | .vFloat q => some (.vInt (ratTrunc q))
  | .vInt n => some (.vFloat ⟨n, 1⟩)
  | _ => none

/-- Embedding of `create_node_links(input_name, node_group, original_input,
material)` (node.py lines 485-511).  `node_group_name` is the passthrough
node the value is saved on, `src_node` the node owning `original_input`.
Returns `none` when the Python code would raise, otherwise the
`node_found` flag and the updated material. -/
def create_node_links (input_name : String) (node_group_name : String)
    (src_node : String) (original_input : InputSocket) (material : Material) :
    Option (Bool × Material) :=
  match linksInto material src_node original_input.name with
  | link :: _ =>
    -- a link exists: store the original source on the passthrough; the
    -- loop breaks after the first link
    match findNodeInput material node_group_name input_name with
    | none => none  -- node_group.inputs[input_name] raises KeyError
    | some _ =>
      some (true, addLinkReplacing material
        { fromNode := link.fromNode, fromSocket := link.fromSocket,
          toNode := node_group_name, toSocket := input_name })
  | [] =>
    -- no incoming link: value-copy the socket default
    match findNodeInput material node_group_name input_name with
    | none => none  -- KeyError
    | some tgt =>
      match original_input.default with
      | none => none  -- reading default_value of a shader socket raises
      | some v =>
        match trySetDefault tgt.stype v with
        | .ok v2 => some (false, setNodeInputDefault material node_group_name input_name v2)
        | .attrErr => none
        | .typeErr =>
          match coerceValue v with
          | none => none  -- the coercion itself raises (unguarded fallback)
          | some v3 =>
            match trySetDefault tgt.stype v3 with
            | .ok v4 => some (false, setNodeInputDefault material node_group_name input_name v4)
            | .typeErr => none  -- the retried assignment raises
            | .attrErr => none

/-! ### `apply_node_to_objects` (node.py lines 514-701) -/

/-- The chain dispatching one BSDF input socket against the map recipe
(node.py lines 617-686), including the `elif node_found: break` exit and
the OPAQUE-to-CLIP blend-method flips.  `found` is the running
`node_found`, `pName` the passthrough's node name, `srcName` the BSDF
node's name. -/
def bridgeChannels (gdUseTexture : Bool) (name pName srcName : String)
    (inputs : List InputSocket) (found : Bool) (mat : Material) :
    Option (Bool × Material) :=
  match inputs with
  | [] => some (found, mat)
  | inp :: rest =>
    if name == Glob.COLOR_NODE && inp.name == Glob.COLOR_NAME then
      match create_node_links inp.name pName srcName inp mat with
      | none => none
      | some (f, m2) => bridgeChannels gdUseTexture name pName srcName rest f m2
    else if name == Glob.EMISSIVE_NODE && inp.name == "Emission Color" then
      match create_node_links inp.name pName srcName inp mat with
      | none => none
      | some (f, m2) => bridgeChannels gdUseTexture name pName srcName rest f m2
    else if name == Glob.ROUGHNESS_NODE && inp.name == Glob.ROUGHNESS_NAME then
      match create_node_links inp.name pName srcName inp mat with
      | none => none
      | some (f, m2) => bridgeChannels gdUseTexture name pName srcName rest f m2
    else if name == Glob.METALLIC_NODE && inp.name == Glob.METALLIC_NAME then
      match create_node_links inp.name pName srcName inp mat with
      | none => none
      | some (f, m2) => bridgeChannels gdUseTexture name pName srcName rest f m2
    else if name == Glob.ALPHA_NODE && inp.name == Glob.ALPHA_NAME then
      match create_node_links inp.name pName srcName inp mat with
      | none => none
      | some (f, m2) =>
        let m3 :=
          if inp.name == "Alpha" && m2.blend_method == "OPAQUE"
              && !(linksInto m2 srcName inp.name).isEmpty then
            { m2 with blend_method := "CLIP" }
          else m2
        bridgeChannels gdUseTexture name pName srcName rest f m3
    else if name == Glob.NORMAL_NODE && inp.name == "Normal" then
      match create_node_links inp.name pName srcName inp mat with
      | none => none
      | some (f, m2) =>
        -- the source re-tests original_input.name == 'Alpha' here even
        -- though this branch only runs for the socket named Normal; the
        -- test is kept verbatim (it always evaluates to false)
        let m3 :=
          if inp.name == "Alpha" && gdUseTexture && m2.blend_method == "OPAQUE"
              && !(linksInto m2 srcName inp.name).isEmpty then
            { m2 with blend_method := "CLIP" }
          else m2
        bridgeChannels gdUseTexture name pName srcName rest f m3
    else if name == Glob.OCCLUSION_NODE && inp.name == "Normal" then
      match create_node_links inp.name pName srcName inp mat with
      | none => none
      | some (f, m2) => bridgeChannels gdUseTexture name pName srcName rest f m2
    else if found then
      some (found, mat)  -- elif node_found: break
    else
      bridgeChannels gdUseTexture name pName srcName rest found mat

/-- Processing one link plugged into one material-output input during the
splice (node.py lines 599-690): store the original connection on the
passthrough (KeyError swallowed), then bridge BSDF channels.  Returns the
"no failure was flagged on this link" boolean. -/
def processLinkStep (gdUseTexture : Bool) (name pName : String)
    (pInputNames : List String) (inpName : String) (l : Link) (mat : Material) :
    Option (Bool × Material) :=
  match findNode mat l.fromNode with
  | none => none  -- source_node is None: .outputs[...] raises
  | some src =>
    let mat1 :=
      if pInputNames.contains inpName && src.outputs.contains l.fromSocket then
        addLinkReplacing mat
          { fromNode := l.fromNode, fromSocket := l.fromSocket,
            toNode := pName, toSocket := inpName }
      else mat  -- except KeyError: pass
    if !(Glob.SHADER_MAP_NAMES.contains name) || !(strHasBSDF src.type) then
      some (true, mat1)  -- continue
    else
      match bridgeChannels gdUseTexture name pName src.name src.inputs false mat1 with
      | none => none
      | some (found, m2) =>
        some (found || name == Glob.NORMAL_NODE || m2.name == Glob.GD_MATERIAL_NAME, m2)

/-- Iterating the links of one material-output input. -/
def processInputLinks (gdUseTexture : Bool) (name pName : String)
    (pInputNames : List String) (inpName : String) (links : List Link)
    (mat : Material) : Option (Bool × Material) :=
  match links with
  | [] => some (true, mat)
  | l :: rest =>
    match processLinkStep gdUseTexture name pName pInputNames inpName l mat with
    | none => none
    | some (ok, m2) =>
      match processInputLinks gdUseTexture name pName pInputNames inpName rest m2 with
      | none => none
      | some (ok2, m3) => some (ok && ok2, m3)

/-- Iterating the input sockets of one material-output node. -/
def processOutputInputs (gdUseTexture : Bool) (name pName outName : String)
    (pInputNames : List String) (inputs : List InputSocket) (mat : Material) :
    Option (Bool × Material) :=
  match inputs with
  | [] => some (true, mat)
  | inp :: rest =>
    match processInputLinks gdUseTexture name pName pInputNames inp.name
        (linksInto mat outName inp.name) mat with
    | none => none
    | some (ok, m2) =>
      match processOutputInputs gdUseTexture name pName outName pInputNames rest m2 with
      | none => none
      | some (ok2, m3) => some (ok && ok2, m3)

/-- Splicing the passthrough ahead of one material-output node
(node.py lines 558-700): create the group node and its note frame, store
the original output connections, bridge BSDF channels, then drop the
Volume/Displacement links and drive Surface from the passthrough. -/
def processOutput (gdUseTexture : Bool) (name : String) (group : NodeGroup)
    (outName : String) (mat : Material) (texts : List (String × String)) :
    Option (Bool × Material × List (String × String)) :=
  let pName := uniquify name (nodeNames mat)
  let p : Node :=
    { name := pName, type := "GROUP",
      inputs := group.ifaceInputs, outputs := group.ifaceOutputs }
  let mat1 := { mat with nodes := mat.nodes ++ [p] }
  let texts1 := setText texts "_grabdoc_ng_warning" Glob.NG_NODE_WARNING
  let fName := uniquify name (nodeNames mat1)
  let f : Node := { name := fName, type := "FRAME", inputs := [], outputs := [] }
  let mat2 := { mat1 with nodes := mat1.nodes ++ [f] }
  match findNode mat2 outName with
  | none => none  -- cannot occur: the output node was collected above
  | some out =>
    match processOutputInputs gdUseTexture name pName outName
        (p.inputs.map (·.name)) out.inputs mat2 with
    | none => none
    | some (ok, m3) =>
      -- remove all Volume/Displacement output links, rewire Surface
      if !(out.inputs.any (fun s => s.name == "Volume")) then none  -- KeyError
      else if !(out.inputs.any (fun s => s.name == "Displacement")) then none
      else if !(out.inputs.any (fun s => s.name == "Surface")) then none
      else if !(group.ifaceOutputs.contains "Shader") then none
      else
        let m4 := removeLinksInto m3 outName "Volume"
        let m5 := removeLinksInto m4 outName "Displacement"
        let m6 := addLinkReplacing m5
          { fromNode := pName, fromSocket := "Shader",
            toNode := outName, toSocket := "Surface" }
        some (ok, m6, texts1)

/-- Iterating the collected material-output nodes. -/
def processOutputsList (gdUseTexture : Bool) (name : String) (group : NodeGroup)
    (outs : List String) (mat : Material) (texts : List (String × String)) :
    Option (Bool × Material × List (String × String)) :=
  match outs with
  | [] => some (true, mat, texts)
  | o :: rest =>
    match processOutput gdUseTexture name group o mat texts with
    | none => none
    | some (ok, m2, t2) =>
      match processOutputsList gdUseTexture name group rest m2 t2 with
      | none => none
      | some (ok2, m3, t3) => some (ok && ok2, m3, t3)

/-- The whole splice of one material that does not yet contain a node
named `name` (node.py lines 548-700).  When the material has no
material-output node the source calls `.append` on a `set` and raises
`AttributeError`. -/
def spliceCore (gdUseTexture : Bool) (name : String) (group : NodeGroup)
    (mat : Material) (texts : List (String × String)) :
    Option (Bool × Material × List (String × String)) :=
  let outs := (mat.nodes.filter (fun n => n.type == "OUTPUT_MATERIAL")).map (·.name)
  if outs.isEmpty then
    none  -- output_nodes is a set; set.append raises AttributeError
  else
    processOutputsList gdUseTexture name group outs mat texts

/-- The slot name string (`slot.name` is `""` for an empty slot). -/
def slotMatName : Option String → String
  | none => ""
  | some n => n

/-- Handling one material slot (node.py lines 540-700): fetch the
material, force `use_nodes`, skip if the passthrough is already present,
otherwise splice. -/
def spliceMaterial (gdUseTexture : Bool) (name : String) (st : BState)
    (slot : Option String) : Option (Bool × BState) :=
  match st.materials.find? (fun m => m.name == slotMatName slot) with
  | none => none  -- material is None: use_nodes assignment raises
  | some m0 =>
    let m1 := { m0 with use_nodes := true }
    if m1.nodes.any (fun n => n.name == name) then
      some (true, writeMaterial st m1)  -- continue
    else
      match st.node_groups.find? (fun g => g.name == name) with
      | none => none  -- node_group is None: .name raises
      | some g =>
        match spliceCore gdUseTexture name g m1 st.texts with
        | none => none
        | some (ok, m2, t2) =>
          some (ok, { writeMaterial st m2 with texts := t2 })

/-- Iterating an object's material slots. -/
def applySlots (gdUseTexture : Bool) (name : String) (st : BState)
    (slots : List (Option String)) : Option (Bool × BState) :=
  match slots with
  | [] => some (true, st)
  | s :: rest =>
    match spliceMaterial gdUseTexture name st s with
    | none => none
    | some (ok, st2) =>
      match applySlots gdUseTexture name st2 rest with
      | none => none
      | some (ok2, st3) => some (ok && ok2, st3)

/-- The input sockets of a freshly created Principled BSDF node.
Modelled from the host API (Blender 4.2 defaults); only the sockets the
embedded code can observe are listed. -/
def defaultPrincipledInputs : List InputSocket :=
  [⟨"Base Color", .colorT, some (.vColor ⟨4, 5⟩ ⟨4, 5⟩ ⟨4, 5⟩ 1)⟩,
   ⟨"Metallic", .floatT, some (.vFloat 0)⟩,
   ⟨"Roughness", .floatT, some (.vFloat ⟨1, 2⟩)⟩,
   ⟨"IOR", .floatT, some (.vFloat ⟨29, 20⟩)⟩,
   ⟨"Alpha", .floatT, some (.vFloat 1)⟩,
   ⟨"Normal", .vectorT, some (.vVector 0 0 0)⟩,
   ⟨"Emission Color", .colorT, some (.vColor 1 1 1 1)⟩,
   ⟨"Emission Strength", .floatT, some (.vFloat 0)⟩]

/-- The add-on's default material (node.py lines 525-530): a fresh
material with `use_nodes` enabled — whose default tree is a Principled
BSDF driving a Material Output (modelled from the host API) — and a black
Emission Color set explicitly by the source. -/
def gdDefaultMaterial : Material :=
  { name := Glob.GD_MATERIAL_NAME
    use_nodes := true
    blend_method := "OPAQUE"
    nodes :=
      [{ name := "Principled BSDF", type := "BSDF_PRINCIPLED",
         inputs := setInputsDefault defaultPrincipledInputs "Emission Color"
           (.vColor 0 0 0 1),
         outputs := ["BSDF"] },
       { name := "Material Output", type := "OUTPUT_MATERIAL",
         inputs := materialOutputNodeInputs, outputs := [] }]
    links := [⟨"Principled BSDF", "BSDF", "Material Output", "Surface"⟩] }

/-- `ob.active_material = mat`: assigns the active slot, creating one if
the object has none. -/
def setActiveMaterial (ob : Obj) (matName : String) : Obj :=
  if ob.material_slots.isEmpty then
    { ob with material_slots := [some matName], active_index := 0 }
  else
    { ob with material_slots := ob.material_slots.set ob.active_index (some matName) }

/-- Phase one of the per-object handling (node.py lines 519-538): when
the object has no slots or an empty slot, fetch or create the default
material, assign it to every empty slot, and set it active when no
active material exists. -/
def prepareObject (st : BState) (ob : Obj) : Obj × BState :=
  if ob.material_slots.isEmpty || ob.material_slots.any (·.isNone) then
    let stA :=
      if st.materials.any (fun m => m.name == Glob.GD_MATERIAL_NAME) then st
      else { st with materials := st.materials ++ [gdDefaultMaterial] }
    let obA := { ob with material_slots :=
      ob.material_slots.map (fun (s : Option String) =>
        if s.isNone then some Glob.GD_MATERIAL_NAME else s) }
    let obB :=
      match obA.material_slots.get? obA.active_index with
      | some (some _) => obA
      | _ => setActiveMaterial obA Glob.GD_MATERIAL_NAME
    (obB, stA)
  else (ob, st)

/-- Handling one object (node.py lines 518-700): give empty slots the
default material, then splice every slot's material. -/
def applyObject (gdUseTexture : Bool) (name : String) (st : BState) (ob : Obj) :
    Option (Bool × Obj × BState) :=
  match applySlots gdUseTexture name (prepareObject st ob).2
      (prepareObject st ob).1.material_slots with
  | none => none
  | some (ok, st3) => some (ok, (prepareObject st ob).1, st3)

/-- Embedding of `apply_node_to_objects(name, objects)` (node.py lines
514-701).  `gdUseTexture` is `context.scene.gd.normals[0].use_texture`.
Returns the `operation_success` flag, the updated objects and the updated
document, or `none` when the Python code would raise. -/
def apply_node_to_objects (gdUseTexture : Bool) (name : String)
    (objects : List Obj) (st : BState) : Option (Bool × List Obj × BState) :=
  match objects with
  | [] => some (true, [], st)
  | ob :: rest =>
    match applyObject gdUseTexture name st ob with
    | none => none
    | some (ok, ob2, st2) =>
      match apply_node_to_objects gdUseTexture name rest st2 with
      | none => none
      | some (ok2, obs2, st3) => some (ok && ok2, ob2 :: obs2, st3)

/-! ### `node_cleanup` (node.py lines 704-749) -/

/-- Restore the links saved on one input socket of the spliced node back
onto the material-output node (node.py lines 734-748). -/
def cleanupRestoreLinks (mat : Material) (outName : String) (inpName : String)
    (links : List Link) : Option Material :=
  match links with
  | [] => some mat
  | l :: rest =>
    if !(get_material_output_inputs.any (fun p => p.1 == lastWord inpName)) then
      cleanupRestoreLinks mat outName inpName rest  -- continue
    else
      -- original_node_connection / original_node_socket
      match findNode mat l.fromNode with
      | none =>
        if get_material_output_inputs.any (fun p => p.1 == inpName) then
          none  -- None.outputs[...] raises
        else
          cleanupRestoreLinks mat outName inpName rest
      | some orig =>
        if get_material_output_inputs.any (fun p => p.1 == inpName) then
          if !(orig.outputs.contains l.fromSocket) then none  -- KeyError
          else
            match findNodeInput mat outName inpName with
            | none => none  -- output_node.inputs[connection_name] raises
            | some _ =>
              cleanupRestoreLinks
                (addLinkReplacing mat
                  { fromNode := l.fromNode, fromSocket := l.fromSocket,
                    toNode := outName, toSocket := inpName })
                outName inpName rest
        else
          cleanupRestoreLinks mat outName inpName rest

/-- Iterate the spliced node's input sockets during restore. -/
def cleanupRestoreInputs (mat : Material) (nodeName outName : String)
    (inputs : List InputSocket) : Option Material :=
  match inputs with
  | [] => some mat
  | inp :: rest =>
    match cleanupRestoreLinks mat outName inp.name (linksInto mat nodeName inp.name) with
    | none => none
    | some m2 => cleanupRestoreInputs m2 nodeName outName rest

/-- The live scene values read by `node_init`. -/
structure NodeInitParams where
  flip_y : Bool
  occlusion_gamma : Flt
  camera_z : Flt
deriving DecidableEq, Repr

/-- The default `default_value` a fresh interface socket receives. -/
def ifaceSocketDefault : SocketType → Option Value
  | .shaderT => none
  | .floatT => some (.vFloat 0)
  | .intT => some (.vInt 0)
  | .vectorT => some (.vVector 0 0 0)
  | .colorT => some (.vColor 0 0 0 1)

/-- `generate_shader_interface` (node.py lines 15-32): one `Shader`
output plus one input per material-output input (inside a `Saved Links`
panel, which has no behavioural effect and is not modelled). -/
def generateShaderInterfaceInputs : List InputSocket :=
  get_material_output_inputs.map (fun p => ⟨p.1, p.2, ifaceSocketDefault p.2⟩)

/-- The Normals recipe group (node.py lines 62-152).  The second input
socket of the two vector-math nodes and the second and third shader
inputs of the mix node share display names in Blender; their unique
socket identifiers (`Vector_001`, `Shader_001`) are used here. -/
def normalGroup (p : NodeInitParams) : NodeGroup :=
  { name := Glob.NORMAL_NODE
    use_fake_user := true
    ifaceInputs := generateShaderInterfaceInputs ++
      [⟨"Alpha", .floatT, some (.vFloat 1)⟩,
       ⟨"Normal", .vectorT, some (.vVector 0 0 0)⟩]
    ifaceOutputs := ["Shader"]
    nodes :=
      [{ name := "Group Output", type := "GROUP_OUTPUT",
         inputs := [⟨"Shader", .shaderT, none⟩], outputs := [] },
       { name := "Group Input", type := "GROUP_INPUT", inputs := [],
         outputs := ["Surface", "Volume", "Displacement", "Alpha", "Normal"] },
       { name := "Bevel", type := "BEVEL",
         inputs := [⟨"Radius", .floatT, some (.vFloat 0)⟩,
                    ⟨"Normal", .vectorT, some (.vVector 0 0 0)⟩],
         outputs := ["Normal"] },
       { name := "Bevel.001", type := "BEVEL",
         inputs := [⟨"Radius", .floatT, some (.vFloat 0)⟩,
                    ⟨"Normal", .vectorT, some (.vVector 0 0 0)⟩],
         outputs := ["Normal"] },
       { name := "Vector Transform", type := "VECT_TRANSFORM",
         inputs := [⟨"Vector", .vectorT, some (.vVector 0 0 0)⟩],
         outputs := ["Vector"] },
       { name := "Vector Math", type := "VECT_MATH",
         inputs := [⟨"Vector", .vectorT, some (.vVector 0 0 0)⟩,
                    ⟨"Vector_001", .vectorT, some (.vVector ⟨1, 2⟩
                      (if p.flip_y then ⟨-1, 2⟩ else ⟨1, 2⟩) ⟨-1, 2⟩)⟩],
         outputs := ["Vector"] },
       { name := "Vector Math.001", type := "VECT_MATH",
         inputs := [⟨"Vector", .vectorT, some (.vVector 0 0 0)⟩,
                    ⟨"Vector_001", .vectorT, some (.vVector ⟨1, 2⟩ ⟨1, 2⟩ ⟨1, 2⟩)⟩],
         outputs := ["Vector"] },
       { name := "Invert", type := "INVERT",
         inputs := [⟨"Fac", .floatT, some (.vFloat 1)⟩,
                    ⟨"Color", .colorT, some (.vColor 0 0 0 1)⟩],
         outputs := ["Color"] },
       { name := "Subtract", type := "MIX_RGB",
         inputs := [⟨"Fac", .floatT, some (.vFloat 1)⟩,
                    ⟨"Color1", .colorT, some (.vColor 1 1 1 1)⟩,
                    ⟨"Color2", .colorT, some (.vColor 0 0 0 1)⟩],
         outputs := ["Color"] },
       { name := "Transparent BSDF", type := "BSDF_TRANSPARENT",
         inputs := [⟨"Color", .colorT, some (.vColor 1 1 1 1)⟩],
         outputs := ["BSDF"] },
       { name := "Mix Shader", type := "MIX_SHADER",
         inputs := [⟨"Fac", .floatT, some (.vFloat ⟨1, 2⟩)⟩,
                    ⟨"Shader", .shaderT, none⟩,
                    ⟨"Shader_001", .shaderT, none⟩],
         outputs := ["Shader"] }]
    links :=
      [⟨"Group Input", "Normal", "Bevel", "Normal"⟩,
       ⟨"Bevel.001", "Normal", "Vector Transform", "Vector"⟩,
       ⟨"Vector Transform", "Vector", "Vector Math", "Vector"⟩,
       ⟨"Vector Math", "Vector", "Vector Math.001", "Vector"⟩,
       ⟨"Vector Math.001", "Vector", "Group Output", "Shader"⟩,
       ⟨"Group Input", "Alpha", "Invert", "Color"⟩,
       ⟨"Invert", "Color", "Subtract", "Color2"⟩,
       ⟨"Subtract", "Color", "Mix Shader", "Fac"⟩,
       ⟨"Transparent BSDF", "BSDF", "Mix Shader", "Shader"⟩,
       ⟨"Vector Math.001", "Vector", "Mix Shader", "Shader_001"⟩] }

/-- The Curvature recipe group (node.py lines 154-182).  The geometry
and ramp nodes keep their default names. -/
def curvatureGroup : NodeGroup :=
  { name := Glob.CURVATURE_NODE
    use_fake_user := true
    ifaceInputs := generateShaderInterfaceInputs
    ifaceOutputs := ["Shader"]
    nodes :=
      [{ name := "Group Output", type := "GROUP_OUTPUT",
         inputs := [⟨"Shader", .shaderT, none⟩], outputs := [] },
       { name := "Geometry", type := "NEW_GEOMETRY", inputs := [],
         outputs := ["Position", "Normal", "Tangent", "True Normal",
                     "Incoming", "Parametric", "Backfacing", "Pointiness",
                     "Random Per Island"] },
       { name := "Color Ramp", type := "VALTORGB",
         inputs := [⟨"Fac", .floatT, some (.vFloat ⟨1, 2⟩)⟩],
         outputs := ["Color", "Alpha"],
         ramp_elements := [(⟨49, 100⟩, .vColor 0 0 0 1),
                           (⟨1, 2⟩, .vColor ⟨1, 2⟩ ⟨1, 2⟩ ⟨1, 2⟩ 1),
                           (⟨51, 100⟩, .vColor 1 1 1 1)] },
       { name := "Emission", type := "EMISSION",
         inputs := [⟨"Color", .colorT, some (.vColor 1 1 1 1)⟩,
                    ⟨"Strength", .floatT, some (.vFloat 1)⟩],
         outputs := ["Emission"] }]
    links :=
      [⟨"Geometry", "Pointiness", "Color Ramp", "Fac"⟩,
       ⟨"Color Ramp", "Color", "Emission", "Color"⟩,
       ⟨"Emission", "Emission", "Group Output", "Shader"⟩] }

/-- The Occlusion recipe group (node.py lines 184-232). -/
def occlusionGroup (p : NodeInitParams) : NodeGroup :=
  { name := Glob.OCCLUSION_NODE
    use_fake_user := true
    ifaceInputs := generateShaderInterfaceInputs ++
      [⟨"Alpha", .floatT, some (.vFloat 1)⟩,
       ⟨"Normal", .vectorT, some (.vVector ⟨1, 2⟩ ⟨1, 2⟩ 1)⟩]
    ifaceOutputs := ["Shader"]
    nodes :=
      [{ name := "Group Input", type := "GROUP_INPUT", inputs := [],
         outputs := ["Surface", "Volume", "Displacement", "Alpha", "Normal"] },
       { name := "Group Output", type := "GROUP_OUTPUT",
         inputs := [⟨"Shader", .shaderT, none⟩], outputs := [] },
       { name := "Ambient Occlusion", type := "AMBIENT_OCCLUSION",
         inputs := [⟨"Color", .colorT, some (.vColor 1 1 1 1)⟩,
                    ⟨"Distance", .floatT, some (.vFloat 1)⟩,
                    ⟨"Normal", .vectorT, some (.vVector 0 0 0)⟩],
         outputs := ["Color", "AO"] },
       { name := "Gamma", type := "GAMMA",
         inputs := [⟨"Color", .colorT, some (.vColor 1 1 1 1)⟩,
                    ⟨"Gamma", .floatT, some (.vFloat p.occlusion_gamma)⟩],
         outputs := ["Color"] },
       { name := "Emission", type := "EMISSION",
         inputs := [⟨"Color", .colorT, some (.vColor 1 1 1 1)⟩,
                    ⟨"Strength", .floatT, some (.vFloat 1)⟩],
         outputs := ["Emission"] }]
    links :=
      [⟨"Group Input", "Normal", "Ambient Occlusion", "Normal"⟩,
       ⟨"Ambient Occlusion", "Color", "Gamma", "Color"⟩,
       ⟨"Gamma", "Color", "Emission", "Color"⟩,
       ⟨"Emission", "Emission", "Group Output", "Shader"⟩] }

/-- The Height recipe group (node.py lines 234-266). -/
def heightGroup : NodeGroup :=
  { name := Glob.HEIGHT_NODE
    use_fake_user := true
    ifaceInputs := generateShaderInterfaceInputs
    ifaceOutputs := ["Shader"]
    nodes :=
      [{ name := "Group Output", type := "GROUP_OUTPUT",
         inputs := [⟨"Shader", .shaderT, none⟩], outputs := [] },
       { name := "Camera Data", type := "CAMERA", inputs := [],
         outputs := ["View Vector", "View Z Depth", "View Distance"] },
       { name := "Map Range", type := "MAP_RANGE",
         inputs := [⟨"Value", .floatT, some (.vFloat 1)⟩,
                    ⟨"From Min", .floatT, some (.vFloat 0)⟩,
                    ⟨"From Max", .floatT, some (.vFloat 1)⟩,
                    ⟨"To Min", .floatT, some (.vFloat 0)⟩,
                    ⟨"To Max", .floatT, some (.vFloat 1)⟩],
         outputs := ["Result"] },
       { name := "ColorRamp", type := "VALTORGB",
         inputs := [⟨"Fac", .floatT, some (.vFloat ⟨1, 2⟩)⟩],
         outputs := ["Color", "Alpha"],
         ramp_elements := [(0, .vColor 1 1 1 1), (1, .vColor 0 0 0 1)] }]
    links :=
      [⟨"Camera Data", "View Z Depth", "Map Range", "Value"⟩,
       ⟨"Map Range", "Result", "ColorRamp", "Fac"⟩,
       ⟨"ColorRamp", "Color", "Group Output", "Shader"⟩] }

/-- The Alpha recipe group (node.py lines 268-330).  The mix node also
asks for the name `Invert Mask`, already taken by the invert node, so the
host renames it to `Invert Mask.001`. -/
def alphaGroup (p : NodeInitParams) : NodeGroup :=
  { name := Glob.ALPHA_NODE
    use_fake_user := true
    ifaceInputs := generateShaderInterfaceInputs ++
      [⟨Glob.ALPHA_NAME, .floatT, some (.vFloat 1)⟩]
    ifaceOutputs := ["Shader"]
    nodes :=
      [{ name := "Group Output", type := "GROUP_OUTPUT",
         inputs := [⟨"Shader", .shaderT, none⟩], outputs := [] },
       { name := "Group Input", type := "GROUP_INPUT", inputs := [],
         outputs := ["Surface", "Volume", "Displacement", "Alpha"] },
       { name := "Camera Data", type := "CAMERA", inputs := [],
         outputs := ["View Vector", "View Z Depth", "View Distance"] },
       { name := "Map Range", type := "MAP_RANGE",
         inputs := [⟨"Value", .floatT, some (.vFloat 1)⟩,
                    ⟨"From Min", .floatT, some (.vFloat (p.camera_z - ⟨1, 100000⟩))⟩,
                    ⟨"From Max", .floatT, some (.vFloat p.camera_z)⟩,
                    ⟨"To Min", .floatT, some (.vFloat 0)⟩,
                    ⟨"To Max", .floatT, some (.vFloat 1)⟩],
         outputs := ["Result"] },
       { name := "Invert Mask", type := "INVERT",
         inputs := [⟨"Fac", .floatT, some (.vFloat 1)⟩,
                    ⟨"Color", .colorT, some (.vColor 0 0 0 1)⟩],
         outputs := ["Color"] },
       { name := "Invert Depth", type := "INVERT",
         inputs := [⟨"Fac", .floatT, some (.vFloat 1)⟩,
                    ⟨"Color", .colorT, some (.vColor 0 0 0 1)⟩],
         outputs := ["Color"] },
       { name := "Invert Mask.001", type := "MIX",
         inputs := [⟨"Factor", .floatT, some (.vFloat ⟨1, 2⟩)⟩,
                    ⟨"A", .colorT, some (.vColor 0 0 0 1)⟩,
                    ⟨"B", .colorT, some (.vColor 0 0 0 1)⟩],
         outputs := ["Result"] },
       { name := "Emission", type := "EMISSION",
         inputs := [⟨"Color", .colorT, some (.vColor 1 1 1 1)⟩,
                    ⟨"Strength", .floatT, some (.vFloat 1)⟩],
         outputs := ["Emission"] }]
    links :=
      [⟨"Group Input", "Alpha", "Invert Mask", "Color"⟩,
       ⟨"Invert Mask", "Color", "Invert Mask.001", "Factor"⟩,
       ⟨"Camera Data", "View Z Depth", "Map Range", "Value"⟩,
       ⟨"Map Range", "Result", "Invert Depth", "Color"⟩,
       ⟨"Invert Depth", "Color", "Invert Mask.001", "A"⟩,
       ⟨"Invert Mask.001", "Result", "Emission", "Color"⟩,
       ⟨"Emission", "Emission", "Group Output", "Shader"⟩] }

/-- The Color recipe group (node.py lines 332-359). -/
def colorGroup : NodeGroup :=
  { name := Glob.COLOR_NODE
    use_fake_user := true
    ifaceInputs := generateShaderInterfaceInputs ++
      [⟨Glob.COLOR_NAME, .colorT, some (.vColor 0 0 0 1)⟩]
    ifaceOutputs := ["Shader"]
    nodes :=
      [{ name := "Group Output", type := "GROUP_OUTPUT",
         inputs := [⟨"Shader", .shaderT, none⟩], outputs := [] },
       { name := "Group Input", type := "GROUP_INPUT", inputs := [],
         outputs := ["Surface", "Volume", "Displacement", "Base Color"] },
       { name := "Emission", type := "EMISSION",
         inputs := [⟨"Color", .colorT, some (.vColor 1 1 1 1)⟩,
                    ⟨"Strength", .floatT, some (.vFloat 1)⟩],
         outputs := ["Emission"] }]
    links :=
      [⟨"Group Input", "Base Color", "Emission", "Color"⟩,
       ⟨"Emission", "Emission", "Group Output", "Shader"⟩] }

/-- The Emissive recipe group (node.py lines 361-402). -/
def emissiveGroup : NodeGroup :=
  { name := Glob.EMISSIVE_NODE
    use_fake_user := true
    ifaceInputs := generateShaderInterfaceInputs ++
      [⟨"Emission Color", .colorT, some (.vColor 0 0 0 1)⟩,
       ⟨"Emission Strength", .floatT, some (.vFloat 1)⟩]
    ifaceOutputs := ["Shader"]
    nodes :=
      [{ name := "Group Output", type := "GROUP_OUTPUT",
         inputs := [⟨"Shader", .shaderT, none⟩], outputs := [] },
       { name := "Group Input", type := "GROUP_INPUT", inputs := [],
         outputs := ["Surface", "Volume", "Displacement",
                     "Emission Color", "Emission Strength"] },
       { name := "Emission", type := "EMISSION",
         inputs := [⟨"Color", .colorT, some (.vColor 1 1 1 1)⟩,
                    ⟨"Strength", .floatT, some (.vFloat 1)⟩],
         outputs := ["Emission"] }]
    links :=
      [⟨"Group Input", "Emission Color", "Emission", "Color"⟩,
       ⟨"Emission", "Emission", "Group Output", "Shader"⟩] }

/-- The Roughness recipe group (node.py lines 404-446). -/
def roughnessGroup : NodeGroup :=
  { name := Glob.ROUGHNESS_NODE
    use_fake_user := true
    ifaceInputs := generateShaderInterfaceInputs ++
      [⟨"Roughness", .floatT, some (.vFloat 0)⟩]
    ifaceOutputs := ["Shader"]
    nodes :=
      [{ name := "Group Output", type := "GROUP_OUTPUT",
         inputs := [⟨"Shader", .shaderT, none⟩], outputs := [] },
       { name := "Group Input", type := "GROUP_INPUT", inputs := [],
         outputs := ["Surface", "Volume", "Displacement", "Roughness"] },
       { name := "Invert", type := "INVERT",
         inputs := [⟨"Fac", .floatT, some (.vFloat 0)⟩,
                    ⟨"Color", .colorT, some (.vColor 0 0 0 1)⟩],
         outputs := ["Color"] },
       { name := "Emission", type := "EMISSION",
         inputs := [⟨"Color", .colorT, some (.vColor 1 1 1 1)⟩,
                    ⟨"Strength", .floatT, some (.vFloat 1)⟩],
         outputs := ["Emission"] }]
    links :=
      [⟨"Group Input", "Roughness", "Invert", "Color"⟩,
       ⟨"Invert", "Color", "Emission", "Color"⟩,
       ⟨"Emission", "Emission", "Group Output", "Shader"⟩] }

/-- The Metallic recipe group (node.py lines 448-482). -/
def metallicGroup : NodeGroup :=
  { name := Glob.METALLIC_NODE
    use_fake_user := true
    ifaceInputs := generateShaderInterfaceInputs ++
      [⟨"Metallic", .floatT, some (.vFloat 0)⟩]
    ifaceOutputs := ["Shader"]
    nodes :=
      [{ name := "Group Output", type := "GROUP_OUTPUT",
         inputs := [⟨"Shader", .shaderT, none⟩], outputs := [] },
       { name := "Group Input", type := "GROUP_INPUT", inputs := [],
         outputs := ["Surface", "Volume", "Displacement", "Metallic"] },
       { name := "Emission", type := "EMISSION",
         inputs := [⟨"Color", .colorT, some (.vColor 1 1 1 1)⟩,
                    ⟨"Strength", .floatT, some (.vFloat 1)⟩],
         outputs := ["Emission"] }]
    links :=
      [⟨"Group Input", "Metallic", "Emission", "Color"⟩,
       ⟨"Emission", "Emission", "Group Output", "Shader"⟩] }

/-- `if not NAME in bpy.data.node_groups: build` — a recipe is created
only when no group of its name exists. -/
def ensureGroup (g : NodeGroup) (st : BState) : BState :=
  if st.node_groups.any (fun x => x.name == g.name) then st
  else { st with node_groups := st.node_groups ++ [g] }

/-- Embedding of `node_init()` (node.py lines 56-482): build every
missing recipe group, in source order. -/
def node_init (p : NodeInitParams) (st : BState) : BState :=
  ensureGroup metallicGroup
    (ensureGroup roughnessGroup
      (ensureGroup emissiveGroup
        (ensureGroup colorGroup
          (ensureGroup (alphaGroup p)
            (ensureGroup heightGroup
              (ensureGroup (occlusionGroup p)
                (ensureGroup curvatureGroup
                  (ensureGroup (normalGroup p) st))))))))

/-! ### Live parameter pushes (baker.py `update_*` callbacks)

These callbacks write into the recipe node groups or the viewport
shading settings. -/

/-- Assign `inputs[idx].default_value = v` on a node socket list. -/
def setInputIdxDefault : List InputSocket → Nat → Value → List InputSocket
  | [], _, _ => []
  | s :: rest, 0, v => { s with default := some v } :: rest
  | s :: rest, i + 1, v => s :: setInputIdxDefault rest i v

/-- `bpy.data.node_groups[groupName].nodes.get(nodeName).inputs[idx]
.default_value = v`.  `none` when the group (KeyError), the node
(`None.inputs` raises) or the socket index (IndexError) is missing. -/
def setGroupNodeInputIdx (st : BState) (groupName nodeName : String) (idx : Nat)
    (v : Value) : Option BState :=
  match st.node_groups.find? (fun g => g.name == groupName) with
  | none => none
  | some g =>
    match g.nodes.find? (fun n => n.name == nodeName) with
    | none => none
    | some nd =>
      if idx < nd.inputs.length then
        some { st with node_groups := st.node_groups.map (fun x =>
          if x.name == groupName then
            { x with nodes := x.nodes.map (fun n =>
                if n.name == nodeName then
                  { n with inputs := setInputIdxDefault n.inputs idx v }
                else n) }
          else x) }
      else none

/-- Assign both `color_ramp.elements[0].color` and `elements[1].color`
of one group node (`none` on a missing group/node/element). -/
def setRampColorPair (c0 c1 : Value) : List (Flt × Value) → List (Flt × Value)
  | [] => []
  | [e0] => [(e0.1, c0)]
  | e0 :: e1 :: rest => (e0.1, c0) :: (e1.1, c1) :: rest

def setGroupNodeRampColors (st : BState) (groupName nodeName : String)
    (c0 c1 : Value) : Option BState :=
  match st.node_groups.find? (fun g => g.name == groupName) with
  | none => none
  | some g =>
    match g.nodes.find? (fun n => n.name == nodeName) with
    | none => none
    | some nd =>
      if 2 ≤ nd.ramp_elements.length then
        some { st with node_groups := st.node_groups.map (fun x =>
          if x.name == groupName then
            { x with nodes := x.nodes.map (fun n =>
                if n.name == nodeName then
                  { n with ramp_elements := setRampColorPair c0 c1 n.ramp_elements }
                else n) }
          else x) }
      else none

/-- The document state the update callbacks touch: the preview flag, the
viewport shading factors written by the curvature callback, the node
data, and an opaque revision counter for `scene_setup`. -/
structure PreviewCtx where
  preview_state : Bool
  cavity_ridge_factor : Flt
  curvature_ridge_factor : Flt
  curvature_valley_factor : Flt
  data : BState
  scene_rev : Nat
deriving DecidableEq, Repr

/-- Embedding of `Curvature.update_curvature` (baker.py lines 329-336):
early-returns unless a live preview is active, otherwise pushes the
ridge/valley factors into the viewport shading settings. -/
def update_curvature (ridge valley : Flt) (c : PreviewCtx) : PreviewCtx :=
  if !c.preview_state then c
  else
    { c with
      cavity_ridge_factor := ridge
      curvature_ridge_factor := ridge
      curvature_valley_factor := valley }

/-- Embedding of `Occlusion.update_gamma` (baker.py lines 405-407):
writes the gamma into the occlusion group's Gamma node, with no preview
check. -/
def update_gamma (gamma : Flt) (c : PreviewCtx) : Option PreviewCtx :=
  (setGroupNodeInputIdx c.data Glob.OCCLUSION_NODE "Gamma" 1 (.vFloat gamma)).map
    (fun d => { c with data := d })

/-- Embedding of `Occlusion.update_distance` (baker.py lines 409-413):
writes the distance into the occlusion group's Ambient Occlusion node,
with no preview check. -/
def update_distance (distance : Flt) (c : PreviewCtx) : Option PreviewCtx :=
  (setGroupNodeInputIdx c.data Glob.OCCLUSION_NODE "Ambient Occlusion" 1
      (.vFloat distance)).map (fun d => { c with data := d })

/-- Embedding of `Height.update_guide` (baker.py lines 477-502):
unconditionally writes the map-range bounds and ramp colors of the
height group; `scene_setup` (code outside `src/`, modelled from the spec
as an opaque scene revision bump) runs when the method is MANUAL.  The
preview check at the end of the source guards nothing. -/
def update_guide (invert : Bool) (distance : Flt) (method : String)
    (camera_z : Flt) (c : PreviewCtx) : Option PreviewCtx :=
  match setGroupNodeInputIdx c.data Glob.HEIGHT_NODE "Map Range" 1
      (.vFloat (camera_z + -distance)) with
  | none => none
  | some d1 =>
    match setGroupNodeInputIdx d1 Glob.HEIGHT_NODE "Map Range" 2
        (.vFloat camera_z) with
    | none => none
    | some d2 =>
      match setGroupNodeRampColors d2 Glob.HEIGHT_NODE "ColorRamp"
          (if invert then .vColor 0 0 0 1 else .vColor 1 1 1 1)
          (if invert then .vColor 1 1 1 1 else .vColor 0 0 0 1) with
      | none => none
      | some d3 =>
        let c2 := { c with data := d3 }
        some (if method == "MANUAL" then { c2 with scene_rev := c2.scene_rev + 1 }
              else c2)

/-! ### Host render/scene settings (`baker.py`)

`HostState` aggregates every scene/render setting `baker_init`,
`apply_render_settings` and `baker_cleanup` read or write.  The trim
camera and background plane objects are assumed to exist (the add-on's
own scene setup creates them; `baker_init` would raise otherwise). -/

structure HostState where
  use_local_camera : Bool
  camera : Option String
  view_layer_use : Bool
  use_single_layer : Bool
  /-- `scene.world` and its `use_nodes` flag; `none` when the scene has
  no world. -/
  world_use_nodes : Option Bool
  render_engine : String
  display_render_aa : String
  display_viewport_aa : String
  eevee_taa_render_samples : Int
  eevee_taa_samples : Int
  cycles_preview_samples : Int
  cycles_samples : Int
  eevee_use_bloom : Bool
  eevee_use_gtao : Bool
  eevee_gtao_distance : Flt
  eevee_gtao_quality : Flt
  display_device : String
  view_transform : String
  look : String
  exposure : Flt
  view_gamma : Flt
  film_transparent : Bool
  use_high_quality_normals : Bool
  filter_size : Flt
  cycles_filter_width : Flt
  cycles_pixel_filter_type : String
  resolution_x : Int
  resolution_y : Int
  resolution_percentage : Int
  color_mode : String
  file_format : String
  color_depth : String
  png_compression : Int
  use_sequencer : Bool
  use_compositing : Bool
  dither_intensity : Flt
  shading_light : String
  shading_color_type : String
  show_backface_culling : Bool
  show_xray : Bool
  show_shadows : Bool
  show_cavity : Bool
  use_dof : Bool
  show_object_outline : Bool
  show_specular_highlight : Bool
  gd_reference : Option String
  bg_plane_hide_viewport : Bool
  bg_plane_hide_render : Bool
  bg_plane_hide : Bool
deriving DecidableEq, Repr

/-- The GrabDoc scene properties `baker_init` reads. -/
structure GDProps where
  filter_width : Flt
  resolution_x : Int
  resolution_y : Int
  coll_rendered : Bool
  coll_visible : Bool
  format : String
  exr_depth : String
  depth : String
  png_compression : Int
deriving DecidableEq, Repr

/-- The `saved*` fields the bake operator records
(baker.py `baker_init`). -/
structure Snapshot where
  savedViewLayerUse : Bool
  savedUseSingleLayer : Bool
  savedRenderer : String
  savedWorkbenchSampling : String
  savedWorkbenchVPSampling : String
  savedEeveeRenderSampling : Int
  savedEeveeSampling : Int
  savedCyclesSampling : Int
  savedCyclesRenderSampling : Int
  savedUseBloom : Bool
  savedUseAO : Bool
  savedAODistance : Flt
  savedAOQuality : Flt
  savedDisplayDevice : String
  savedViewTransform : String
  savedContrastType : String
  savedExposure : Flt
  savedGamma : Flt
  savedTransparency : Bool
  savedHQNormals : Bool
  savedFilterSize : Flt
  savedFilterSizeCycles : Flt
  savedFilterSizeTypeCycles : String
  savedColorMode : String
  savedFileFormat : String
  savedColorDepth : String
  savedUseSequencer : Bool
  savedUseCompositor : Bool
  savedDitherIntensity : Flt
  savedLight : String
  savedColorType : String
  savedBackface : Bool
  savedXray : Bool
  savedShadows : Bool
  savedCavity : Bool
  savedDOF : Bool
  savedOutline : Bool
  savedShowSpec : Bool
  savedRefSelection : Option String
deriving DecidableEq, Repr

/-- The per-map render properties of a `Baker`
(baker.py lines 24-168). -/
structure BakerProps where
  engine : String
  samples : Int
  samples_cycles : Int
  samples_workbench : String
  contrast : String
  color_space : String
  view_transform : String
deriving DecidableEq, Repr

/-- Embedding of `set_color_management` (baker.py lines 751-763). -/
def set_color_management (display_device view_transform : String)
    (h : HostState) : HostState :=
  { h with
    display_device := display_device
    view_transform := view_transform
    look := "None"
    exposure := 0
    view_gamma := 1 }

/-- Embedding of `Baker.apply_render_settings` (baker.py lines 44-65).
The commented-out preview early-return of the source is absent: settings
are always applied. -/
def apply_render_settings (b : BakerProps) (h : HostState) : HostState :=
  let h1 := { h with render_engine := pyUpper b.engine }
  let h2 :=
    if h1.render_engine == "BLENDER_EEVEE" then
      { h1 with eevee_taa_render_samples := b.samples, eevee_taa_samples := b.samples }
    else if h1.render_engine == "CYCLES" then
      { h1 with cycles_samples := b.samples_cycles,
                cycles_preview_samples := b.samples_cycles }
    else if h1.render_engine == "BLENDER_WORKBENCH" then
      { h1 with display_render_aa := b.samples_workbench,
                display_viewport_aa := b.samples_workbench }
    else h1
  let h3 := set_color_management b.color_space b.view_transform h2
  { h3 with look := pyReplaceUnderscore b.contrast }

/-- Embedding of `baker_init` (baker.py lines 842-972): record every
setting about to be overridden, then apply the bake-global overrides.
`bpy.app.version >= (2, 83, 0)` always holds (the add-on requires
Blender 4.2), so the high-quality-normals block always runs. -/
def baker_init (gd : GDProps) (h : HostState) : Snapshot × HostState :=
  let s : Snapshot :=
    { savedViewLayerUse := h.view_layer_use
      savedUseSingleLayer := h.use_single_layer
      savedRenderer := h.render_engine
      savedWorkbenchSampling := h.display_render_aa
      savedWorkbenchVPSampling := h.display_viewport_aa
      savedEeveeRenderSampling := h.eevee_taa_render_samples
      savedEeveeSampling := h.eevee_taa_samples
      savedCyclesSampling := h.cycles_preview_samples
      savedCyclesRenderSampling := h.cycles_samples
      savedUseBloom := h.eevee_use_bloom
      savedUseAO := h.eevee_use_gtao
      savedAODistance := h.eevee_gtao_distance
      savedAOQuality := h.eevee_gtao_quality
      savedDisplayDevice := h.display_device
      savedViewTransform := h.view_transform
      savedContrastType := h.look
      savedExposure := h.exposure
      savedGamma := h.view_gamma
      savedTransparency := h.film_transparent
      savedHQNormals := h.use_high_quality_normals
      savedFilterSize := h.filter_size
      savedFilterSizeCycles := h.cycles_filter_width
      savedFilterSizeTypeCycles := h.cycles_pixel_filter_type
      savedColorMode := h.color_mode
      savedFileFormat := h.file_format
      savedColorDepth := h.color_depth
      savedUseSequencer := h.use_sequencer
      savedUseCompositor := h.use_compositing
      savedDitherIntensity := h.dither_intensity
      savedLight := h.shading_light
      savedColorType := h.shading_color_type
      savedBackface := h.show_backface_culling
      savedXray := h.show_xray
      savedShadows := h.show_shadows
      savedCavity := h.show_cavity
      savedDOF := h.use_dof
      savedOutline := h.show_object_outline
      savedShowSpec := h.show_specular_highlight
      savedRefSelection := h.gd_reference }
  let h1 :=
    { h with
      use_local_camera := false
      camera := some Glob.TRIM_CAMERA_NAME
      view_layer_use := true
      use_single_layer := true
      world_use_nodes := h.world_use_nodes.map (fun _ => false)
      eevee_use_bloom := false
      eevee_use_gtao := false
      eevee_gtao_distance := ⟨1, 5⟩
      eevee_gtao_quality := ⟨1, 2⟩
      use_high_quality_normals := true
      filter_size := gd.filter_width
      cycles_filter_width := gd.filter_width
      cycles_pixel_filter_type := "BLACKMAN_HARRIS"
      resolution_x := gd.resolution_x
      resolution_y := gd.resolution_y
      resolution_percentage := 100
      use_sequencer := false
      use_compositing := false
      dither_intensity := 0
      show_backface_culling := false
      show_xray := false
      show_shadows := false
      show_cavity := false
      use_dof := false
      show_object_outline := false
      show_specular_highlight := false
      bg_plane_hide_viewport := !gd.coll_visible
      bg_plane_hide_render := !gd.coll_rendered
      bg_plane_hide := false }
  let h2 :=
    if !gd.coll_rendered then
      { h1 with film_transparent := true, color_mode := "RGBA" }
    else
      { h1 with color_mode := "RGB" }
  let h3 := { h2 with file_format := gd.format }
  let h4 :=
    if gd.format == "OPEN_EXR" then { h3 with color_depth := gd.exr_depth }
    else if gd.format != "TARGA" then { h3 with color_depth := gd.depth }
    else h3
  let h5 :=
    if gd.format == "PNG" then { h4 with png_compression := gd.png_compression }
    else h4
  (s, h5)

/-- Embedding of `baker_cleanup` (baker.py lines 975-1053), including
lines 996-997, which assign the current Cycles sampling back into the
snapshot fields instead of restoring the scene from them.  Returns the
(mutated) snapshot together with the restored host state. -/
def baker_cleanup (s : Snapshot) (h : HostState) : Snapshot × HostState :=
  let h1 :=
    { h with
      view_layer_use := s.savedViewLayerUse
      use_single_layer := s.savedUseSingleLayer
      world_use_nodes := h.world_use_nodes.map (fun _ => true)
      render_engine := s.savedRenderer
      display_render_aa := s.savedWorkbenchSampling
      display_viewport_aa := s.savedWorkbenchVPSampling
      eevee_taa_render_samples := s.savedEeveeRenderSampling
      eevee_taa_samples := s.savedEeveeSampling }
  -- lines 996-997: `self.savedCyclesSampling = context.scene.cycles
  -- .preview_samples` (and likewise for `samples`) — the assignment
  -- direction is reversed, so the scene's Cycles sampling is not touched
  let s1 :=
    { s with
      savedCyclesSampling := h1.cycles_preview_samples
      savedCyclesRenderSampling := h1.cycles_samples }
  let h2 :=
    { h1 with
      eevee_use_bloom := s.savedUseBloom
      eevee_use_gtao := s.savedUseAO
      eevee_gtao_distance := s.savedAODistance
      eevee_gtao_quality := s.savedAOQuality
      look := s.savedContrastType
      display_device := s.savedDisplayDevice
      view_transform := s.savedViewTransform
      exposure := s.savedExposure
      view_gamma := s.savedGamma
      film_transparent := s.savedTransparency
      use_high_quality_normals := s.savedHQNormals
      filter_size := s.savedFilterSize
      cycles_filter_width := s.savedFilterSizeCycles
      cycles_pixel_filter_type := s.savedFilterSizeTypeCycles
      color_depth := s.savedColorDepth
      color_mode := s.savedColorMode
      file_format := s.savedFileFormat
      use_sequencer := s.savedUseSequencer
      use_compositing := s.savedUseCompositor
      dither_intensity := s.savedDitherIntensity
      show_cavity := s.savedCavity
      shading_color_type := s.savedColorType
      show_backface_culling := s.savedBackface
      show_xray := s.savedXray
      show_shadows := s.savedShadows
      use_dof := s.savedDOF
      show_object_outline := s.savedOutline
      show_specular_highlight := s.savedShowSpec
      shading_light := s.savedLight }
  let h3 :=
    match s.savedRefSelection with
    | some r => { h2 with gd_reference := some r }
    | none => h2
  (s1, h3)

/-! ### `get_bakers` / `get_bake_maps` (baker.py lines 766-786) -/

/-- One configured bake map's flags (the two booleans
`get_bake_maps` filters on), tagged with its id. -/
structure BakeMap where
  id : String
  enabled : Bool
  visibility : Bool
deriving DecidableEq, Repr

/-- Embedding of `get_bakers` (baker.py lines 766-775): one collection
per id in `Global.ALL_MAP_IDS`; a missing attribute is skipped with a
printed message. -/
def get_bakers (ids : List String) (gd : List (String × List BakeMap)) :
    List (List BakeMap) :=
  match ids with
  | [] => []
  | n :: rest =>
    match gd.find? (fun p => p.1 == n) with
    | some p => p.2 :: get_bakers rest gd
    | none => get_bakers rest gd

/-- The double loop of `get_bake_maps` over the baker collections. -/
def collectBakeMaps (enabled_only : Bool) : List (List BakeMap) → List BakeMap
  | [] => []
  | b :: rest =>
    (b.filter (fun m => !enabled_only || (m.enabled && m.visibility)))
      ++ collectBakeMaps enabled_only rest

/-- Embedding of `get_bake_maps(enabled_only)`
(baker.py lines 778-786). -/
def get_bake_maps (enabled_only : Bool) (ids : List String)
    (gd : List (String × List BakeMap)) : List BakeMap :=
  collectBakeMaps enabled_only (get_bakers ids gd)

/-! ### Observation helpers used by the theorems -/

/-- Read `node_groups[g].nodes.get(n).inputs[i].default_value`. -/
def groupNodeInputValue (st : BState) (g n : String) (i : Nat) :
    Option (Option Value) :=
  (st.node_groups.find? (fun x => x.name == g)).bind (fun gr =>
    (gr.nodes.find? (fun x => x.name == n)).bind (fun nd =>
      (nd.inputs.get? i).map (fun s => s.default)))

/-- The `Emission Color` default of a material's Principled BSDF node. -/
def bsdfEmissionColor (m : Material) : Option (Option Value) :=
  (m.nodes.find? (fun n => n.name == "Principled BSDF")).bind
    (fun n => (n.inputs.find? (fun s => s.name == "Emission Color")).map (·.default))

/-- Whether the material's tree holds a node of the given name. -/
def hasNode (m : Material) (nm : String) : Bool :=
  m.nodes.any (fun x => x.name == nm)

/-- The (name, type) skeleton of a material's node list. -/
def projNT (m : Material) : List (String × String) :=
  m.nodes.map (fun n => (n.name, n.type))

/-- The names of the material's output nodes, in tree order. -/
def outputNames (m : Material) : List String :=
  (m.nodes.filter (fun n => n.type == "OUTPUT_MATERIAL")).map (·.name)

/-- The invariant established by a successful splice of one slot: the
slot's material exists, has `use_nodes` set and holds a node named after
the recipe (so a second run skips it). -/
def MatReady (name sn : String) (st : BState) : Prop :=
  ∃ m, st.materials.find? (fun x => x.name == sn) = some m
    ∧ m.use_nodes = true ∧ hasNode m name = true

/-- Two materials agreeing on everything the skip test and the cleanup
scan observe: identity, `use_nodes` and the node (name, type) skeleton. -/
def SameSkel (m m2 : Material) : Prop :=
  m2.name = m.name ∧ m2.use_nodes = m.use_nodes ∧ projNT m2 = projNT m

/-- The first node named `Principled BSDF` of a material (the node whose
`Emission Color` input `bsdfEmissionColor` reads). -/
def bsdfNode (m : Material) : Option Node :=
  m.nodes.find? (fun n => n.name == "Principled BSDF")

/-- The document holds a material named `GD_Material` whose Principled
BSDF still carries the black Emission Color: either the untouched default
material, or a copy already spliced with the recipe node. -/
def GDStage (name : String) (st : BState) : Prop :=
  ∃ m, st.materials.find? (fun x => x.name == Glob.GD_MATERIAL_NAME) = some m
    ∧ m.use_nodes = true
    ∧ bsdfEmissionColor m = some (some (.vColor 0 0 0 1))
    ∧ (m = gdDefaultMaterial ∨ hasNode m name = true)

/-- Either no material named `GD_Material` exists yet, or the one that
does is in `GDStage`. -/
def GDInv (name : String) (st : BState) : Prop :=
  st.materials.find? (fun x => x.name == Glob.GD_MATERIAL_NAME) = none
  ∨ GDStage name st

/-- The recipe/BSDF-channel pairs bridged during the splice: the branch
conditions of node.py lines 620-685, one disjunct per `elif` arm. -/
def matchesChannel (name inpName : String) : Bool :=
  (name == Glob.COLOR_NODE && inpName == Glob.COLOR_NAME)
  || (name == Glob.EMISSIVE_NODE && inpName == "Emission Color")
  || (name == Glob.ROUGHNESS_NODE && inpName == Glob.ROUGHNESS_NAME)
  || (name == Glob.METALLIC_NODE && inpName == Glob.METALLIC_NAME)
  || (name == Glob.ALPHA_NODE && inpName == Glob.ALPHA_NAME)
  || (name == Glob.NORMAL_NODE && inpName == "Normal")
  || (name == Glob.OCCLUSION_NODE && inpName == "Normal")

/-- The passthrough socket names channel bridging can write to: the
second component of each pair of `matchesChannel`. -/
def bridgedChannelNames : List String :=
  [Glob.COLOR_NAME, "Emission Color", Glob.ROUGHNESS_NAME,
   Glob.METALLIC_NAME, Glob.ALPHA_NAME, "Normal"]

/-- Whether one link into a material-output input keeps the success flag:
`false` exactly when the link's source node is a BSDF of a shader-map
recipe, no expected channel socket of that BSDF carries an incoming link,
and neither the Normal-recipe nor the default-material exemption applies
(node.py lines 613-701). -/
def linkChannelOk (name : String) (mat : Material) (l : Link) : Bool :=
  match findNode mat l.fromNode with
  | none => true
  | some src =>
    if !(Glob.SHADER_MAP_NAMES.contains name) || !(strHasBSDF src.type) then
      true
    else
      ((src.inputs.filter (fun i => matchesChannel name i.name)).any
        (fun i => !(linksInto mat src.name i.name).isEmpty))
      || name == Glob.NORMAL_NODE || mat.name == Glob.GD_MATERIAL_NAME

/-- The channel check over a whole material: every link into every input
of every material-output node passes `linkChannelOk`. -/
def channelsOk (name : String) (mat : Material) : Bool :=
  ((mat.nodes.filter (fun n => n.type == "OUTPUT_MATERIAL")).map (·.name)).all
    (fun o =>
      match findNode mat o with
      | none => true
      | some out =>
        out.inputs.all (fun inp =>
          (linksInto mat o inp.name).all (fun l => linkChannelOk name mat l)))

/-- The contribution of one material slot to the overall success flag:
an already-spliced material is skipped (contributing `true`), otherwise
the splice contributes its channel check. -/
def slotFlag (name : String) (st : BState) (s : Option String) : Bool :=
  match st.materials.find? (fun m => m.name == slotMatName s) with
  | none => true
  | some m0 => if hasNode m0 name then true else channelsOk name m0

/-- Well-formedness of a material for the flag analysis: unique node
names, links leaving existing nodes, at most one expected-channel socket
per node and a single material-output node (as Blender guarantees). -/
def wfChannels (name : String) (m : Material) : Bool :=
  decide (nodeNames m).Nodup
  && m.links.all (fun l => (nodeNames m).contains l.fromNode)
  && m.nodes.all (fun n =>
      decide ((n.inputs.filter (fun i => matchesChannel name i.name)).length ≤ 1))
  && decide ((m.nodes.filter (fun n => n.type == "OUTPUT_MATERIAL")).length = 1)

/-- Well-formedness of a material for the splice/cleanup round trip:
unique node names, no node named after the recipe (so the passthrough
keeps the recipe name and the cleanup scan finds only splice nodes),
links between existing nodes leaving existing sockets, one
material-output node with the standard Surface/Volume/Displacement
inputs each fed by at most one link, and not the default material
(which the cleanup deletes outright). -/
def wfRoundtrip (name : String) (m : Material) : Bool :=
  decide (nodeNames m).Nodup
  && m.nodes.all (fun n => !(strStarts n.name name))
  && m.links.all (fun l =>
      (nodeNames m).contains l.fromNode && (nodeNames m).contains l.toNode)
  && m.links.all (fun l =>
      match findNode m l.fromNode with
      | none => false
      | some src => src.outputs.contains l.fromSocket)
  && (match m.nodes.filter (fun n => n.type == "OUTPUT_MATERIAL") with
      | [out] =>
        decide (out.inputs.map (fun s => s.name)
          = ["Surface", "Volume", "Displacement"])
        && (["Surface", "Volume", "Displacement"] : List String).all
            (fun x => decide ((linksInto m out.name x).length ≤ 1))
      | _ => false)
  && !(m.name == Glob.GD_MATERIAL_NAME)

/-- Well-formedness of the recipe group's interface for the round trip:
the three material-output socket names are present and unique, and every
other input socket's name cannot be mistaken for one of them by the
cleanup's `split(' ')[-1]` prefilter.  Every recipe built by `node_init`
satisfies this. -/
def wfGroup (g : NodeGroup) : Bool :=
  (g.ifaceInputs.map (fun s => s.name)).contains "Surface"
  && (g.ifaceInputs.map (fun s => s.name)).contains "Volume"
  && (g.ifaceInputs.map (fun s => s.name)).contains "Displacement"
  && decide (g.ifaceInputs.map (fun s => s.name)).Nodup
  && g.ifaceInputs.all (fun i =>
      (["Surface", "Volume", "Displacement"] : List String).contains i.name
      || !(get_material_output_inputs.any (fun p => p.1 == lastWord i.name)))

/-- The splice's node mutations seen from outside: every node keeps its
name, type, outputs, input-socket names and ramp, and every node other
than the passthrough `pN` is untouched. -/
def NodeMapRel (pN : String) (m m2 : Material) : Prop :=
  m2.name = m.name ∧ m2.use_nodes = m.use_nodes
  ∧ ∃ F, m2.nodes = m.nodes.map F
    ∧ ∀ n, (F n).name = n.name ∧ (F n).type = n.type
        ∧ (F n).outputs = n.outputs
        ∧ (F n).inputs.map (fun s => s.name) = n.inputs.map (fun s => s.name)
        ∧ (F n).ramp_elements = n.ramp_elements
        ∧ ((n.name == pN) = false → F n = n)

/-- What one channel-bridging step may change: links into the
passthrough's channel sockets and the passthrough node itself; every
added link copies the source pair of an existing link and targets the
passthrough. -/
def StepRel (pN : String) (m m2 : Material) : Prop :=
  (∀ y x, ((y == pN) = false ∨ bridgedChannelNames.contains x = false) →
    linksInto m2 y x = linksInto m y x)
  ∧ NodeMapRel pN m m2
  ∧ (∀ l2, l2 ∈ m2.links → l2 ∈ m.links
      ∨ ∃ l, l ∈ m.links ∧ l2.fromNode = l.fromNode
          ∧ l2.fromSocket = l.fromSocket ∧ l2.toNode = pN)

/-- Like `StepRel` but allowing link changes into any socket of the
passthrough `pN` (the phase-1 store writes the original output connection
onto Surface/Volume/Displacement of the passthrough). -/
def StepRelW (pN : String) (m m2 : Material) : Prop :=
  (∀ y x, (y == pN) = false → linksInto m2 y x = linksInto m y x)
  ∧ NodeMapRel pN m m2
  ∧ (∀ l2, l2 ∈ m2.links → l2 ∈ m.links
      ∨ ∃ l, l ∈ m.links ∧ l2.fromNode = l.fromNode
          ∧ l2.fromSocket = l.fromSocket ∧ l2.toNode = pN)

/-! ### Concrete example states used by witnesses and counterexamples -/

/-- A freshly created Principled BSDF node. -/
def exBsdf : Node :=
  { name := "Principled BSDF", type := "BSDF_PRINCIPLED",
    inputs := defaultPrincipledInputs, outputs := ["BSDF"] }

/-- A material-output node instance. -/
def exOut : Node :=
  { name := "Material Output", type := "OUTPUT_MATERIAL",
    inputs := materialOutputNodeInputs, outputs := [] }

/-- An image-texture node. -/
def exTex : Node :=
  { name := "Image Texture", type := "TEX_IMAGE", inputs := [],
    outputs := ["Color", "Alpha"] }

/-- An object with one slot pointing at the material `Mat`. -/
def exObMat : Obj := { name := "Cube", material_slots := [some "Mat"], active_index := 0 }

/-- An object with a single empty material slot. -/
def exObEmptySlot : Obj := { name := "Plane", material_slots := [none], active_index := 0 }

/-- A Principled material whose `Roughness` socket is optionally fed by
an image texture. -/
def exChannelMat (linked : Bool) : Material :=
  { name := "Mat", use_nodes := true, blend_method := "OPAQUE",
    nodes := [exTex, exBsdf, exOut],
    links :=
      (if linked then [⟨"Image Texture", "Color", "Principled BSDF", "Roughness"⟩]
       else []) ++
      [⟨"Principled BSDF", "BSDF", "Material Output", "Surface"⟩] }

def exChannelState (linked : Bool) : BState :=
  { materials := [exChannelMat linked], node_groups := [roughnessGroup], texts := [] }

/-- A Principled material state paired with the Normals recipe. -/
def exNormalState : BState :=
  { materials := [exChannelMat false],
    node_groups := [normalGroup ⟨false, 1, 5⟩], texts := [] }

/-- A Principled material state paired with the Color recipe. -/
def exColorState : BState :=
  { materials := [exChannelMat false], node_groups := [colorGroup], texts := [] }

/-- A document with no materials at all (forces default-material
creation) and the Roughness recipe. -/
def exEmptyRoughState : BState :=
  { materials := [], node_groups := [roughnessGroup], texts := [] }

/-- A document with no materials and the Normals recipe. -/
def exEmptyNormalState : BState :=
  { materials := [], node_groups := [normalGroup ⟨false, 1, 5⟩], texts := [] }

/-- Non-BSDF shader sources for the round-trip family. -/
def exSrcSurf : Node :=
  { name := "SrcSurf", type := "EMISSION", inputs := [], outputs := ["Emission"] }

def exSrcVol : Node :=
  { name := "SrcVol", type := "VOLUME_SCATTER", inputs := [], outputs := ["Volume"] }

def exSrcDisp : Node :=
  { name := "SrcDisp", type := "DISPLACEMENT", inputs := [], outputs := ["Displacement"] }

/-- The round-trip family: one output node whose Surface, Volume and
Displacement inputs are fed (or not, per the three flags) by three
distinct source nodes. -/
def exRoundMat (bS bV bD : Bool) : Material :=
  { name := "Mat", use_nodes := true, blend_method := "OPAQUE",
    nodes := [exSrcSurf, exSrcVol, exSrcDisp, exOut],
    links :=
      (if bS then [⟨"SrcSurf", "Emission", "Material Output", "Surface"⟩] else []) ++
      (if bV then [⟨"SrcVol", "Volume", "Material Output", "Volume"⟩] else []) ++
      (if bD then [⟨"SrcDisp", "Displacement", "Material Output", "Displacement"⟩] else []) }

def exRoundState (bS bV bD : Bool) : BState :=
  { materials := [exRoundMat bS bV bD],
    node_groups := [normalGroup ⟨false, 1, 5⟩], texts := [] }

/-- A material without any material-output node. -/
def exNoOutMat : Material :=
  { name := "NoOut", use_nodes := true, blend_method := "OPAQUE",
    nodes := [{ name := "Emission", type := "EMISSION", inputs := [],
                outputs := ["Emission"] }],
    links := [] }

def exObNoOut : Obj := { name := "Cube", material_slots := [some "NoOut"], active_index := 0 }

def exNoOutState : BState :=
  { materials := [exNoOutMat], node_groups := [normalGroup ⟨false, 1, 5⟩], texts := [] }

/-- The material used by the `create_node_links` witness: a passthrough
with an int-typed input and a BSDF with an unlinked float socket, so the
float-to-int coercion path runs. -/
def exCnlMat : Material :=
  { name := "M", use_nodes := true, blend_method := "OPAQUE",
    nodes := [{ name := "P", type := "GROUP",
                inputs := [⟨"X", .intT, some (.vInt 0)⟩], outputs := ["Shader"] },
              { name := "S", type := "BSDF_PRINCIPLED",
                inputs := [⟨"Rough", .floatT, some (.vFloat ⟨3, 2⟩)⟩],
                outputs := ["BSDF"] }],
    links := [] }

/-- The preview context used by the C7 counterexample: preview off, the
occlusion recipe built with gamma 1. -/
def exPreviewOff : PreviewCtx :=
  { preview_state := false, cavity_ridge_factor := 1, curvature_ridge_factor := 1,
    curvature_valley_factor := 1,
    data := { materials := [], node_groups := [occlusionGroup ⟨false, 1, 5⟩],
              texts := [] },
    scene_rev := 0 }

/-- The GrabDoc scene properties used in the bake-run example. -/
def exGDProps : GDProps :=
  { filter_width := 1, resolution_x := 1024, resolution_y := 1024,
    coll_rendered := true, coll_visible := true, format := "PNG",
    exr_depth := "16", depth := "8", png_compression := 50 }

/-- A host state before a bake run, with Cycles sampling at 100/50. -/
def exHost : HostState :=
  { use_local_camera := true, camera := none, view_layer_use := false,
    use_single_layer := false, world_use_nodes := some true,
    render_engine := "BLENDER_EEVEE", display_render_aa := "8",
    display_viewport_aa := "8", eevee_taa_render_samples := 64,
    eevee_taa_samples := 16, cycles_preview_samples := 50, cycles_samples := 100,
    eevee_use_bloom := true, eevee_use_gtao := true, eevee_gtao_distance := 1,
    eevee_gtao_quality := 1, display_device := "sRGB", view_transform := "Filmic",
    look := "High Contrast", exposure := 2, view_gamma := 2, film_transparent := false,
    use_high_quality_normals := false, filter_size := 3, cycles_filter_width := 2,
    cycles_pixel_filter_type := "GAUSSIAN", resolution_x := 1920, resolution_y := 1080,
    resolution_percentage := 50, color_mode := "BW", file_format := "JPEG",
    color_depth := "8", png_compression := 15, use_sequencer := true,
    use_compositing := true, dither_intensity := 1, shading_light := "STUDIO",
    shading_color_type := "MATERIAL", show_backface_culling := true, show_xray := true,
    show_shadows := true, show_cavity := true, use_dof := true,
    show_object_outline := true, show_specular_highlight := true,
    gd_reference := none, bg_plane_hide_viewport := false,
    bg_plane_hide_render := false, bg_plane_hide := true }

/-- The Color bake map configured for Cycles (its `setup()` is the base
`Baker.setup`, which just calls `apply_render_settings`). -/
def exColorCycles : BakerProps :=
  { engine := "cycles", samples := 128, samples_cycles := 32,
    samples_workbench := "16", contrast := "None",
    color_space := "sRGB", view_transform := "Standard" }

/-- The bake run of the C1 example: global init, one Cycles map's
`setup()`, render (opaque to this code), global cleanup. -/
def exBakeRun : Snapshot × HostState :=
  let r1 := baker_init exGDProps exHost
  let h2 := apply_render_settings exColorCycles r1.2
  baker_cleanup r1.1 h2

/-- The result of the first `apply_node_to_objects` run used by the
idempotence witness. -/
def exIdemRun : Bool × List Obj × BState :=
  (apply_node_to_objects true Glob.NORMAL_NODE [exObMat]
    (exRoundState true true true)).getD (true, [], ⟨[], [], []⟩)

/-- The result of the run used by the default-material witness. -/
def exDefaultRun : Bool × List Obj × BState :=
  (apply_node_to_objects true Glob.NORMAL_NODE [exObEmptySlot]
    exEmptyNormalState).getD (true, [], ⟨[], [], []⟩)

/-- The context after pushing gamma 2 with preview off (used by the C7
witness). -/
def exGammaRun : PreviewCtx := (update_gamma 2 exPreviewOff).getD exPreviewOff

/-- The context after a guide update (used by the C7 witness). -/
def exGuideRun : PreviewCtx :=
  (update_guide false 2 "MANUAL" 5
    { exPreviewOff with
      data := { materials := [], node_groups := [heightGroup], texts := [] } }).getD
    exPreviewOff

/-- The result of the Roughness-recipe run over the unlinked channel
material (used by the C5 witness). -/
def exFlagRun : Bool × List Obj × BState :=
  (apply_node_to_objects true Glob.ROUGHNESS_NODE [exObMat]
    (exChannelState false)).getD (true, [], ⟨[], [], []⟩)

/-!
## Theorems

First a small library of lemmas about the generic helpers, then one
theorem per claim (with witnesses and counterexamples where required).
-/

/-! ### `ensureGroup` lemmas (claim C2) -/

theorem ensure_mem_self (g : NodeGroup) (st : BState) :
    ((ensureGroup g st).node_groups.any (fun x => x.name == g.name)) = true := by
  unfold ensureGroup
  split
  · assumption
  · simp [List.any_append]

theorem ensure_mem_mono (g : NodeGroup) (st : BState) (n : String)
    (h : st.node_groups.any (fun x => x.name == n) = true) :
    ((ensureGroup g st).node_groups.any (fun x => x.name == n)) = true := by
  unfold ensureGroup
  split
  · exact h
  · simp [List.any_append, h]

theorem ensure_of_mem (g : NodeGroup) (st : BState)
    (h : st.node_groups.any (fun x => x.name == g.name) = true) :
    ensureGroup g st = st := by
  unfold ensureGroup
  simp [h]

/-- Claim C2: running `node_init` twice yields exactly the state of
running it once — every recipe is looked up by name before construction,
so the second run builds nothing (in particular the set of node-group
names and every per-group node count are unchanged). -/
theorem node_init_idempotent (p : NodeInitParams) (st : BState) :
    node_init p (node_init p st) = node_init p st := by
  have h1 : (node_init p st).node_groups.any
      (fun x => x.name == (normalGroup p).name) = true := by
    unfold node_init
    exact ensure_mem_mono _ _ _ (ensure_mem_mono _ _ _ (ensure_mem_mono _ _ _
      (ensure_mem_mono _ _ _ (ensure_mem_mono _ _ _ (ensure_mem_mono _ _ _
      (ensure_mem_mono _ _ _ (ensure_mem_mono _ _ _ (ensure_mem_self _ _))))))))
  have h2 : (node_init p st).node_groups.any
      (fun x => x.name == curvatureGroup.name) = true := by
    unfold node_init
    exact ensure_mem_mono _ _ _ (ensure_mem_mono _ _ _ (ensure_mem_mono _ _ _
      (ensure_mem_mono _ _ _ (ensure_mem_mono _ _ _ (ensure_mem_mono _ _ _
      (ensure_mem_mono _ _ _ (ensure_mem_self _ _)))))))
  have h3 : (node_init p st).node_groups.any
      (fun x => x.name == (occlusionGroup p).name) = true := by
    unfold node_init
    exact ensure_mem_mono _ _ _ (ensure_mem_mono _ _ _ (ensure_mem_mono _ _ _
      (ensure_mem_mono _ _ _ (ensure_mem_mono _ _ _ (ensure_mem_mono _ _ _
      (ensure_mem_self _ _))))))
  have h4 : (node_init p st).node_groups.any
      (fun x => x.name == heightGroup.name) = true := by
    unfold node_init
    exact ensure_mem_mono _ _ _ (ensure_mem_mono _ _ _ (ensure_mem_mono _ _ _
      (ensure_mem_mono _ _ _ (ensure_mem_mono _ _ _ (ensure_mem_self _ _)))))
  have h5 : (node_init p st).node_groups.any
      (fun x => x.name == (alphaGroup p).name) = true := by
    unfold node_init
    exact ensure_mem_mono _ _ _ (ensure_mem_mono _ _ _ (ensure_mem_mono _ _ _
      (ensure_mem_mono _ _ _ (ensure_mem_self _ _))))
  have h6 : (node_init p st).node_groups.any
      (fun x => x.name == colorGroup.name) = true := by
    unfold node_init
    exact ensure_mem_mono _ _ _ (ensure_mem_mono _ _ _ (ensure_mem_mono _ _ _
      (ensure_mem_self _ _)))
  have h7 : (node_init p st).node_groups.any
      (fun x => x.name == emissiveGroup.name) = true := by
    unfold node_init
    exact ensure_mem_mono _ _ _ (ensure_mem_mono _ _ _ (ensure_mem_self _ _))
  have h8 : (node_init p st).node_groups.any
      (fun x => x.name == roughnessGroup.name) = true := by
    unfold node_init
    exact ensure_mem_mono _ _ _ (ensure_mem_self _ _)
  have h9 : (node_init p st).node_groups.any
      (fun x => x.name == metallicGroup.name) = true := by
    unfold node_init
    exact ensure_mem_self _ _
  show ensureGroup metallicGroup (ensureGroup roughnessGroup (ensureGroup emissiveGroup
    (ensureGroup colorGroup (ensureGroup (alphaGroup p) (ensureGroup heightGroup
    (ensureGroup (occlusionGroup p) (ensureGroup curvatureGroup
    (ensureGroup (normalGroup p) (node_init p st))))))))) = node_init p st
  rw [ensure_of_mem _ _ h1, ensure_of_mem _ _ h2, ensure_of_mem _ _ h3,
      ensure_of_mem _ _ h4, ensure_of_mem _ _ h5, ensure_of_mem _ _ h6,
      ensure_of_mem _ _ h7, ensure_of_mem _ _ h8, ensure_of_mem _ _ h9]

/-! ### `get_bake_maps` (claim C10) -/

theorem collect_false_join (L : List (List BakeMap)) :
    collectBakeMaps false L = L.flatten := by
  induction L with
  | nil => rfl
  | cons b t ih => simp [collectBakeMaps, ih]

theorem collect_true_filter (L : List (List BakeMap)) :
    collectBakeMaps true L
      = (collectBakeMaps false L).filter (fun m => m.enabled && m.visibility) := by
  induction L with
  | nil => rfl
  | cons b t ih => simp [collectBakeMaps, ih, List.filter_append]

/-- Claim C10: `get_bake_maps false` returns every configured bake map
(the flattened baker collections, both flags ignored), while
`get_bake_maps true` keeps exactly the maps whose `enabled` and
`visibility` flags are both set — one with `enabled` but `visibility`
cleared is excluded by the filter. -/
theorem get_bake_maps_enabled_visibility (ids : List String)
    (gd : List (String × List BakeMap)) :
    get_bake_maps false ids gd = (get_bakers ids gd).flatten
    ∧ get_bake_maps true ids gd
        = (get_bake_maps false ids gd).filter (fun m => m.enabled && m.visibility) :=
  ⟨collect_false_join _, by
    rw [get_bake_maps, get_bake_maps, collect_true_filter]⟩

/-! ### The bake-run snapshot (claim C1) -/

/-- Claim C1 (code bug): `baker_init` captures the scene's Cycles
sampling (100 render / 50 preview samples here), a Cycles bake map's
`setup()` overrides it (32), but after `baker_cleanup` the scene still
holds 32 — lines 996-997 of baker.py re-capture the current values into
the snapshot instead of restoring the scene from it.  The other sampled
fields of the same run (engine, Eevee sampling, contrast look) are
restored correctly, so the claim fails exactly on the Cycles sampling
fields. -/
theorem baker_cycles_sampling_not_restored :
    (baker_init exGDProps exHost).1.savedCyclesRenderSampling = 100
    ∧ (baker_init exGDProps exHost).1.savedCyclesSampling = 50
    ∧ exHost.cycles_samples = 100
    ∧ exBakeRun.2.cycles_samples = 32
    ∧ exBakeRun.2.cycles_preview_samples = 32
    ∧ exBakeRun.2.render_engine = exHost.render_engine
    ∧ exBakeRun.2.eevee_taa_samples = exHost.eevee_taa_samples
    ∧ exBakeRun.2.look = exHost.look := by
  decide

/-! ### Live parameter pushes (claim C7) -/

theorem find?_map_nameKeep {α : Type} (p : α → Bool) (f : α → α) (l : List α)
    (hf : ∀ x, p (f x) = p x) :
    (l.map f).find? p = (l.find? p).map f := by
  rw [List.find?_map, show p ∘ f = p from funext hf]

theorem setInputIdxDefault_get_self (l : List InputSocket) (i : Nat) (v : Value) :
    (setInputIdxDefault l i v).get? i
      = (l.get? i).map (fun s => { s with default := some v }) := by
  induction l generalizing i with
  | nil => cases i <;> rfl
  | cons s t ih =>
    cases i with
    | zero => rfl
    | succ j => simpa [setInputIdxDefault] using ih j

theorem setInputIdxDefault_get_ne (l : List InputSocket) (i j : Nat) (v : Value)
    (h : j ≠ i) : (setInputIdxDefault l i v).get? j = l.get? j := by
  induction l generalizing i j with
  | nil => cases i <;> rfl
  | cons s t ih =>
    cases i with
    | zero =>
      cases j with
      | zero => exact absurd rfl h
      | succ k => rfl
    | succ i2 =>
      cases j with
      | zero => rfl
      | succ k => simpa [setInputIdxDefault] using ih i2 k (fun hk => h (by rw [hk]))

theorem find?_prop {α : Type} (p : α → Bool) (l : List α) (a : α)
    (h : l.find? p = some a) : p a = true := List.find?_some h

theorem groupNodeInputValue_set_self (st st2 : BState) (g n : String) (i : Nat)
    (v : Value) (h : setGroupNodeInputIdx st g n i v = some st2) :
    groupNodeInputValue st2 g n i = some (some v) := by
  unfold setGroupNodeInputIdx at h
  split at h
  next => exact absurd h (by simp)
  next gr hg =>
    split at h
    next => exact absurd h (by simp)
    next nd hn =>
      split at h
      next hlen =>
        have hst2 := (Option.some.injEq _ _).mp h
        subst hst2
        have hgname : (gr.name == g) = true :=
          find?_prop (fun x => x.name == g) st.node_groups gr hg
        have hnname : (nd.name == n) = true :=
          find?_prop (fun x => x.name == n) gr.nodes nd hn
        simp only [groupNodeInputValue]
        rw [find?_map_nameKeep (fun x => x.name == g) _ st.node_groups
            (by intro x; by_cases hx : (x.name == g) = true
                · rw [if_pos hx]
                · rw [if_neg hx]), hg]
        simp only [Option.map_some', Option.some_bind, hgname, if_true]
        rw [find?_map_nameKeep (fun x => x.name == n) _ gr.nodes
            (by intro x; by_cases hx : (x.name == n) = true
                · rw [if_pos hx]
                · rw [if_neg hx]), hn]
        simp only [Option.map_some', Option.some_bind, hnname, if_true]
        rw [setInputIdxDefault_get_self, List.get?_eq_get hlen]
        rfl
      next => exact absurd h (by simp)

theorem groupNodeInputValue_set_ne (st st2 : BState) (g n : String) (i j : Nat)
    (v : Value) (h : setGroupNodeInputIdx st g n i v = some st2) (hj : j ≠ i) :
    groupNodeInputValue st2 g n j = groupNodeInputValue st g n j := by
  unfold setGroupNodeInputIdx at h
  split at h
  next => exact absurd h (by simp)
  next gr hg =>
    split at h
    next => exact absurd h (by simp)
    next nd hn =>
      split at h
      next hlen =>
        have hst2 := (Option.some.injEq _ _).mp h
        subst hst2
        have hgname : (gr.name == g) = true :=
          find?_prop (fun x => x.name == g) st.node_groups gr hg
        have hnname : (nd.name == n) = true :=
          find?_prop (fun x => x.name == n) gr.nodes nd hn
        simp only [groupNodeInputValue]
        rw [find?_map_nameKeep (fun x => x.name == g) _ st.node_groups
            (by intro x; by_cases hx : (x.name == g) = true
                · rw [if_pos hx]
                · rw [if_neg hx]), hg]
        simp only [Option.map_some', Option.some_bind, hgname, if_true]
        rw [find?_map_nameKeep (fun x => x.name == n) _ gr.nodes
            (by intro x; by_cases hx : (x.name == n) = true
                · rw [if_pos hx]
                · rw [if_neg hx]), hn]
        simp only [Option.map_some', Option.some_bind, hnname, if_true]
        rw [setInputIdxDefault_get_ne _ _ _ _ hj]
      next => exact absurd h (by simp)

theorem groupNodeInputValue_ramp (st st2 : BState) (g n : String) (c0 c1 : Value)
    (h : setGroupNodeRampColors st g n c0 c1 = some st2) (g2 n2 : String) (j : Nat) :
    groupNodeInputValue st2 g2 n2 j = groupNodeInputValue st g2 n2 j := by
  unfold setGroupNodeRampColors at h
  split at h
  next => exact absurd h (by simp)
  next gr hg =>
    split at h
    next => exact absurd h (by simp)
    next nd hn =>
      split at h
      next hlen =>
        have hst2 := (Option.some.injEq _ _).mp h
        subst hst2
        simp only [groupNodeInputValue]
        rw [find?_map_nameKeep (fun x => x.name == g2) _ st.node_groups
            (by intro x; by_cases hx : (x.name == g) = true
                · rw [if_pos hx]
                · rw [if_neg hx])]
        cases hg2 : st.node_groups.find? (fun x => x.name == g2) with
        | none => rfl
        | some gr2 =>
          simp only [Option.map_some', Option.some_bind]
          by_cases hx : (gr2.name == g) = true
          · simp only [hx, if_true]
            rw [find?_map_nameKeep (fun x => x.name == n2) _ gr2.nodes
                (by intro x; by_cases hy : (x.name == n) = true
                    · rw [if_pos hy]
                    · rw [if_neg hy])]
            cases hn2 : gr2.nodes.find? (fun x => x.name == n2) with
            | none => rfl
            | some nd2 =>
              simp only [Option.map_some', Option.some_bind]
              by_cases hy : (nd2.name == n) = true
              · simp only [hy, if_true]
              · rw [if_neg hy]
          · rw [if_neg hx]
      next => exact absurd h (by simp)

/-- Claim C7 counterexample: with `preview_state` off,
`Occlusion.update_gamma` still pushes the new gamma into the occlusion
recipe's Gamma node (1 becomes 2), refuting "no live push occurs when no
live preview is active". -/
theorem update_gamma_pushes_without_preview :
    exPreviewOff.preview_state = false
    ∧ groupNodeInputValue exPreviewOff.data Glob.OCCLUSION_NODE "Gamma" 1
        = some (some (.vFloat 1))
    ∧ (update_gamma 2 exPreviewOff).map
        (fun c => groupNodeInputValue c.data Glob.OCCLUSION_NODE "Gamma" 1)
        = some (some (some (.vFloat 2))) := by
  decide

/-- Claim C7 (amended): only `Curvature.update_curvature` is gated on
`preview_state` (it is the identity when no live preview is active);
`Occlusion.update_gamma`, `Occlusion.update_distance` and
`Height.update_guide` push the new value into the corresponding
node-graph parameter node unconditionally, preview or not. -/
theorem update_push_preview_gating :
    (∀ (ridge valley : Flt) (c : PreviewCtx), c.preview_state = false →
      update_curvature ridge valley c = c)
    ∧ (∀ (g : Flt) (c c2 : PreviewCtx), update_gamma g c = some c2 →
        groupNodeInputValue c2.data Glob.OCCLUSION_NODE "Gamma" 1
          = some (some (.vFloat g)))
    ∧ (∀ (d : Flt) (c c2 : PreviewCtx), update_distance d c = some c2 →
        groupNodeInputValue c2.data Glob.OCCLUSION_NODE "Ambient Occlusion" 1
          = some (some (.vFloat d)))
    ∧ (∀ (invert : Bool) (dist : Flt) (method : String) (z : Flt)
        (c c2 : PreviewCtx), update_guide invert dist method z c = some c2 →
        groupNodeInputValue c2.data Glob.HEIGHT_NODE "Map Range" 1
            = some (some (.vFloat (z + -dist)))
        ∧ groupNodeInputValue c2.data Glob.HEIGHT_NODE "Map Range" 2
            = some (some (.vFloat z))) := by
  refine ⟨?_, ?_, ?_, ?_⟩
  · intro ridge valley c hc
    unfold update_curvature
    rw [hc]
    rfl
  · intro g c c2 h
    unfold update_gamma at h
    cases hset : setGroupNodeInputIdx c.data Glob.OCCLUSION_NODE "Gamma" 1 (.vFloat g) with
    | none => rw [hset] at h; exact absurd h (by simp)
    | some d =>
      rw [hset] at h
      have hc2 := (Option.some.injEq _ _).mp h
      subst hc2
      exact groupNodeInputValue_set_self _ _ _ _ _ _ hset
  · intro d c c2 h
    unfold update_distance at h
    cases hset : setGroupNodeInputIdx c.data Glob.OCCLUSION_NODE "Ambient Occlusion" 1
        (.vFloat d) with
    | none => rw [hset] at h; exact absurd h (by simp)
    | some d2 =>
      rw [hset] at h
      have hc2 := (Option.some.injEq _ _).mp h
      subst hc2
      exact groupNodeInputValue_set_self _ _ _ _ _ _ hset
  · intro invert dist method z c c2 h
    unfold update_guide at h
    split at h
    next => exact absurd h (by simp)
    next d1 h1 =>
      split at h
      next => exact absurd h (by simp)
      next d2 h2 =>
        split at h
        next => exact absurd h (by simp)
        next d3 h3 =>
          have hdata : c2.data = d3 := by
            have hc2 := (Option.some.injEq _ _).mp h
            subst hc2
            split <;> rfl
          rw [hdata]
          constructor
          · rw [groupNodeInputValue_ramp _ _ _ _ _ _ h3,
              groupNodeInputValue_set_ne _ _ _ _ _ _ _ h2 (by decide)]
            exact groupNodeInputValue_set_self _ _ _ _ _ _ h1
          · rw [groupNodeInputValue_ramp _ _ _ _ _ _ h3]
            exact groupNodeInputValue_set_self _ _ _ _ _ _ h2

/-- Witness for the amended C7 theorem: concrete pushes with preview
off. -/
theorem update_push_preview_gating_witness :
    update_curvature 2 1 exPreviewOff = exPreviewOff
    ∧ groupNodeInputValue exGammaRun.data Glob.OCCLUSION_NODE "Gamma" 1
        = some (some (.vFloat 2))
    ∧ (groupNodeInputValue exGuideRun.data Glob.HEIGHT_NODE "Map Range" 1
          = some (some (.vFloat 3))
        ∧ groupNodeInputValue exGuideRun.data Glob.HEIGHT_NODE "Map Range" 2
          = some (some (.vFloat 5))) :=
  ⟨update_push_preview_gating.1 2 1 exPreviewOff (by decide),
   update_push_preview_gating.2.1 2 exPreviewOff exGammaRun (by decide),
   by
    have h := update_push_preview_gating.2.2.2 false 2 "MANUAL" 5
      { exPreviewOff with
        data := { materials := [], node_groups := [heightGroup], texts := [] } }
      exGuideRun (by decide)
    simpa using h⟩

/-! ### `apply_node_to_objects` without an output node (claim C8) -/

/-- Claim C8 (code bug): for a material whose tree has no
material-output node the source collects `output_nodes` as a `set` and
then calls `.append` on it, raising `AttributeError` instead of creating
an output node and completing the splice. -/
theorem apply_raises_without_output_node :
    (exNoOutMat.nodes.any (fun n => n.type == "OUTPUT_MATERIAL")) = false
    ∧ apply_node_to_objects true Glob.NORMAL_NODE [exObNoOut] exNoOutState = none := by
  decide

/-! ### The success flag (claim C5) -/

/-- Claim C5 counterexample: the BSDF of this material owns a socket
named `Roughness` (the expected channel socket is found), yet because it
carries no incoming link `apply_node_to_objects` returns `False` — the
flag tracks missing channel links, not missing sockets. -/
theorem apply_flags_failure_with_channel_socket_present :
    ((exChannelMat false).nodes.find? (fun n => n.name == "Principled BSDF")).map
        (fun n => n.inputs.any (fun s => s.name == Glob.ROUGHNESS_NAME)) = some true
    ∧ (apply_node_to_objects true Glob.ROUGHNESS_NODE [exObMat]
        (exChannelState false)).map (fun r => r.1) = some false := by
  decide

/-! ### The splice/un-splice round trip (claim C4) -/

/-- Claim C6: `create_node_links` returns `True` exactly when the
original input has at least one incoming link (in which case it rewires
the first link's source onto the passthrough); with no link it copies
the socket default, and when the direct assignment fails with a type
mismatch, a float value is truncated to int and any other to float, and
the assignment retried (a failure of the retry propagates). -/
theorem create_node_links_spec (input_name ng src : String) (orig : InputSocket)
    (mat : Material) (tgt : InputSocket)
    (htgt : findNodeInput mat ng input_name = some tgt) :
    (∀ flag m2, create_node_links input_name ng src orig mat = some (flag, m2) →
      (flag = true ↔ linksInto mat src orig.name ≠ []))
    ∧ (∀ l ls, linksInto mat src orig.name = l :: ls →
        create_node_links input_name ng src orig mat
          = some (true, addLinkReplacing mat
              { fromNode := l.fromNode, fromSocket := l.fromSocket,
                toNode := ng, toSocket := input_name }))
    ∧ (∀ v w, linksInto mat src orig.name = [] → orig.default = some v →
        trySetDefault tgt.stype v = .ok w →
        create_node_links input_name ng src orig mat
          = some (false, setNodeInputDefault mat ng input_name w))
    ∧ (∀ v, linksInto mat src orig.name = [] → orig.default = some v →
        trySetDefault tgt.stype v = .typeErr →
        create_node_links input_name ng src orig mat
          = (match coerceValue v with
             | none => none
             | some v3 =>
               match trySetDefault tgt.stype v3 with
               | .ok w => some (false, setNodeInputDefault mat ng input_name w)
               | .typeErr => none
               | .attrErr => none))
    ∧ (∀ q : Flt, coerceValue (.vFloat q) = some (.vInt (ratTrunc q)))
    ∧ (∀ n : Int, coerceValue (.vInt n) = some (.vFloat ⟨n, 1⟩)) := by
  refine ⟨?_, ?_, ?_, ?_, fun q => rfl, fun n => rfl⟩
  · intro flag m2 h
    cases hL : linksInto mat src orig.name with
    | cons l ls =>
      simp only [create_node_links, hL, htgt] at h
      have hflag : flag = true := by
        have h2 := (Option.some.injEq _ _).mp h
        exact (congrArg Prod.fst h2).symm
      simp [hflag, hL]
    | nil =>
      simp only [create_node_links, hL, htgt] at h
      have hflag : flag = false := by
        split at h
        next => exact absurd h (by simp)
        next v hv =>
          split at h
          next w hw => exact (congrArg Prod.fst ((Option.some.injEq _ _).mp h)).symm
          next hw => exact absurd h (by simp)
          next hw =>
            split at h
            next => exact absurd h (by simp)
            next v3 hc =>
              split at h
              next w hw2 =>
                exact (congrArg Prod.fst ((Option.some.injEq _ _).mp h)).symm
              next hw2 => exact absurd h (by simp)
              next hw2 => exact absurd h (by simp)
      simp [hflag, hL]
  · intro l ls hL
    simp only [create_node_links, hL, htgt]
  · intro v w hL hv hset
    simp only [create_node_links, hL, htgt, hv, hset]
  · intro v hL hv hset
    simp only [create_node_links, hL, htgt, hv, hset]

/-! ### Idempotence of the splice (claim C3)

The proof tracks two facts through the splice: every state update keeps
each material's identity/`use_nodes`/node-skeleton intact or only
appends passthrough and frame nodes (`SameSkel` and its graft variant),
and after a successful run every slot's material satisfies `MatReady`,
which makes a second run take the skip branch everywhere. -/

theorem sameSkel_refl (m : Material) : SameSkel m m := ⟨rfl, rfl, rfl⟩

theorem sameSkel_trans {a b c : Material} (h1 : SameSkel a b) (h2 : SameSkel b c) :
    SameSkel a c :=
  ⟨h2.1.trans h1.1, h2.2.1.trans h1.2.1, h2.2.2.trans h1.2.2⟩

theorem sameSkel_addLink (m : Material) (l : Link) :
    SameSkel m (addLinkReplacing m l) := ⟨rfl, rfl, rfl⟩

theorem sameSkel_removeLinksInto (m : Material) (a b : String) :
    SameSkel m (removeLinksInto m a b) := ⟨rfl, rfl, rfl⟩

theorem sameSkel_blend (m : Material) (c : String) :
    SameSkel m { m with blend_method := c } := ⟨rfl, rfl, rfl⟩

theorem projNT_setNodeInputDefault (m : Material) (a b : String) (v : Value) :
    projNT (setNodeInputDefault m a b v) = projNT m := by
  simp only [projNT, setNodeInputDefault, List.map_map]
  apply List.map_congr_left
  intro x _
  by_cases hx : (x.name == a) = true
  · simp [Function.comp, hx]
  · simp [Function.comp, hx]

theorem sameSkel_setNodeInputDefault (m : Material) (a b : String) (v : Value) :
    SameSkel m (setNodeInputDefault m a b v) :=
  ⟨rfl, rfl, projNT_setNodeInputDefault m a b v⟩

theorem cnl_sameSkel (i ng src : String) (inp : InputSocket) (mat : Material)
    (f : Bool) (m2 : Material)
    (h : create_node_links i ng src inp mat = some (f, m2)) : SameSkel mat m2 := by
  unfold create_node_links at h
  split at h
  next l ls =>
    split at h
    next => exact absurd h (by simp)
    next =>
      have h2 := (Option.some.injEq _ _).mp h
      have hm : m2 = addLinkReplacing mat _ := (congrArg Prod.snd h2).symm
      rw [hm]
      exact sameSkel_addLink _ _
  next =>
    split at h
    next => exact absurd h (by simp)
    next tgt htgt =>
      split at h
      next => exact absurd h (by simp)
      next v hv =>
        split at h
        next w hw =>
          have h2 := (Option.some.injEq _ _).mp h
          have hm : m2 = setNodeInputDefault mat ng i w := (congrArg Prod.snd h2).symm
          rw [hm]
          exact sameSkel_setNodeInputDefault _ _ _ _
        next => exact absurd h (by simp)
        next =>
          split at h
          next => exact absurd h (by simp)
          next v3 hv3 =>
            split at h
            next w hw =>
              have h2 := (Option.some.injEq _ _).mp h
              have hm : m2 = setNodeInputDefault mat ng i w := (congrArg Prod.snd h2).symm
              rw [hm]
              exact sameSkel_setNodeInputDefault _ _ _ _
            next => exact absurd h (by simp)
            next => exact absurd h (by simp)

theorem bridge_sameSkel (u : Bool) (name pName srcName : String)
    (inputs : List InputSocket) (found f2 : Bool) (mat m2 : Material)
    (h : bridgeChannels u name pName srcName inputs found mat = some (f2, m2)) :
    SameSkel mat m2 := by
  induction inputs generalizing found f2 mat m2 with
  | nil =>
    simp only [bridgeChannels] at h
    have h2 := (Option.some.injEq _ _).mp h
    have hm : m2 = mat := (congrArg Prod.snd h2).symm
    rw [hm]
    exact sameSkel_refl _
  | cons inp rest ih =>
    simp only [bridgeChannels] at h
    split at h
    · cases hcnl : create_node_links inp.name pName srcName inp mat with
      | none => simp [hcnl] at h
      | some p =>
        obtain ⟨f3, mB⟩ := p
        simp only [hcnl] at h
        exact sameSkel_trans (cnl_sameSkel _ _ _ _ _ _ _ hcnl) (ih _ _ _ _ h)
    · split at h
      · cases hcnl : create_node_links inp.name pName srcName inp mat with
        | none => simp [hcnl] at h
        | some p =>
          obtain ⟨f3, mB⟩ := p
          simp only [hcnl] at h
          exact sameSkel_trans (cnl_sameSkel _ _ _ _ _ _ _ hcnl) (ih _ _ _ _ h)
      · split at h
        · cases hcnl : create_node_links inp.name pName srcName inp mat with
          | none => simp [hcnl] at h
          | some p =>
            obtain ⟨f3, mB⟩ := p
            simp only [hcnl] at h
            exact sameSkel_trans (cnl_sameSkel _ _ _ _ _ _ _ hcnl) (ih _ _ _ _ h)
        · split at h
          · cases hcnl : create_node_links inp.name pName srcName inp mat with
            | none => simp [hcnl] at h
            | some p =>
              obtain ⟨f3, mB⟩ := p
              simp only [hcnl] at h
              exact sameSkel_trans (cnl_sameSkel _ _ _ _ _ _ _ hcnl) (ih _ _ _ _ h)
          · split at h
            · cases hcnl : create_node_links inp.name pName srcName inp mat with
              | none => simp [hcnl] at h
              | some p =>
                obtain ⟨f3, mB⟩ := p
                simp only [hcnl] at h
                refine sameSkel_trans (cnl_sameSkel _ _ _ _ _ _ _ hcnl) ?_
                refine sameSkel_trans ?_ (ih _ _ _ _ h)
                split
                · exact sameSkel_blend _ _
                · exact sameSkel_refl _
            · split at h
              · cases hcnl : create_node_links inp.name pName srcName inp mat with
                | none => simp [hcnl] at h
                | some p =>
                  obtain ⟨f3, mB⟩ := p
                  simp only [hcnl] at h
                  refine sameSkel_trans (cnl_sameSkel _ _ _ _ _ _ _ hcnl) ?_
                  refine sameSkel_trans ?_ (ih _ _ _ _ h)
                  split
                  · exact sameSkel_blend _ _
                  · exact sameSkel_refl _
              · split at h
                · cases hcnl : create_node_links inp.name pName srcName inp mat with
                  | none => simp [hcnl] at h
                  | some p =>
                    obtain ⟨f3, mB⟩ := p
                    simp only [hcnl] at h
                    exact sameSkel_trans (cnl_sameSkel _ _ _ _ _ _ _ hcnl) (ih _ _ _ _ h)
                · split at h
                  · have h2 := (Option.some.injEq _ _).mp h
                    have hm : m2 = mat := (congrArg Prod.snd h2).symm
                    rw [hm]
                    exact sameSkel_refl _
                  · exact ih _ _ _ _ h

theorem processLinkStep_sameSkel (u : Bool) (name pName : String)
    (pIns : List String) (inpName : String) (l : Link) (mat : Material)
    (ok : Bool) (m2 : Material)
    (h : processLinkStep u name pName pIns inpName l mat = some (ok, m2)) :
    SameSkel mat m2 := by
  simp only [processLinkStep] at h
  split at h
  next => exact absurd h (by simp)
  next src hsrc =>
    generalize hM : (if pIns.contains inpName && src.outputs.contains l.fromSocket
        then addLinkReplacing mat
          { fromNode := l.fromNode, fromSocket := l.fromSocket,
            toNode := pName, toSocket := inpName }
        else mat) = mat1 at h
    have hskel1 : SameSkel mat mat1 := by
      rw [← hM]
      split
      · exact sameSkel_addLink _ _
      · exact sameSkel_refl _
    split at h
    next hcont =>
      have h2 := (Option.some.injEq _ _).mp h
      have hm : m2 = mat1 := (congrArg Prod.snd h2).symm
      rw [hm]
      exact hskel1
    next hcont =>
      cases hb : bridgeChannels u name pName src.name src.inputs false mat1 with
      | none => simp [hb] at h
      | some p =>
        obtain ⟨found, mB⟩ := p
        simp only [hb] at h
        have h2 := (Option.some.injEq _ _).mp h
        have hm : m2 = mB := (congrArg Prod.snd h2).symm
        rw [hm]
        exact sameSkel_trans hskel1 (bridge_sameSkel _ _ _ _ _ _ _ _ _ hb)

theorem processInputLinks_sameSkel (u : Bool) (name pName : String)
    (pIns : List String) (inpName : String) (links : List Link) (mat : Material)
    (ok : Bool) (m2 : Material)
    (h : processInputLinks u name pName pIns inpName links mat = some (ok, m2)) :
    SameSkel mat m2 := by
  induction links generalizing mat ok m2 with
  | nil =>
    simp only [processInputLinks] at h
    have h2 := (Option.some.injEq _ _).mp h
    have hm : m2 = mat := (congrArg Prod.snd h2).symm
    rw [hm]
    exact sameSkel_refl _
  | cons l rest ih =>
    simp only [processInputLinks] at h
    cases hs : processLinkStep u name pName pIns inpName l mat with
    | none => simp [hs] at h
    | some p =>
      obtain ⟨ok1, mB⟩ := p
      simp only [hs] at h
      cases hr : processInputLinks u name pName pIns inpName rest mB with
      | none => simp [hr] at h
      | some q =>
        obtain ⟨ok2, mC⟩ := q
        simp only [hr] at h
        have h2 := (Option.some.injEq _ _).mp h
        have hm : m2 = mC := (congrArg Prod.snd h2).symm
        rw [hm]
        exact sameSkel_trans (processLinkStep_sameSkel _ _ _ _ _ _ _ _ _ hs)
          (ih _ _ _ hr)

theorem processOutputInputs_sameSkel (u : Bool) (name pName outName : String)
    (pIns : List String) (inputs : List InputSocket) (mat : Material)
    (ok : Bool) (m2 : Material)
    (h : processOutputInputs u name pName outName pIns inputs mat = some (ok, m2)) :
    SameSkel mat m2 := by
  induction inputs generalizing mat ok m2 with
  | nil =>
    simp only [processOutputInputs] at h
    have h2 := (Option.some.injEq _ _).mp h
    have hm : m2 = mat := (congrArg Prod.snd h2).symm
    rw [hm]
    exact sameSkel_refl _
  | cons inp rest ih =>
    simp only [processOutputInputs] at h
    cases hs : processInputLinks u name pName pIns inp.name
        (linksInto mat outName inp.name) mat with
    | none => simp [hs] at h
    | some p =>
      obtain ⟨ok1, mB⟩ := p
      simp only [hs] at h
      cases hr : processOutputInputs u name pName outName pIns rest mB with
      | none => simp [hr] at h
      | some q =>
        obtain ⟨ok2, mC⟩ := q
        simp only [hr] at h
        have h2 := (Option.some.injEq _ _).mp h
        have hm : m2 = mC := (congrArg Prod.snd h2).symm
        rw [hm]
        exact sameSkel_trans (processInputLinks_sameSkel _ _ _ _ _ _ _ _ _ hs)
          (ih _ _ _ hr)

theorem any_over_map {α β : Type} (f : α → β) (p : β → Bool) (l : List α) :
    (l.map f).any p = l.any (fun a => p (f a)) := by
  induction l with
  | nil => rfl
  | cons x xs ih => simp only [List.map_cons, List.any_cons, ih]

theorem hasNode_eq_projNT (m : Material) (nm : String) :
    hasNode m nm = (projNT m).any (fun p => p.1 == nm) := by
  simp only [hasNode, projNT, any_over_map]

theorem hasNode_of_sameSkel {a b : Material} (h : SameSkel a b) (nm : String) :
    hasNode b nm = hasNode a nm := by
  rw [hasNode_eq_projNT, hasNode_eq_projNT, h.2.2]

theorem hasNode_of_projNT_append {m mB : Material} {L : List (String × String)}
    (hproj : projNT mB = projNT m ++ L) (nm : String) (hm : hasNode m nm = true) :
    hasNode mB nm = true := by
  rw [hasNode_eq_projNT] at hm ⊢
  rw [hproj, List.any_append, hm]
  rfl

theorem uniquify_of_not_contains (base : String) (used : List String)
    (h : used.contains base = false) : uniquify base used = base := by
  have h2 : ¬ base ∈ used := by simpa using h
  have hc : uniquifyCandidate base 0 = base := rfl
  rw [uniquify, uniquifyGo, hc]
  simp [h2]

theorem contains_nodeNames (m : Material) (nm : String) :
    (nodeNames m).contains nm = hasNode m nm := by
  simp only [nodeNames, hasNode]
  induction m.nodes with
  | nil => rfl
  | cons n rest ih =>
    simp only [List.map_cons, List.contains_cons, List.any_cons, ih]
    rw [Bool.beq_comm]

theorem processOutput_post (u : Bool) (name : String) (g : NodeGroup) (o : String)
    (mat : Material) (texts : List (String × String)) (ok : Bool) (m2 : Material)
    (t2 : List (String × String))
    (h : processOutput u name g o mat texts = some (ok, m2, t2)) :
    m2.name = mat.name ∧ m2.use_nodes = mat.use_nodes
    ∧ ∃ fN, projNT m2 = projNT mat
        ++ [(uniquify name (nodeNames mat), "GROUP"), (fN, "FRAME")] := by
  simp only [processOutput] at h
  split at h
  next => exact absurd h (by simp)
  next out hout =>
    split at h
    next => exact absurd h (by simp)
    next ok1 m3 hpoi =>
      split at h
      next => exact absurd h (by simp)
      next hvol =>
        split at h
        next => exact absurd h (by simp)
        next hdisp =>
          split at h
          next => exact absurd h (by simp)
          next hsurf =>
            split at h
            next => exact absurd h (by simp)
            next hshader =>
              have h2 := (Option.some.injEq _ _).mp h
              have hm : m2 = addLinkReplacing
                  (removeLinksInto (removeLinksInto m3 o "Volume") o "Displacement")
                  { fromNode := uniquify name (nodeNames mat), fromSocket := "Shader",
                    toNode := o, toSocket := "Surface" } :=
                (congrArg (fun x => x.2.1) h2).symm
              have hskel : SameSkel m3 m2 := by
                rw [hm]
                exact sameSkel_trans (sameSkel_removeLinksInto _ _ _)
                  (sameSkel_trans (sameSkel_removeLinksInto _ _ _)
                    (sameSkel_addLink _ _))
              have hskel2 := processOutputInputs_sameSkel _ _ _ _ _ _ _ _ _ hpoi
              refine ⟨?_, ?_, ?_⟩
              · exact (hskel.1.trans hskel2.1)
              · exact (hskel.2.1.trans hskel2.2.1)
              · refine ⟨uniquify name
                    (nodeNames mat ++ [uniquify name (nodeNames mat)]), ?_⟩
                rw [hskel.2.2.trans hskel2.2.2]
                simp [projNT, nodeNames, List.map_append]

theorem processOutputsList_post (u : Bool) (name : String) (g : NodeGroup)
    (outs : List String) (mat : Material) (texts : List (String × String))
    (ok : Bool) (m2 : Material) (t2 : List (String × String))
    (h : processOutputsList u name g outs mat texts = some (ok, m2, t2)) :
    m2.name = mat.name ∧ m2.use_nodes = mat.use_nodes
    ∧ (∀ nm, hasNode mat nm = true → hasNode m2 nm = true) := by
  induction outs generalizing mat texts ok m2 t2 with
  | nil =>
    simp only [processOutputsList] at h
    have h2 := (Option.some.injEq _ _).mp h
    have hm : m2 = mat := (congrArg (fun x => x.2.1) h2).symm
    rw [hm]
    exact ⟨rfl, rfl, fun nm hn => hn⟩
  | cons o rest ih =>
    simp only [processOutputsList] at h
    cases hpo : processOutput u name g o mat texts with
    | none => simp [hpo] at h
    | some p =>
      obtain ⟨ok1, mB, tB⟩ := p
      simp only [hpo] at h
      cases hrest : processOutputsList u name g rest mB tB with
      | none => simp [hrest] at h
      | some q =>
        obtain ⟨ok2, mC, tC⟩ := q
        simp only [hrest] at h
        have h2 := (Option.some.injEq _ _).mp h
        have hm : m2 = mC := (congrArg (fun x => x.2.1) h2).symm
        rw [hm]
        obtain ⟨hn1, hu1, fN, hproj1⟩ := processOutput_post _ _ _ _ _ _ _ _ _ hpo
        obtain ⟨hn2, hu2, hmono2⟩ := ih _ _ _ _ _ hrest
        exact ⟨hn2.trans hn1, hu2.trans hu1,
          fun nm hn => hmono2 nm (hasNode_of_projNT_append hproj1 nm hn)⟩

theorem spliceCore_post (u : Bool) (name : String) (g : NodeGroup) (mat : Material)
    (texts : List (String × String)) (ok : Bool) (m2 : Material)
    (t2 : List (String × String)) (hnn : hasNode mat name = false)
    (h : spliceCore u name g mat texts = some (ok, m2, t2)) :
    m2.name = mat.name ∧ m2.use_nodes = mat.use_nodes ∧ hasNode m2 name = true := by
  simp only [spliceCore] at h
  split at h
  next => exact absurd h (by simp)
  next houts =>
    cases houtList : (mat.nodes.filter (fun n => n.type == "OUTPUT_MATERIAL")).map
        (fun n => n.name) with
    | nil => rw [houtList] at houts; exact absurd rfl houts
    | cons o rest =>
      rw [houtList] at h
      simp only [processOutputsList] at h
      cases hpo : processOutput u name g o mat texts with
      | none => simp [hpo] at h
      | some p =>
        obtain ⟨ok1, mB, tB⟩ := p
        simp only [hpo] at h
        cases hrest : processOutputsList u name g rest mB tB with
        | none => simp [hrest] at h
        | some q =>
          obtain ⟨ok2, mC, tC⟩ := q
          simp only [hrest] at h
          have h2 := (Option.some.injEq _ _).mp h
          have hm : m2 = mC := (congrArg (fun x => x.2.1) h2).symm
          rw [hm]
          obtain ⟨hn1, hu1, fN, hproj1⟩ := processOutput_post _ _ _ _ _ _ _ _ _ hpo
          obtain ⟨hn2, hu2, hmono2⟩ := processOutputsList_post _ _ _ _ _ _ _ _ _ hrest
          have huniq : uniquify name (nodeNames mat) = name := by
            rw [uniquify_of_not_contains]
            rw [contains_nodeNames]
            exact hnn
          have hB : hasNode mB name = true := by
            rw [hasNode_eq_projNT, hproj1, huniq, List.any_append]
            simp
          exact ⟨hn2.trans hn1, hu2.trans hu1, hmono2 name hB⟩

theorem material_eta_use_nodes (m : Material) (h : m.use_nodes = true) :
    { m with use_nodes := true } = m := by
  cases m with
  | mk a b c d e =>
    have hb : b = true := h
    subst hb
    rfl

theorem bool_not_true {b : Bool} (h : ¬ b = true) : b = false := by
  cases b
  · rfl
  · exact absurd rfl h

theorem find?_cons_pos {α : Type} (p : α → Bool) (a : α) (l : List α)
    (h : p a = true) : (a :: l).find? p = some a := by
  simp [List.find?_cons, h]

theorem find?_cons_neg {α : Type} (p : α → Bool) (a : α) (l : List α)
    (h : p a = false) : (a :: l).find? p = l.find? p := by
  simp [List.find?_cons, h]

theorem replaceFirst_of_find? (l : List Material) (sn : String) (m : Material)
    (h : l.find? (fun x => x.name == sn) = some m) : replaceFirst l m = l := by
  induction l with
  | nil => rfl
  | cons x xs ih =>
    simp only [replaceFirst]
    by_cases hx : (x.name == sn) = true
    · rw [find?_cons_pos (fun x => x.name == sn) x xs hx] at h
      have hxm : x = m := (Option.some.injEq _ _).mp h
      rw [if_pos (by simp [hxm]), hxm]
    · rw [find?_cons_neg (fun x => x.name == sn) x xs (bool_not_true hx)] at h
      have hpm : (m.name == sn) = true :=
        find?_prop (fun x => x.name == sn) xs m h
      have hmsn : m.name = sn := eq_of_beq hpm
      have hcond : ¬ (x.name == m.name) = true := by rw [hmsn]; exact hx
      rw [if_neg hcond, ih h]

theorem find?_replaceFirst_self (l : List Material) (m0 m2 : Material) (sn : String)
    (h : l.find? (fun x => x.name == sn) = some m0) (hname : m2.name = m0.name) :
    (replaceFirst l m2).find? (fun x => x.name == sn) = some m2 := by
  induction l with
  | nil => simp [List.find?] at h
  | cons x xs ih =>
    simp only [replaceFirst]
    by_cases hx : (x.name == sn) = true
    · rw [find?_cons_pos (fun x => x.name == sn) x xs hx] at h
      have hxm : x = m0 := (Option.some.injEq _ _).mp h
      have hcond : (x.name == m2.name) = true := by
        rw [hname, hxm]
        simp
      rw [if_pos hcond]
      apply find?_cons_pos (fun x => x.name == sn) m2 xs
      rw [hname, ← hxm]
      exact hx
    · rw [find?_cons_neg (fun x => x.name == sn) x xs (bool_not_true hx)] at h
      have hpm : (m0.name == sn) = true :=
        find?_prop (fun x => x.name == sn) xs m0 h
      have hmsn : m0.name = sn := eq_of_beq hpm
      have hcond : ¬ (x.name == m2.name) = true := by rw [hname, hmsn]; exact hx
      rw [if_neg hcond,
        find?_cons_neg (fun x => x.name == sn) x (replaceFirst xs m2)
          (bool_not_true hx),
        ih h]

theorem find?_replaceFirst_other (l : List Material) (m2 : Material) (sn : String)
    (hne : (m2.name == sn) = false) :
    (replaceFirst l m2).find? (fun x => x.name == sn)
      = l.find? (fun x => x.name == sn) := by
  induction l with
  | nil => rfl
  | cons x xs ih =>
    simp only [replaceFirst]
    by_cases hx : (x.name == m2.name) = true
    · rw [if_pos hx]
      have hxn : x.name = m2.name := eq_of_beq hx
      rw [find?_cons_neg (fun x => x.name == sn) m2 xs hne,
        find?_cons_neg (fun x => x.name == sn) x xs
          (by show (x.name == sn) = false; rw [hxn]; exact hne)]
    · rw [if_neg hx]
      by_cases hpx : (x.name == sn) = true
      · rw [find?_cons_pos (fun x => x.name == sn) x (replaceFirst xs m2) hpx,
          find?_cons_pos (fun x => x.name == sn) x xs hpx]
      · rw [find?_cons_neg (fun x => x.name == sn) x (replaceFirst xs m2)
            (bool_not_true hpx),
          find?_cons_neg (fun x => x.name == sn) x xs (bool_not_true hpx), ih]

theorem spliceMaterial_post (u : Bool) (name : String) (st : BState)
    (slot : Option String) (ok : Bool) (st2 : BState)
    (h : spliceMaterial u name st slot = some (ok, st2)) :
    MatReady name (slotMatName slot) st2
    ∧ (∀ sn, MatReady name sn st → MatReady name sn st2) := by
  simp only [spliceMaterial] at h
  split at h
  next => exact absurd h (by simp)
  next m0 hm0 =>
    split at h
    next hskip =>
      have h2 := (Option.some.injEq _ _).mp h
      have hst : st2 = writeMaterial st { m0 with use_nodes := true } :=
        (congrArg Prod.snd h2).symm
      have hfind : st2.materials.find?
          (fun x => x.name == slotMatName slot) = some { m0 with use_nodes := true } := by
        rw [hst]
        exact find?_replaceFirst_self st.materials m0 _ _ hm0 rfl
      refine ⟨⟨{ m0 with use_nodes := true }, hfind, rfl, hskip⟩, ?_⟩
      intro sn hm
      obtain ⟨m', hm', hu', hn'⟩ := hm
      by_cases hcase : ({ m0 with use_nodes := true } : Material).name == sn
      · have hsn : m0.name = sn := eq_of_beq hcase
        have hm'eq : m' = m0 := by
          rw [← hsn] at hm'
          have hpm : (m0.name == slotMatName slot) = true :=
            find?_prop (fun m => m.name == slotMatName slot) st.materials m0 hm0
          have hms : m0.name = slotMatName slot := eq_of_beq hpm
          rw [hms] at hm'
          exact (Option.some.injEq _ _).mp (hm'.symm.trans hm0)
        refine ⟨{ m0 with use_nodes := true }, ?_, rfl, ?_⟩
        · rw [hst]
          have := find?_replaceFirst_self st.materials m'
            ({ m0 with use_nodes := true }) sn hm' (by rw [hm'eq])
          exact this
        · have : hasNode m0 name = true := by rw [← hm'eq]; exact hn'
          exact this
      · refine ⟨m', ?_, hu', hn'⟩
        have hmats : st2.materials
            = replaceFirst st.materials { m0 with use_nodes := true } := by
          rw [hst]
          rfl
        have hne : (({ m0 with use_nodes := true } : Material).name == sn) = false :=
          bool_not_true hcase
        rw [hmats, find?_replaceFirst_other st.materials _ sn hne]
        exact hm'
    next hskip =>
      split at h
      next => exact absurd h (by simp)
      next g hg =>
        split at h
        next => exact absurd h (by simp)
        next okc m2 t2 hsc =>
          have h2 := (Option.some.injEq _ _).mp h
          have hst : st2 = { writeMaterial st m2 with texts := t2 } :=
            (congrArg Prod.snd h2).symm
          have hnn : hasNode { m0 with use_nodes := true } name = false :=
            bool_not_true hskip
          obtain ⟨hn2, hu2, hhas⟩ := spliceCore_post _ _ _ _ _ _ _ _ hnn hsc
          have hmats : st2.materials = replaceFirst st.materials m2 := by
            rw [hst]
            rfl
          have hfind : st2.materials.find?
              (fun x => x.name == slotMatName slot) = some m2 := by
            rw [hmats]
            exact find?_replaceFirst_self st.materials m0 m2 _ hm0 hn2
          refine ⟨⟨m2, hfind, hu2, hhas⟩, ?_⟩
          intro sn hm
          obtain ⟨m', hm', hu', hn'⟩ := hm
          by_cases hcase : (m2.name == sn) = true
          · have hsn : m0.name = sn := by rw [← hn2]; exact eq_of_beq hcase
            have hm'eq : m' = m0 := by
              rw [← hsn] at hm'
              have hpm : (m0.name == slotMatName slot) = true :=
            find?_prop (fun m => m.name == slotMatName slot) st.materials m0 hm0
              have hms : m0.name = slotMatName slot := eq_of_beq hpm
              rw [hms] at hm'
              exact (Option.some.injEq _ _).mp (hm'.symm.trans hm0)
            refine ⟨m2, ?_, hu2, hhas⟩
            rw [hmats]
            exact find?_replaceFirst_self st.materials m' m2 sn hm' (by rw [hm'eq, hn2])
          · refine ⟨m', ?_, hu', hn'⟩
            rw [hmats, find?_replaceFirst_other st.materials m2 sn
              (bool_not_true hcase)]
            exact hm'

theorem applySlots_post (u : Bool) (name : String) (st : BState)
    (slots : List (Option String)) (ok : Bool) (st2 : BState)
    (h : applySlots u name st slots = some (ok, st2)) :
    (∀ s, s ∈ slots → MatReady name (slotMatName s) st2)
    ∧ (∀ sn, MatReady name sn st → MatReady name sn st2) := by
  induction slots generalizing st ok st2 with
  | nil =>
    simp only [applySlots] at h
    have h2 := (Option.some.injEq _ _).mp h
    have hst : st2 = st := (congrArg Prod.snd h2).symm
    rw [hst]
    exact ⟨fun s hs => absurd hs (List.not_mem_nil s), fun sn hm => hm⟩
  | cons s rest ih =>
    simp only [applySlots] at h
    cases hs : spliceMaterial u name st s with
    | none => simp [hs] at h
    | some p =>
      obtain ⟨ok1, stB⟩ := p
      simp only [hs] at h
      cases hr : applySlots u name stB rest with
      | none => simp [hr] at h
      | some q =>
        obtain ⟨ok2, stC⟩ := q
        simp only [hr] at h
        have h2 := (Option.some.injEq _ _).mp h
        have hst : st2 = stC := (congrArg Prod.snd h2).symm
        rw [hst]
        obtain ⟨hready, hpresB⟩ := spliceMaterial_post _ _ _ _ _ _ hs
        obtain ⟨hrest, hpresC⟩ := ih _ _ _ hr
        refine ⟨?_, fun sn hm => hpresC sn (hpresB sn hm)⟩
        intro x hx
        rcases List.mem_cons.mp hx with hx1 | hx2
        · rw [hx1]
          exact hpresC _ hready
        · exact hrest x hx2

theorem fill_no_none (l : List (Option String)) :
    (l.map (fun (s : Option String) =>
      if s.isNone then some Glob.GD_MATERIAL_NAME else s)).any
        (fun s => s.isNone) = false := by
  induction l with
  | nil => rfl
  | cons s rest ih =>
    simp only [List.map_cons, List.any_cons]
    rw [ih]
    cases s
    · rfl
    · rfl

theorem set_isEmpty_eq {α : Type} (l : List α) (i : Nat) (v : α) :
    (l.set i v).isEmpty = l.isEmpty := by
  cases l <;> cases i <;> rfl

theorem set_any_none_false (l : List (Option String)) (i : Nat) (v : String)
    (hall : l.any (fun s => s.isNone) = false) :
    (l.set i (some v)).any (fun s => s.isNone) = false := by
  induction l generalizing i with
  | nil => exact hall
  | cons x xs ih =>
    simp only [List.any_cons] at hall
    obtain ⟨h1, h2⟩ := Bool.or_eq_false_iff.mp hall
    cases i with
    | zero =>
      rw [List.set_cons_zero]
      simp only [List.any_cons]
      rw [h2]
      rfl
    | succ j =>
      rw [List.set_cons_succ]
      simp only [List.any_cons]
      rw [h1, ih j h2]
      rfl

theorem isEmpty_false_of_get?_some {α : Type} (l : List α) (i : Nat) (a : α)
    (h : l.get? i = some a) : l.isEmpty = false := by
  cases l with
  | nil => cases i <;> simp [List.get?] at h
  | cons x xs => rfl

theorem prepareObject_slots (st : BState) (ob : Obj) :
    (prepareObject st ob).1.material_slots.isEmpty = false
    ∧ (prepareObject st ob).1.material_slots.any (fun s => s.isNone) = false := by
  simp only [prepareObject]
  split
  next hguard =>
    split
    next x hx =>
      exact ⟨isEmpty_false_of_get?_some _ _ _ hx, fill_no_none ob.material_slots⟩
    next hx =>
      simp only [setActiveMaterial]
      split
      next hemp => exact ⟨rfl, rfl⟩
      next hemp =>
        refine ⟨?_, set_any_none_false _ _ _ (fill_no_none ob.material_slots)⟩
        rw [set_isEmpty_eq]
        exact bool_not_true hemp
  next hguard =>
    have hg : (ob.material_slots.isEmpty
        || ob.material_slots.any (fun s => s.isNone)) = false := bool_not_true hguard
    exact ⟨(Bool.or_eq_false_iff.mp hg).1, (Bool.or_eq_false_iff.mp hg).2⟩

theorem prepareObject_matready (name sn : String) (st : BState) (ob : Obj)
    (h : MatReady name sn st) : MatReady name sn (prepareObject st ob).2 := by
  simp only [prepareObject]
  split
  next hguard =>
    show MatReady name sn
      (if st.materials.any (fun m => m.name == Glob.GD_MATERIAL_NAME) then st
       else { st with materials := st.materials ++ [gdDefaultMaterial] })
    split
    · exact h
    · obtain ⟨m', hm', hu, hn⟩ := h
      refine ⟨m', ?_, hu, hn⟩
      show (st.materials ++ [gdDefaultMaterial]).find?
        (fun x => x.name == sn) = some m'
      rw [List.find?_append, hm']
      rfl
  next hguard => exact h

theorem prepareObject_id (st : BState) (ob : Obj)
    (h1 : ob.material_slots.isEmpty = false)
    (h2 : ob.material_slots.any (fun s => s.isNone) = false) :
    prepareObject st ob = (ob, st) := by
  simp [prepareObject, h1, h2]

theorem applyObject_post (u : Bool) (name : String) (st : BState) (ob : Obj)
    (ok : Bool) (ob2 : Obj) (st2 : BState)
    (h : applyObject u name st ob = some (ok, ob2, st2)) :
    ob2.material_slots.isEmpty = false
    ∧ ob2.material_slots.any (fun s => s.isNone) = false
    ∧ (∀ s, s ∈ ob2.material_slots → MatReady name (slotMatName s) st2)
    ∧ (∀ sn, MatReady name sn st → MatReady name sn st2) := by
  simp only [applyObject] at h
  split at h
  next => exact absurd h (by simp)
  next ok1 st3 happ =>
    have h2 := (Option.some.injEq _ _).mp h
    have hob : ob2 = (prepareObject st ob).1 := (congrArg (fun x => x.2.1) h2).symm
    have hst : st2 = st3 := (congrArg (fun x => x.2.2) h2).symm
    obtain ⟨hready, hpres⟩ := applySlots_post _ _ _ _ _ _ happ
    obtain ⟨hne, hnone⟩ := prepareObject_slots st ob
    subst hst
    rw [hob]
    exact ⟨hne, hnone, fun s hs => hready s hs,
      fun sn hm => hpres sn (prepareObject_matready name sn st ob hm)⟩

theorem apply_node_post (u : Bool) (name : String) (objs : List Obj) (st : BState)
    (ok : Bool) (obs2 : List Obj) (st2 : BState)
    (h : apply_node_to_objects u name objs st = some (ok, obs2, st2)) :
    (∀ ob2, ob2 ∈ obs2 → ob2.material_slots.isEmpty = false
      ∧ ob2.material_slots.any (fun s => s.isNone) = false
      ∧ ∀ s, s ∈ ob2.material_slots → MatReady name (slotMatName s) st2)
    ∧ (∀ sn, MatReady name sn st → MatReady name sn st2) := by
  induction objs generalizing st ok obs2 st2 with
  | nil =>
    simp only [apply_node_to_objects] at h
    have h2 := (Option.some.injEq _ _).mp h
    have hobs : obs2 = [] := (congrArg (fun x => x.2.1) h2).symm
    have hst : st2 = st := (congrArg (fun x => x.2.2) h2).symm
    subst hobs
    subst hst
    exact ⟨fun ob2 hm => absurd hm (List.not_mem_nil _), fun sn hm => hm⟩
  | cons ob rest ih =>
    simp only [apply_node_to_objects] at h
    cases hobj : applyObject u name st ob with
    | none => simp [hobj] at h
    | some p =>
      obtain ⟨ok1, obB, stB⟩ := p
      simp only [hobj] at h
      cases hr : apply_node_to_objects u name rest stB with
      | none => simp [hr] at h
      | some q =>
        obtain ⟨ok2, obsC, stC⟩ := q
        simp only [hr] at h
        have h2 := (Option.some.injEq _ _).mp h
        have hobs : obs2 = obB :: obsC := (congrArg (fun x => x.2.1) h2).symm
        have hst : st2 = stC := (congrArg (fun x => x.2.2) h2).symm
        subst hobs
        subst hst
        obtain ⟨he, hn, hready, hpresB⟩ := applyObject_post _ _ _ _ _ _ _ hobj
        obtain ⟨hall, hpresC⟩ := ih _ _ _ _ hr
        refine ⟨?_, fun sn hm => hpresC sn (hpresB sn hm)⟩
        intro ob2 hm
        rcases List.mem_cons.mp hm with h1 | h1
        · subst h1
          exact ⟨he, hn, fun s hs => hpresC _ (hready s hs)⟩
        · exact hall ob2 h1

theorem spliceMaterial_ready (u : Bool) (name : String) (st : BState)
    (s : Option String) (h : MatReady name (slotMatName s) st) :
    spliceMaterial u name st s = some (true, st) := by
  obtain ⟨m, hm, hu, hn⟩ := h
  have heta : { m with use_nodes := true } = m := material_eta_use_nodes m hu
  simp only [spliceMaterial, hm, heta]
  have hn' : (m.nodes.any fun n => n.name == name) = true := hn
  rw [if_pos hn', writeMaterial, replaceFirst_of_find? st.materials (slotMatName s) m hm]

theorem applySlots_ready (u : Bool) (name : String) (st : BState)
    (slots : List (Option String))
    (h : ∀ s, s ∈ slots → MatReady name (slotMatName s) st) :
    applySlots u name st slots = some (true, st) := by
  induction slots with
  | nil => rfl
  | cons s rest ih =>
    simp only [applySlots,
      spliceMaterial_ready u name st s (h s (List.mem_cons_self s rest)),
      ih (fun x hx => h x (List.mem_cons_of_mem s hx)), Bool.true_and]

theorem applyObject_ready (u : Bool) (name : String) (st : BState) (ob : Obj)
    (h1 : ob.material_slots.isEmpty = false)
    (h2 : ob.material_slots.any (fun s => s.isNone) = false)
    (h3 : ∀ s, s ∈ ob.material_slots → MatReady name (slotMatName s) st) :
    applyObject u name st ob = some (true, ob, st) := by
  simp only [applyObject, prepareObject_id st ob h1 h2,
    applySlots_ready u name st ob.material_slots h3]

theorem apply_ready (u : Bool) (name : String) (objs : List Obj) (st : BState)
    (h : ∀ ob, ob ∈ objs → ob.material_slots.isEmpty = false
      ∧ ob.material_slots.any (fun s => s.isNone) = false
      ∧ ∀ s, s ∈ ob.material_slots → MatReady name (slotMatName s) st) :
    apply_node_to_objects u name objs st = some (true, objs, st) := by
  induction objs with
  | nil => rfl
  | cons ob rest ih =>
    obtain ⟨he, hn, hr⟩ := h ob (List.mem_cons_self ob rest)
    simp only [apply_node_to_objects,
      applyObject_ready u name st ob he hn hr,
      ih (fun x hx => h x (List.mem_cons_of_mem ob hx)), Bool.true_and]

theorem fill_id (l : List (Option String))
    (h : l.any (fun s => s.isNone) = false) :
    l.map (fun (s : Option String) =>
      if s.isNone then some Glob.GD_MATERIAL_NAME else s) = l := by
  induction l with
  | nil => rfl
  | cons x xs ih =>
    simp only [List.any_cons] at h
    obtain ⟨h1, h2⟩ := Bool.or_eq_false_iff.mp h
    simp only [List.map_cons, ih h2]
    rw [if_neg (by simp [h1])]

theorem map_isEmpty_eq {α β : Type} (f : α → β) (l : List α) :
    (l.map f).isEmpty = l.isEmpty := by
  cases l <;> rfl

theorem prepareObject_slots_shape (st : BState) (ob : Obj) :
    (prepareObject st ob).1.material_slots
      = if ob.material_slots.isEmpty then [some Glob.GD_MATERIAL_NAME]
        else ob.material_slots.map (fun s =>
          if s.isNone then some Glob.GD_MATERIAL_NAME else s) := by
  by_cases hE : ob.material_slots.isEmpty = true
  · have hnil : ob.material_slots = [] := List.isEmpty_iff.mp hE
    rw [if_pos hE]
    simp [prepareObject, hnil, setActiveMaterial, List.get?]
  · rw [if_neg hE]
    have hE' : ob.material_slots.isEmpty = false := bool_not_true hE
    by_cases hN : ob.material_slots.any (fun s => s.isNone) = true
    · simp only [prepareObject]
      rw [if_pos (by rw [hN, Bool.or_true])]
      split
      next x val heq => rfl
      next x hx =>
        cases hq : (ob.material_slots.map (fun (s : Option String) =>
            if s.isNone then some Glob.GD_MATERIAL_NAME else s)).get?
              ob.active_index with
        | none =>
          simp only [setActiveMaterial]
          rw [if_neg (by rw [map_isEmpty_eq, hE']; exact Bool.false_ne_true)]
          exact List.set_eq_of_length_le (List.get?_eq_none.mp hq)
        | some s =>
          cases s with
          | none =>
            have hmem := List.get?_mem hq
            have hany : (ob.material_slots.map (fun (s : Option String) =>
                if s.isNone then some Glob.GD_MATERIAL_NAME else s)).any
                  (fun s => s.isNone) = true :=
              List.any_eq_true.mpr ⟨none, hmem, rfl⟩
            rw [fill_no_none ob.material_slots] at hany
            exact absurd hany Bool.false_ne_true
          | some y => exact absurd hq (hx y)
    · have hN' := bool_not_true hN
      rw [show prepareObject st ob = (ob, st) from prepareObject_id st ob hE' hN']
      exact (fill_id ob.material_slots hN').symm

theorem applyObject_fst (u : Bool) (name : String) (st : BState) (ob : Obj)
    (ok : Bool) (ob2 : Obj) (st2 : BState)
    (h : applyObject u name st ob = some (ok, ob2, st2)) :
    ob2 = (prepareObject st ob).1 := by
  simp only [applyObject] at h
  split at h
  next => exact absurd h (by simp)
  next ok1 st3 happ =>
    exact (congrArg (fun x => x.2.1) ((Option.some.injEq _ _).mp h)).symm

theorem apply_objs_shape (u : Bool) (name : String) (objs : List Obj)
    (st : BState) (ok : Bool) (obs2 : List Obj) (st2 : BState)
    (h : apply_node_to_objects u name objs st = some (ok, obs2, st2)) :
    obs2.map (fun o => o.material_slots)
      = objs.map (fun o =>
          if o.material_slots.isEmpty then [some Glob.GD_MATERIAL_NAME]
          else o.material_slots.map (fun s =>
            if s.isNone then some Glob.GD_MATERIAL_NAME else s)) := by
  induction objs generalizing st ok obs2 st2 with
  | nil =>
    simp only [apply_node_to_objects] at h
    have hobs : obs2 = [] :=
      (congrArg (fun x => x.2.1) ((Option.some.injEq _ _).mp h)).symm
    rw [hobs]
    rfl
  | cons ob rest ih =>
    simp only [apply_node_to_objects] at h
    cases hobj : applyObject u name st ob with
    | none => simp [hobj] at h
    | some p =>
      obtain ⟨ok1, obB, stB⟩ := p
      simp only [hobj] at h
      cases hr : apply_node_to_objects u name rest stB with
      | none => simp [hr] at h
      | some q =>
        obtain ⟨ok2, obsC, stC⟩ := q
        simp only [hr] at h
        have hobs : obs2 = obB :: obsC :=
          (congrArg (fun x => x.2.1) ((Option.some.injEq _ _).mp h)).symm
        rw [hobs]
        simp only [List.map_cons]
        rw [applyObject_fst u name st ob ok1 obB stB hobj,
          prepareObject_slots_shape st ob, ih _ _ _ _ hr]

theorem any_of_find?_some {α : Type} (p : α → Bool) (l : List α) (a : α)
    (h : l.find? p = some a) : l.any p = true := by
  induction l with
  | nil => simp [List.find?] at h
  | cons x xs ih =>
    by_cases hx : p x = true
    · simp [List.any_cons, hx]
    · rw [find?_cons_neg p x xs (bool_not_true hx)] at h
      simp [List.any_cons, ih h]

/-- C3: `apply_node_to_objects` is idempotent.  After one successful run,
every returned object has only non-empty material slots whose materials
already carry a node named after the recipe, so a second run over the
returned objects and document skips every splice and returns the objects
and document unchanged (and succeeds). -/
theorem apply_node_to_objects_idempotent (u : Bool) (name : String)
    (objs : List Obj) (st : BState) (r : Bool × List Obj × BState)
    (h : apply_node_to_objects u name objs st = some r) :
    apply_node_to_objects u name r.2.1 r.2.2 = some (true, r.2.1, r.2.2) := by
  obtain ⟨ok, obs2, st2⟩ := r
  obtain ⟨hall, hpres⟩ := apply_node_post u name objs st ok obs2 st2 h
  exact apply_ready u name obs2 st2 hall

/-- Witness for C3: a first run of the Normal recipe over one object with
one Principled material, then the second run returning its input
unchanged. -/
theorem apply_node_to_objects_idempotent_witness :
    apply_node_to_objects true Glob.NORMAL_NODE exIdemRun.2.1 exIdemRun.2.2
      = some (true, exIdemRun.2.1, exIdemRun.2.2) :=
  apply_node_to_objects_idempotent true Glob.NORMAL_NODE [exObMat]
    (exRoundState true true true) exIdemRun (by decide)

theorem find?_append_some {α : Type} (p : α → Bool) (l1 l2 : List α) (b : α)
    (hb : l1.find? p = some b) : (l1 ++ l2).find? p = some b := by
  rw [List.find?_append, hb]
  rfl

theorem bsdfNode_setNID (m : Material) (tgt inp : String) (v : Value)
    (hne : ("Principled BSDF" == tgt) = false) :
    bsdfNode (setNodeInputDefault m tgt inp v) = bsdfNode m := by
  simp only [bsdfNode, setNodeInputDefault]
  rw [find?_map_nameKeep (fun n => n.name == "Principled BSDF")
      (fun n => if n.name == tgt
        then { n with inputs := setInputsDefault n.inputs inp v } else n)
      m.nodes (by
        intro x
        show ((if (x.name == tgt) = true
            then { x with inputs := setInputsDefault x.inputs inp v } else x).name
              == "Principled BSDF") = (x.name == "Principled BSDF")
        by_cases hx : (x.name == tgt) = true
        · rw [if_pos hx]
        · rw [if_neg hx])]
  cases hb : m.nodes.find? (fun n => n.name == "Principled BSDF") with
  | none => rfl
  | some b =>
    have hbn : b.name = "Principled BSDF" :=
      eq_of_beq (find?_prop (fun n => n.name == "Principled BSDF") m.nodes b hb)
    simp only [Option.map_some']
    rw [if_neg (by rw [hbn, hne]; exact Bool.false_ne_true)]

theorem cnl_bsdf (i ng src : String) (inp : InputSocket) (mat : Material)
    (f : Bool) (m2 : Material) (hne : ("Principled BSDF" == ng) = false)
    (h : create_node_links i ng src inp mat = some (f, m2)) :
    bsdfNode m2 = bsdfNode mat := by
  unfold create_node_links at h
  split at h
  next l ls =>
    split at h
    next => exact absurd h (by simp)
    next =>
      have h2 := (Option.some.injEq _ _).mp h
      have hm : m2 = addLinkReplacing mat _ := (congrArg Prod.snd h2).symm
      rw [hm]
      rfl
  next =>
    split at h
    next => exact absurd h (by simp)
    next tgt htgt =>
      split at h
      next => exact absurd h (by simp)
      next v hv =>
        split at h
        next w hw =>
          have h2 := (Option.some.injEq _ _).mp h
          have hm : m2 = setNodeInputDefault mat ng i w := (congrArg Prod.snd h2).symm
          rw [hm]
          exact bsdfNode_setNID mat ng i w hne
        next => exact absurd h (by simp)
        next =>
          split at h
          next => exact absurd h (by simp)
          next v3 hv3 =>
            split at h
            next w hw =>
              have h2 := (Option.some.injEq _ _).mp h
              have hm : m2 = setNodeInputDefault mat ng i w :=
                (congrArg Prod.snd h2).symm
              rw [hm]
              exact bsdfNode_setNID mat ng i w hne
            next => exact absurd h (by simp)
            next => exact absurd h (by simp)

theorem bridge_bsdf (u : Bool) (name pName srcName : String)
    (inputs : List InputSocket) (found f2 : Bool) (mat m2 : Material)
    (hne : ("Principled BSDF" == pName) = false)
    (h : bridgeChannels u name pName srcName inputs found mat = some (f2, m2)) :
    bsdfNode m2 = bsdfNode mat := by
  induction inputs generalizing found f2 mat m2 with
  | nil =>
    simp only [bridgeChannels] at h
    have h2 := (Option.some.injEq _ _).mp h
    have hm : m2 = mat := (congrArg Prod.snd h2).symm
    rw [hm]
  | cons inp rest ih =>
    simp only [bridgeChannels] at h
    split at h
    · cases hcnl : create_node_links inp.name pName srcName inp mat with
      | none => simp [hcnl] at h
      | some p =>
        obtain ⟨f3, mB⟩ := p
        simp only [hcnl] at h
        exact Eq.trans (ih _ _ _ _ h) (cnl_bsdf _ _ _ _ _ _ _ hne hcnl)
    · split at h
      · cases hcnl : create_node_links inp.name pName srcName inp mat with
        | none => simp [hcnl] at h
        | some p =>
          obtain ⟨f3, mB⟩ := p
          simp only [hcnl] at h
          exact Eq.trans (ih _ _ _ _ h) (cnl_bsdf _ _ _ _ _ _ _ hne hcnl)
      · split at h
        · cases hcnl : create_node_links inp.name pName srcName inp mat with
          | none => simp [hcnl] at h
          | some p =>
            obtain ⟨f3, mB⟩ := p
            simp only [hcnl] at h
            exact Eq.trans (ih _ _ _ _ h) (cnl_bsdf _ _ _ _ _ _ _ hne hcnl)
        · split at h
          · cases hcnl : create_node_links inp.name pName srcName inp mat with
            | none => simp [hcnl] at h
            | some p =>
              obtain ⟨f3, mB⟩ := p
              simp only [hcnl] at h
              exact Eq.trans (ih _ _ _ _ h) (cnl_bsdf _ _ _ _ _ _ _ hne hcnl)
          · split at h
            · cases hcnl : create_node_links inp.name pName srcName inp mat with
              | none => simp [hcnl] at h
              | some p =>
                obtain ⟨f3, mB⟩ := p
                simp only [hcnl] at h
                refine Eq.trans (ih _ _ _ _ h)
                  (Eq.trans ?_ (cnl_bsdf _ _ _ _ _ _ _ hne hcnl))
                split
                · rfl
                · rfl
            · split at h
              · cases hcnl : create_node_links inp.name pName srcName inp mat with
                | none => simp [hcnl] at h
                | some p =>
                  obtain ⟨f3, mB⟩ := p
                  simp only [hcnl] at h
                  refine Eq.trans (ih _ _ _ _ h)
                    (Eq.trans ?_ (cnl_bsdf _ _ _ _ _ _ _ hne hcnl))
                  split
                  · rfl
                  · rfl
              · split at h
                · cases hcnl : create_node_links inp.name pName srcName inp mat with
                  | none => simp [hcnl] at h
                  | some p =>
                    obtain ⟨f3, mB⟩ := p
                    simp only [hcnl] at h
                    exact Eq.trans (ih _ _ _ _ h) (cnl_bsdf _ _ _ _ _ _ _ hne hcnl)
                · split at h
                  · have h2 := (Option.some.injEq _ _).mp h
                    have hm : m2 = mat := (congrArg Prod.snd h2).symm
                    rw [hm]
                  · exact ih _ _ _ _ h

theorem processLinkStep_bsdf (u : Bool) (name pName : String)
    (pIns : List String) (inpName : String) (l : Link) (mat : Material)
    (ok : Bool) (m2 : Material) (hne : ("Principled BSDF" == pName) = false)
    (h : processLinkStep u name pName pIns inpName l mat = some (ok, m2)) :
    bsdfNode m2 = bsdfNode mat := by
  simp only [processLinkStep] at h
  split at h
  next => exact absurd h (by simp)
  next src hsrc =>
    generalize hM : (if pIns.contains inpName && src.outputs.contains l.fromSocket
        then addLinkReplacing mat
          { fromNode := l.fromNode, fromSocket := l.fromSocket,
            toNode := pName, toSocket := inpName }
        else mat) = mat1 at h
    have hstep1 : bsdfNode mat1 = bsdfNode mat := by
      rw [← hM]
      split
      · rfl
      · rfl
    split at h
    next hcont =>
      have h2 := (Option.some.injEq _ _).mp h
      have hm : m2 = mat1 := (congrArg Prod.snd h2).symm
      rw [hm]
      exact hstep1
    next hcont =>
      cases hb : bridgeChannels u name pName src.name src.inputs false mat1 with
      | none => simp [hb] at h
      | some p =>
        obtain ⟨found, mB⟩ := p
        simp only [hb] at h
        have h2 := (Option.some.injEq _ _).mp h
        have hm : m2 = mB := (congrArg Prod.snd h2).symm
        rw [hm]
        exact Eq.trans (bridge_bsdf _ _ _ _ _ _ _ _ _ hne hb) hstep1

theorem processInputLinks_bsdf (u : Bool) (name pName : String)
    (pIns : List String) (inpName : String) (links : List Link) (mat : Material)
    (ok : Bool) (m2 : Material) (hne : ("Principled BSDF" == pName) = false)
    (h : processInputLinks u name pName pIns inpName links mat = some (ok, m2)) :
    bsdfNode m2 = bsdfNode mat := by
  induction links generalizing mat ok m2 with
  | nil =>
    simp only [processInputLinks] at h
    have h2 := (Option.some.injEq _ _).mp h
    have hm : m2 = mat := (congrArg Prod.snd h2).symm
    rw [hm]
  | cons l rest ih =>
    simp only [processInputLinks] at h
    cases hs : processLinkStep u name pName pIns inpName l mat with
    | none => simp [hs] at h
    | some p =>
      obtain ⟨ok1, mB⟩ := p
      simp only [hs] at h
      cases hr : processInputLinks u name pName pIns inpName rest mB with
      | none => simp [hr] at h
      | some q =>
        obtain ⟨ok2, mC⟩ := q
        simp only [hr] at h
        have h2 := (Option.some.injEq _ _).mp h
        have hm : m2 = mC := (congrArg Prod.snd h2).symm
        rw [hm]
        exact Eq.trans (ih _ _ _ hr)
          (processLinkStep_bsdf _ _ _ _ _ _ _ _ _ hne hs)

theorem processOutputInputs_bsdf (u : Bool) (name pName outName : String)
    (pIns : List String) (inputs : List InputSocket) (mat : Material)
    (ok : Bool) (m2 : Material) (hne : ("Principled BSDF" == pName) = false)
    (h : processOutputInputs u name pName outName pIns inputs mat = some (ok, m2)) :
    bsdfNode m2 = bsdfNode mat := by
  induction inputs generalizing mat ok m2 with
  | nil =>
    simp only [processOutputInputs] at h
    have h2 := (Option.some.injEq _ _).mp h
    have hm : m2 = mat := (congrArg Prod.snd h2).symm
    rw [hm]
  | cons inp rest ih =>
    simp only [processOutputInputs] at h
    cases hs : processInputLinks u name pName pIns inp.name
        (linksInto mat outName inp.name) mat with
    | none => simp [hs] at h
    | some p =>
      obtain ⟨ok1, mB⟩ := p
      simp only [hs] at h
      cases hr : processOutputInputs u name pName outName pIns rest mB with
      | none => simp [hr] at h
      | some q =>
        obtain ⟨ok2, mC⟩ := q
        simp only [hr] at h
        have h2 := (Option.some.injEq _ _).mp h
        have hm : m2 = mC := (congrArg Prod.snd h2).symm
        rw [hm]
        exact Eq.trans (ih _ _ _ hr)
          (processInputLinks_bsdf _ _ _ _ _ _ _ _ _ hne hs)

theorem processOutput_bsdf (u : Bool) (name : String) (g : NodeGroup) (o : String)
    (mat : Material) (texts : List (String × String)) (ok : Bool) (m2 : Material)
    (t2 : List (String × String)) (b : Node)
    (hne : ("Principled BSDF" == uniquify name (nodeNames mat)) = false)
    (hb : bsdfNode mat = some b)
    (h : processOutput u name g o mat texts = some (ok, m2, t2)) :
    bsdfNode m2 = some b := by
  simp only [processOutput] at h
  split at h
  next => exact absurd h (by simp)
  next out hout =>
    split at h
    next => exact absurd h (by simp)
    next ok1 m3 hpoi =>
      split at h
      next => exact absurd h (by simp)
      next hvol =>
        split at h
        next => exact absurd h (by simp)
        next hdisp =>
          split at h
          next => exact absurd h (by simp)
          next hsurf =>
            split at h
            next => exact absurd h (by simp)
            next hshader =>
              have h2 := (Option.some.injEq _ _).mp h
              have hm : m2 = addLinkReplacing
                  (removeLinksInto (removeLinksInto m3 o "Volume") o "Displacement")
                  { fromNode := uniquify name (nodeNames mat), fromSocket := "Shader",
                    toNode := o, toSocket := "Surface" } :=
                (congrArg (fun x => x.2.1) h2).symm
              have hstep := processOutputInputs_bsdf _ _ _ _ _ _ _ _ _ hne hpoi
              have hB1 : (mat.nodes ++ [Node.mk (uniquify name (nodeNames mat))
                  "GROUP" g.ifaceInputs g.ifaceOutputs []]).find?
                    (fun n => n.name == "Principled BSDF") = some b :=
                find?_append_some _ _ _ _ hb
              have hB2 : ((mat.nodes ++ [Node.mk (uniquify name (nodeNames mat))
                  "GROUP" g.ifaceInputs g.ifaceOutputs []])
                  ++ [Node.mk (uniquify name (nodeNames (Material.mk mat.name
                      mat.use_nodes mat.blend_method
                      (mat.nodes ++ [Node.mk (uniquify name (nodeNames mat))
                        "GROUP" g.ifaceInputs g.ifaceOutputs []]) mat.links)))
                    "FRAME" [] [] []]).find?
                    (fun n => n.name == "Principled BSDF") = some b :=
                find?_append_some _ _ _ _ hB1
              rw [hm]
              exact hstep.trans hB2

theorem spliceCore_gd_bsdf (u : Bool) (name : String) (g : NodeGroup)
    (texts : List (String × String)) (ok : Bool) (m2 : Material)
    (t2 : List (String × String))
    (hn1 : name ≠ "Principled BSDF") (hn2 : name ≠ "Material Output")
    (h : spliceCore u name g gdDefaultMaterial texts = some (ok, m2, t2)) :
    bsdfNode m2 = bsdfNode gdDefaultMaterial := by
  have houts : ((gdDefaultMaterial.nodes.filter
      (fun n => n.type == "OUTPUT_MATERIAL")).map (·.name))
        = ["Material Output"] := rfl
  simp only [spliceCore] at h
  rw [houts] at h
  rw [if_neg (by decide)] at h
  simp only [processOutputsList] at h
  split at h
  next => exact absurd h (by simp)
  next ok1 mB tB hpo =>
    have h2 := (Option.some.injEq _ _).mp h
    have hm : m2 = mB := (congrArg (fun x => x.2.1) h2).symm
    rw [hm]
    have e1 : (name == "Principled BSDF") = false := beq_eq_false_iff_ne.mpr hn1
    have e2 : (name == "Material Output") = false := beq_eq_false_iff_ne.mpr hn2
    have hcont : (nodeNames gdDefaultMaterial).contains name = false := by
      show (["Principled BSDF", "Material Output"] : List String).contains name
        = false
      simp only [List.contains_cons, e1, e2]
      simp [hn1, hn2]
    have huniq : uniquify name (nodeNames gdDefaultMaterial) = name :=
      uniquify_of_not_contains _ _ hcont
    have hne : ("Principled BSDF" == uniquify name (nodeNames gdDefaultMaterial))
        = false := by
      rw [huniq]
      exact beq_eq_false_iff_ne.mpr (Ne.symm hn1)
    exact processOutput_bsdf _ _ _ _ _ _ _ _ _ _ hne rfl hpo

theorem any_false_of_find?_none {α : Type} (p : α → Bool) (l : List α)
    (h : l.find? p = none) : l.any p = false := by
  induction l with
  | nil => rfl
  | cons x xs ih =>
    by_cases hx : p x = true
    · rw [find?_cons_pos p x xs hx] at h
      exact absurd h (by simp)
    · rw [find?_cons_neg p x xs (bool_not_true hx)] at h
      simp [List.any_cons, bool_not_true hx, ih h]

theorem spliceMaterial_gdabsent (u : Bool) (name : String) (st : BState)
    (s : Option String) (ok : Bool) (st2 : BState)
    (habs : st.materials.find? (fun x => x.name == Glob.GD_MATERIAL_NAME) = none)
    (h : spliceMaterial u name st s = some (ok, st2)) :
    st2.materials.find? (fun x => x.name == Glob.GD_MATERIAL_NAME) = none := by
  simp only [spliceMaterial] at h
  split at h
  next => exact absurd h (by simp)
  next m0 hm0 =>
    have hmem : m0 ∈ st.materials := List.mem_of_find?_eq_some hm0
    have hm0gd : (m0.name == Glob.GD_MATERIAL_NAME) = false := by
      have hnp := List.find?_eq_none.mp habs m0 hmem
      exact bool_not_true hnp
    split at h
    next hskip =>
      have h2 := (Option.some.injEq _ _).mp h
      have hst : st2 = writeMaterial st { m0 with use_nodes := true } :=
        (congrArg Prod.snd h2).symm
      have hmats : st2.materials
          = replaceFirst st.materials { m0 with use_nodes := true } := by
        rw [hst]
        rfl
      rw [hmats, find?_replaceFirst_other st.materials
        { m0 with use_nodes := true } Glob.GD_MATERIAL_NAME
        (show (({ m0 with use_nodes := true } : Material).name
          == Glob.GD_MATERIAL_NAME) = false from hm0gd)]
      exact habs
    next hskip =>
      split at h
      next => exact absurd h (by simp)
      next g hg =>
        split at h
        next => exact absurd h (by simp)
        next okc m2 t2 hsc =>
          have h2 := (Option.some.injEq _ _).mp h
          have hst : st2 = { writeMaterial st m2 with texts := t2 } :=
            (congrArg Prod.snd h2).symm
          have hnn : hasNode { m0 with use_nodes := true } name = false :=
            bool_not_true hskip
          obtain ⟨hname2, _, _⟩ := spliceCore_post _ _ _ _ _ _ _ _ hnn hsc
          have hm2gd : (m2.name == Glob.GD_MATERIAL_NAME) = false := by
            rw [show m2.name = m0.name from hname2]
            exact hm0gd
          have hmats : st2.materials = replaceFirst st.materials m2 := by
            rw [hst]
            rfl
          rw [hmats, find?_replaceFirst_other st.materials _ _ hm2gd]
          exact habs

theorem spliceMaterial_gdstage (u : Bool) (name : String) (st : BState)
    (s : Option String) (ok : Bool) (st2 : BState)
    (hn1 : name ≠ "Principled BSDF") (hn2m : name ≠ "Material Output")
    (hstage : GDStage name st)
    (h : spliceMaterial u name st s = some (ok, st2)) :
    GDStage name st2 := by
  obtain ⟨m, hmGD, hu, hblack, hAB⟩ := hstage
  simp only [spliceMaterial] at h
  split at h
  next => exact absurd h (by simp)
  next m0 hm0 =>
    have hm0n : (m0.name == slotMatName s) = true :=
      find?_prop (fun x => x.name == slotMatName s) st.materials m0 hm0
    by_cases hslot : slotMatName s = Glob.GD_MATERIAL_NAME
    · have hm0' : st.materials.find?
          (fun x => x.name == Glob.GD_MATERIAL_NAME) = some m0 := by
        rw [← hslot]
        exact hm0
      have hm0m : m0 = m := (Option.some.injEq _ _).mp (hm0'.symm.trans hmGD)
      subst hm0m
      have heta : { m0 with use_nodes := true } = m0 := material_eta_use_nodes m0 hu
      rw [heta] at h
      split at h
      next hskip =>
        have h2 := (Option.some.injEq _ _).mp h
        have hst : st2 = writeMaterial st m0 := (congrArg Prod.snd h2).symm
        have hmats : st2.materials = st.materials := by
          rw [hst]
          show replaceFirst st.materials m0 = st.materials
          exact replaceFirst_of_find? st.materials (slotMatName s) m0 hm0
        exact ⟨m0, by rw [hmats]; exact hm0', hu, hblack, hAB⟩
      next hskip =>
        have hA : m0 = gdDefaultMaterial := by
          rcases hAB with hA | hB
          · exact hA
          · exact absurd
              (show (m0.nodes.any fun n => n.name == name) = true from hB) hskip
        subst hA
        split at h
        next => exact absurd h (by simp)
        next g hg =>
          split at h
          next => exact absurd h (by simp)
          next okc m2 t2 hsc =>
            have h2 := (Option.some.injEq _ _).mp h
            have hst : st2 = { writeMaterial st m2 with texts := t2 } :=
              (congrArg Prod.snd h2).symm
            have hbsdf : bsdfNode m2 = bsdfNode gdDefaultMaterial :=
              spliceCore_gd_bsdf u name g st.texts okc m2 t2 hn1 hn2m hsc
            have hnn : hasNode gdDefaultMaterial name = false := bool_not_true hskip
            obtain ⟨hname2, huse2, hhas2⟩ :=
              spliceCore_post u name g gdDefaultMaterial st.texts okc m2 t2 hnn hsc
            have hmats : st2.materials = replaceFirst st.materials m2 := by
              rw [hst]
              rfl
            refine ⟨m2, ?_, ?_, ?_, Or.inr hhas2⟩
            · rw [hmats]
              exact find?_replaceFirst_self st.materials gdDefaultMaterial m2 _
                hm0' hname2
            · exact huse2.trans rfl
            · have hcol : bsdfEmissionColor m2 = bsdfEmissionColor gdDefaultMaterial := by
                unfold bsdfEmissionColor
                rw [show m2.nodes.find? (fun n => n.name == "Principled BSDF")
                    = gdDefaultMaterial.nodes.find?
                      (fun n => n.name == "Principled BSDF") from hbsdf]
              rw [hcol]
              decide
    · have hm0gd : (m0.name == Glob.GD_MATERIAL_NAME) = false := by
        rw [eq_of_beq hm0n]
        exact beq_eq_false_iff_ne.mpr hslot
      split at h
      next hskip =>
        have h2 := (Option.some.injEq _ _).mp h
        have hst : st2 = writeMaterial st { m0 with use_nodes := true } :=
          (congrArg Prod.snd h2).symm
        have hmats : st2.materials
            = replaceFirst st.materials { m0 with use_nodes := true } := by
          rw [hst]
          rfl
        refine ⟨m, ?_, hu, hblack, hAB⟩
        rw [hmats, find?_replaceFirst_other st.materials
          { m0 with use_nodes := true } Glob.GD_MATERIAL_NAME
          (show (({ m0 with use_nodes := true } : Material).name
            == Glob.GD_MATERIAL_NAME) = false from hm0gd)]
        exact hmGD
      next hskip =>
        split at h
        next => exact absurd h (by simp)
        next g hg =>
          split at h
          next => exact absurd h (by simp)
          next okc m2 t2 hsc =>
            have h2 := (Option.some.injEq _ _).mp h
            have hst : st2 = { writeMaterial st m2 with texts := t2 } :=
              (congrArg Prod.snd h2).symm
            have hnn : hasNode { m0 with use_nodes := true } name = false :=
              bool_not_true hskip
            obtain ⟨hname2, _, _⟩ := spliceCore_post _ _ _ _ _ _ _ _ hnn hsc
            have hm2gd : (m2.name == Glob.GD_MATERIAL_NAME) = false := by
              rw [show m2.name = m0.name from hname2]
              exact hm0gd
            have hmats : st2.materials = replaceFirst st.materials m2 := by
              rw [hst]
              rfl
            refine ⟨m, ?_, hu, hblack, hAB⟩
            rw [hmats, find?_replaceFirst_other st.materials _ _ hm2gd]
            exact hmGD

theorem applySlots_gdabsent (u : Bool) (name : String) (st : BState)
    (slots : List (Option String)) (ok : Bool) (st2 : BState)
    (habs : st.materials.find? (fun x => x.name == Glob.GD_MATERIAL_NAME) = none)
    (h : applySlots u name st slots = some (ok, st2)) :
    st2.materials.find? (fun x => x.name == Glob.GD_MATERIAL_NAME) = none := by
  induction slots generalizing st ok st2 with
  | nil =>
    simp only [applySlots] at h
    have hst : st2 = st :=
      (congrArg Prod.snd ((Option.some.injEq _ _).mp h)).symm
    rw [hst]
    exact habs
  | cons s rest ih =>
    simp only [applySlots] at h
    cases hs : spliceMaterial u name st s with
    | none => simp [hs] at h
    | some p =>
      obtain ⟨ok1, stB⟩ := p
      simp only [hs] at h
      cases hr : applySlots u name stB rest with
      | none => simp [hr] at h
      | some q =>
        obtain ⟨ok2, stC⟩ := q
        simp only [hr] at h
        have hst : st2 = stC :=
          (congrArg Prod.snd ((Option.some.injEq _ _).mp h)).symm
        rw [hst]
        exact ih stB ok2 stC (spliceMaterial_gdabsent _ _ _ _ _ _ habs hs) hr

theorem applySlots_gdstage (u : Bool) (name : String) (st : BState)
    (slots : List (Option String)) (ok : Bool) (st2 : BState)
    (hn1 : name ≠ "Principled BSDF") (hn2m : name ≠ "Material Output")
    (hstage : GDStage name st)
    (h : applySlots u name st slots = some (ok, st2)) :
    GDStage name st2 := by
  induction slots generalizing st ok st2 with
  | nil =>
    simp only [applySlots] at h
    have hst : st2 = st :=
      (congrArg Prod.snd ((Option.some.injEq _ _).mp h)).symm
    rw [hst]
    exact hstage
  | cons s rest ih =>
    simp only [applySlots] at h
    cases hs : spliceMaterial u name st s with
    | none => simp [hs] at h
    | some p =>
      obtain ⟨ok1, stB⟩ := p
      simp only [hs] at h
      cases hr : applySlots u name stB rest with
      | none => simp [hr] at h
      | some q =>
        obtain ⟨ok2, stC⟩ := q
        simp only [hr] at h
        have hst : st2 = stC :=
          (congrArg Prod.snd ((Option.some.injEq _ _).mp h)).symm
        rw [hst]
        exact ih stB ok2 stC
          (spliceMaterial_gdstage _ _ _ _ _ _ hn1 hn2m hstage hs) hr

theorem prepareObject_gdstage (name : String) (st : BState) (ob : Obj)
    (hstage : GDStage name st) : GDStage name (prepareObject st ob).2 := by
  obtain ⟨m, hm, hu, hblack, hAB⟩ := hstage
  simp only [prepareObject]
  split
  next hguard =>
    show GDStage name
      (if st.materials.any (fun m => m.name == Glob.GD_MATERIAL_NAME) then st
       else { st with materials := st.materials ++ [gdDefaultMaterial] })
    rw [if_pos (any_of_find?_some _ _ _ hm)]
    exact ⟨m, hm, hu, hblack, hAB⟩
  next hguard => exact ⟨m, hm, hu, hblack, hAB⟩

theorem prepareObject_gdcreate (name : String) (st : BState) (ob : Obj)
    (habs : st.materials.find? (fun x => x.name == Glob.GD_MATERIAL_NAME) = none)
    (hguard : (ob.material_slots.isEmpty
      || ob.material_slots.any (fun s => s.isNone)) = true) :
    GDStage name (prepareObject st ob).2 := by
  simp only [prepareObject]
  rw [if_pos hguard]
  show GDStage name
    (if st.materials.any (fun m => m.name == Glob.GD_MATERIAL_NAME) then st
     else { st with materials := st.materials ++ [gdDefaultMaterial] })
  rw [if_neg (by rw [any_false_of_find?_none _ _ habs]; exact Bool.false_ne_true)]
  refine ⟨gdDefaultMaterial, ?_, rfl, by decide, Or.inl rfl⟩
  show (st.materials ++ [gdDefaultMaterial]).find?
    (fun x => x.name == Glob.GD_MATERIAL_NAME) = some gdDefaultMaterial
  rw [List.find?_append, habs]
  decide

theorem prepareObject_gdabsent (st : BState) (ob : Obj)
    (hguard : (ob.material_slots.isEmpty
      || ob.material_slots.any (fun s => s.isNone)) = false) :
    (prepareObject st ob).2 = st := by
  obtain ⟨h1, h2⟩ := Bool.or_eq_false_iff.mp hguard
  rw [prepareObject_id st ob h1 h2]

theorem applyObject_gd (u : Bool) (name : String) (st : BState) (ob : Obj)
    (ok : Bool) (ob2 : Obj) (st2 : BState)
    (hn1 : name ≠ "Principled BSDF") (hn2m : name ≠ "Material Output")
    (hinv : GDInv name st)
    (h : applyObject u name st ob = some (ok, ob2, st2)) :
    GDInv name st2
    ∧ (GDStage name st → GDStage name st2)
    ∧ ((ob.material_slots.isEmpty
        || ob.material_slots.any (fun s => s.isNone)) = true
      → GDStage name st2) := by
  simp only [applyObject] at h
  split at h
  next => exact absurd h (by simp)
  next ok1 st3 happ =>
    have hst : st2 = st3 :=
      (congrArg (fun x => x.2.2) ((Option.some.injEq _ _).mp h)).symm
    subst hst
    rcases hinv with habs | hstage
    · by_cases hg : (ob.material_slots.isEmpty
          || ob.material_slots.any (fun s => s.isNone)) = true
      · have hstage2 : GDStage name st2 :=
          applySlots_gdstage _ _ _ _ _ _ hn1 hn2m
            (prepareObject_gdcreate name st ob habs hg) happ
        refine ⟨Or.inr hstage2, fun hs0 => hstage2, fun _ => hstage2⟩
      · have hg' := bool_not_true hg
        have hpre := prepareObject_gdabsent st ob hg'
        rw [hpre] at happ
        have habs2 := applySlots_gdabsent _ _ _ _ _ _ habs happ
        refine ⟨Or.inl habs2, ?_, ?_⟩
        · intro hs0
          obtain ⟨m, hm, _⟩ := hs0
          rw [habs] at hm
          exact absurd hm (by simp)
        · intro hgc
          exact absurd hgc hg
    · have hstage2 : GDStage name st2 :=
        applySlots_gdstage _ _ _ _ _ _ hn1 hn2m
          (prepareObject_gdstage name st ob hstage) happ
      exact ⟨Or.inr hstage2, fun _ => hstage2, fun _ => hstage2⟩

theorem apply_gd (u : Bool) (name : String) (objs : List Obj) (st : BState)
    (ok : Bool) (obs2 : List Obj) (st2 : BState)
    (hn1 : name ≠ "Principled BSDF") (hn2m : name ≠ "Material Output")
    (hinv : GDInv name st)
    (h : apply_node_to_objects u name objs st = some (ok, obs2, st2)) :
    GDInv name st2
    ∧ (GDStage name st → GDStage name st2)
    ∧ ((∃ ob, ob ∈ objs ∧ (ob.material_slots.isEmpty
        || ob.material_slots.any (fun s => s.isNone)) = true)
      → GDStage name st2) := by
  induction objs generalizing st ok obs2 st2 with
  | nil =>
    simp only [apply_node_to_objects] at h
    have hst : st2 = st :=
      (congrArg (fun x => x.2.2) ((Option.some.injEq _ _).mp h)).symm
    subst hst
    exact ⟨hinv, fun hs => hs,
      fun hex => absurd hex.choose_spec.1 (List.not_mem_nil _)⟩
  | cons ob rest ih =>
    simp only [apply_node_to_objects] at h
    cases hobj : applyObject u name st ob with
    | none => simp [hobj] at h
    | some p =>
      obtain ⟨ok1, obB, stB⟩ := p
      simp only [hobj] at h
      cases hr : apply_node_to_objects u name rest stB with
      | none => simp [hr] at h
      | some q =>
        obtain ⟨ok2, obsC, stC⟩ := q
        simp only [hr] at h
        have hst : st2 = stC :=
          (congrArg (fun x => x.2.2) ((Option.some.injEq _ _).mp h)).symm
        subst hst
        obtain ⟨hinvB, hmonoB, hcreateB⟩ :=
          applyObject_gd u name st ob ok1 obB stB hn1 hn2m hinv hobj
        obtain ⟨hinvC, hmonoC, hexC⟩ :=
          ih stB ok2 obsC st2 hinvB hr
        refine ⟨hinvC, fun hs => hmonoC (hmonoB hs), ?_⟩
        rintro ⟨ob', hmem, hguard⟩
        rcases List.mem_cons.mp hmem with h1 | h1
        · subst h1
          exact hmonoC (hcreateB hguard)
        · exact hexC ⟨ob', h1, hguard⟩

/-- C9: an object with no material slots or an empty material slot gets
the add-on's default material assigned into every empty slot — no slot is
removed, non-empty slots are untouched, a slot-less object gains exactly
one slot — and the document afterwards holds the default `GD_Material`
whose Principled BSDF carries a black Emission Color (0,0,0,1).
`Principled BSDF` and `Material Output` are excluded as recipe names (no
actual recipe uses them); without a prior `GD_Material` in the document
the default one is created. -/
theorem apply_fills_empty_slots_with_black_default (u : Bool) (name : String)
    (objs : List Obj) (st : BState) (ok : Bool) (obs2 : List Obj) (st2 : BState)
    (hn1 : name ≠ "Principled BSDF") (hn2m : name ≠ "Material Output")
    (hgd : st.materials.find? (fun x => x.name == Glob.GD_MATERIAL_NAME) = none)
    (h : apply_node_to_objects u name objs st = some (ok, obs2, st2))
    (ob : Obj) (hob : ob ∈ objs)
    (hempty : (ob.material_slots.isEmpty
      || ob.material_slots.any (fun s => s.isNone)) = true) :
    obs2.map (fun o => o.material_slots)
      = objs.map (fun o =>
          if o.material_slots.isEmpty then [some Glob.GD_MATERIAL_NAME]
          else o.material_slots.map (fun s =>
            if s.isNone then some Glob.GD_MATERIAL_NAME else s))
    ∧ ∃ m, st2.materials.find? (fun x => x.name == Glob.GD_MATERIAL_NAME) = some m
        ∧ bsdfEmissionColor m = some (some (.vColor 0 0 0 1)) := by
  refine ⟨apply_objs_shape u name objs st ok obs2 st2 h, ?_⟩
  obtain ⟨m, hm, hu, hblack, _⟩ :=
    (apply_gd u name objs st ok obs2 st2 hn1 hn2m (Or.inl hgd) h).2.2
      ⟨ob, hob, hempty⟩
  exact ⟨m, hm, hblack⟩

/-- Witness for C9: one object with a single empty slot and a document
with no materials, run with the Normal recipe: the slot is filled with
`GD_Material` and the resulting document holds the black-emission default
material. -/
theorem apply_fills_empty_slots_with_black_default_witness :
    exDefaultRun.2.1.map (fun o => o.material_slots)
      = [exObEmptySlot].map (fun o =>
          if o.material_slots.isEmpty then [some Glob.GD_MATERIAL_NAME]
          else o.material_slots.map (fun s =>
            if s.isNone then some Glob.GD_MATERIAL_NAME else s))
    ∧ ∃ m, exDefaultRun.2.2.materials.find?
          (fun x => x.name == Glob.GD_MATERIAL_NAME) = some m
        ∧ bsdfEmissionColor m = some (some (.vColor 0 0 0 1)) :=
  apply_fills_empty_slots_with_black_default true Glob.NORMAL_NODE
    [exObEmptySlot] exEmptyNormalState exDefaultRun.1 exDefaultRun.2.1
    exDefaultRun.2.2 (by decide) (by decide) (by decide) (by decide)
    exObEmptySlot (by decide) (by decide)

/-- Witness for C6: the concrete material `exCnlMat` exercises the
value-copy path with an int-typed target and a float default 3/2, which
is truncated to 1 and assigned on retry, the function returning
`false` (no incoming link). -/
theorem create_node_links_spec_witness :
    create_node_links "X" "P" "S" ⟨"Rough", .floatT, some (.vFloat ⟨3, 2⟩)⟩ exCnlMat
      = some (false, setNodeInputDefault exCnlMat "P" "X" (.vInt 1)) := by
  have h := (create_node_links_spec "X" "P" "S"
      ⟨"Rough", .floatT, some (.vFloat ⟨3, 2⟩)⟩ exCnlMat
      ⟨"X", .intT, some (.vInt 0)⟩ (by decide)).2.2.2.1
      (.vFloat ⟨3, 2⟩) (by decide) rfl (by decide)
  rw [h]
  decide

theorem all_congr_mem {α : Type} (f g : α → Bool) (l : List α)
    (h : ∀ x ∈ l, f x = g x) : l.all f = l.all g := by
  induction l with
  | nil => rfl
  | cons x xs ih =>
    simp only [List.all_cons, h x (List.mem_cons_self x xs),
      ih (fun y hy => h y (List.mem_cons_of_mem x hy))]

theorem all_true_of_mem {α : Type} (f : α → Bool) (l : List α)
    (h : ∀ x ∈ l, f x = true) : l.all f = true :=
  List.all_eq_true.mpr h

theorem linksInto_addLink_self (m : Material) (L : Link) :
    linksInto (addLinkReplacing m L) L.toNode L.toSocket = [L] := by
  show ((m.links.filter (fun x =>
      !(x.toNode == L.toNode && x.toSocket == L.toSocket))) ++ [L]).filter
    (fun l => l.toNode == L.toNode && l.toSocket == L.toSocket) = [L]
  rw [List.filter_append, List.filter_filter]
  have h1 : (m.links.filter (fun x =>
      (x.toNode == L.toNode && x.toSocket == L.toSocket)
      && !(x.toNode == L.toNode && x.toSocket == L.toSocket))) = [] := by
    have hcong : (m.links.filter (fun x =>
        (x.toNode == L.toNode && x.toSocket == L.toSocket)
        && !(x.toNode == L.toNode && x.toSocket == L.toSocket)))
        = m.links.filter (fun _ => false) :=
      List.filter_congr
        (fun x _ => by cases hx : (x.toNode == L.toNode && x.toSocket == L.toSocket)
                       · rfl
                       · rfl)
    rw [hcong]
    exact List.filter_false _
  rw [h1]
  simp

theorem linksInto_addLink_other (m : Material) (L : Link) (y x : String)
    (h : (y == L.toNode && x == L.toSocket) = false) :
    linksInto (addLinkReplacing m L) y x = linksInto m y x := by
  show ((m.links.filter (fun e =>
      !(e.toNode == L.toNode && e.toSocket == L.toSocket))) ++ [L]).filter
    (fun l => l.toNode == y && l.toSocket == x) = linksInto m y x
  rw [List.filter_append, List.filter_filter]
  have h2 : ([L].filter (fun l => l.toNode == y && l.toSocket == x)) = [] := by
    have : (L.toNode == y && L.toSocket == x) = false := by
      rw [@Bool.beq_comm String _ _ L.toNode y, @Bool.beq_comm String _ _ L.toSocket x]
      exact h
    simp [List.filter_cons, this]
  rw [h2, List.append_nil]
  apply List.filter_congr
  intro e he
  cases hy : (e.toNode == y && e.toSocket == x)
  · rfl
  · have hcy : e.toNode = y ∧ e.toSocket = x := by
      rw [Bool.and_eq_true] at hy
      exact ⟨eq_of_beq hy.1, eq_of_beq hy.2⟩
    have hne : (e.toNode == L.toNode && e.toSocket == L.toSocket) = false := by
      cases hL : (e.toNode == L.toNode && e.toSocket == L.toSocket)
      · rfl
      · rw [Bool.and_eq_true] at hL
        have h1 := eq_of_beq hL.1
        have h2' := eq_of_beq hL.2
        rw [← hcy.1, ← hcy.2, h1, h2'] at h
        simp at h
    rw [hne]
    rfl

theorem linksInto_removeLinks_self (m : Material) (a b : String) :
    linksInto (removeLinksInto m a b) a b = [] := by
  show (m.links.filter (fun l => !(l.toNode == a && l.toSocket == b))).filter
    (fun l => l.toNode == a && l.toSocket == b) = []
  rw [List.filter_filter]
  have hcong : (m.links.filter (fun l =>
      (l.toNode == a && l.toSocket == b) && !(l.toNode == a && l.toSocket == b)))
      = m.links.filter (fun _ => false) :=
    List.filter_congr
      (fun l _ => by cases hx : (l.toNode == a && l.toSocket == b)
                     · rfl
                     · rfl)
  rw [hcong]
  exact List.filter_false _

theorem linksInto_removeLinks_other (m : Material) (a b y x : String)
    (h : (y == a && x == b) = false) :
    linksInto (removeLinksInto m a b) y x = linksInto m y x := by
  show (m.links.filter (fun l => !(l.toNode == a && l.toSocket == b))).filter
    (fun l => l.toNode == y && l.toSocket == x) = linksInto m y x
  rw [List.filter_filter]
  apply List.filter_congr
  intro e he
  cases hy : (e.toNode == y && e.toSocket == x)
  · rfl
  · have hcy : e.toNode = y ∧ e.toSocket = x := by
      rw [Bool.and_eq_true] at hy
      exact ⟨eq_of_beq hy.1, eq_of_beq hy.2⟩
    have hne : (e.toNode == a && e.toSocket == b) = false := by
      cases hL : (e.toNode == a && e.toSocket == b)
      · rfl
      · rw [Bool.and_eq_true] at hL
        rw [← hcy.1, ← hcy.2, eq_of_beq hL.1, eq_of_beq hL.2] at h
        simp at h
    rw [hne]
    rfl

theorem mem_linksInto_self (m : Material) (l : Link) (h : l ∈ m.links) :
    l ∈ linksInto m l.toNode l.toSocket := by
  rw [linksInto, List.mem_filter]
  exact ⟨h, by simp⟩

theorem mem_links_of_mem_linksInto (m : Material) (y x : String) (l : Link)
    (h : l ∈ linksInto m y x) : l ∈ m.links :=
  (List.mem_filter.mp h).1

theorem toNode_of_mem_linksInto (m : Material) (y x : String) (l : Link)
    (h : l ∈ linksInto m y x) : l.toNode = y ∧ l.toSocket = x := by
  have h2 := (List.mem_filter.mp h).2
  rw [Bool.and_eq_true] at h2
  exact ⟨eq_of_beq h2.1, eq_of_beq h2.2⟩

theorem setInputsDefault_names (ins : List InputSocket) (i : String) (v : Value) :
    (setInputsDefault ins i v).map (fun s => s.name) = ins.map (fun s => s.name) := by
  rw [setInputsDefault, List.map_map]
  apply List.map_congr_left
  intro s hs
  show (if (s.name == i) = true then { s with default := some v } else s).name
    = s.name
  split
  · rfl
  · rfl

theorem nodeMapRel_refl (pN : String) (m : Material) : NodeMapRel pN m m :=
  ⟨rfl, rfl, id, (List.map_id _).symm,
   fun n => ⟨rfl, rfl, rfl, rfl, rfl, fun _ => rfl⟩⟩

theorem nodeMapRel_trans {pN : String} {m1 m2 m3 : Material}
    (h12 : NodeMapRel pN m1 m2) (h23 : NodeMapRel pN m2 m3) :
    NodeMapRel pN m1 m3 := by
  obtain ⟨hn12, hu12, F1, hm12, hF1⟩ := h12
  obtain ⟨hn23, hu23, F2, hm23, hF2⟩ := h23
  refine ⟨hn23.trans hn12, hu23.trans hu12, F2 ∘ F1, ?_, ?_⟩
  · rw [hm23, hm12, List.map_map]
  · intro n
    refine ⟨(hF2 (F1 n)).1.trans (hF1 n).1,
      (hF2 (F1 n)).2.1.trans (hF1 n).2.1,
      (hF2 (F1 n)).2.2.1.trans (hF1 n).2.2.1,
      (hF2 (F1 n)).2.2.2.1.trans (hF1 n).2.2.2.1,
      (hF2 (F1 n)).2.2.2.2.1.trans (hF1 n).2.2.2.2.1, ?_⟩
    intro hne
    have hid1 : F1 n = n := (hF1 n).2.2.2.2.2 hne
    have hne2 : ((F1 n).name == pN) = false := by rw [(hF1 n).1]; exact hne
    have hid2 : F2 (F1 n) = F1 n := (hF2 (F1 n)).2.2.2.2.2 hne2
    show F2 (F1 n) = n
    rw [hid2, hid1]

theorem nodeMapRel_of_nodes_eq {pN : String} {m m2 : Material}
    (hn : m2.name = m.name) (hu : m2.use_nodes = m.use_nodes)
    (hnd : m2.nodes = m.nodes) : NodeMapRel pN m m2 :=
  ⟨hn, hu, id, by rw [hnd, List.map_id],
   fun n => ⟨rfl, rfl, rfl, rfl, rfl, fun _ => rfl⟩⟩

theorem nodeMapRel_setNID (pN : String) (m : Material) (i : String) (v : Value) :
    NodeMapRel pN m (setNodeInputDefault m pN i v) := by
  refine ⟨rfl, rfl,
    (fun n => if n.name == pN
      then { n with inputs := setInputsDefault n.inputs i v } else n), rfl, ?_⟩
  intro n
  by_cases hn : (n.name == pN) = true
  · refine ⟨?_, ?_, ?_, ?_, ?_, ?_⟩
    · show (if (n.name == pN) = true then _ else n).name = n.name
      rw [if_pos hn]
    · show (if (n.name == pN) = true then _ else n).type = n.type
      rw [if_pos hn]
    · show (if (n.name == pN) = true then _ else n).outputs = n.outputs
      rw [if_pos hn]
    · show (if (n.name == pN) = true then _ else n).inputs.map (fun s => s.name)
        = n.inputs.map (fun s => s.name)
      rw [if_pos hn]
      exact setInputsDefault_names n.inputs i v
    · show (if (n.name == pN) = true then _ else n).ramp_elements = n.ramp_elements
      rw [if_pos hn]
    · intro hne
      rw [hn] at hne
      exact absurd hne (by simp)
  · have hn' := bool_not_true hn
    have hid : (if (n.name == pN) = true
        then { n with inputs := setInputsDefault n.inputs i v } else n) = n := by
      rw [if_neg (by rw [hn']; simp)]
    refine ⟨?_, ?_, ?_, ?_, ?_, fun _ => ?_⟩ <;> simp only [hid]

theorem nodeMapRel_find {pN : String} {m m2 : Material}
    (h : NodeMapRel pN m m2) (x : String) (hx : (x == pN) = false) :
    findNode m2 x = findNode m x := by
  obtain ⟨_, _, F, hmap, hF⟩ := h
  rw [findNode, findNode, hmap,
    find?_map_nameKeep (fun n => n.name == x) F m.nodes
      (fun n => by show ((F n).name == x) = (n.name == x); rw [(hF n).1])]
  cases hf : m.nodes.find? (fun n => n.name == x) with
  | none => rfl
  | some n0 =>
    have hn0 : n0.name = x :=
      eq_of_beq (find?_prop (fun n => n.name == x) m.nodes n0 hf)
    have hid : F n0 = n0 := (hF n0).2.2.2.2.2 (by rw [hn0]; exact hx)
    rw [Option.map_some', hid]

theorem stepRel_refl (pN : String) (m : Material) : StepRel pN m m :=
  ⟨fun _ _ _ => rfl, nodeMapRel_refl pN m, fun l2 h2 => Or.inl h2⟩

theorem stepRel_trans {pN : String} {m1 m2 m3 : Material}
    (h12 : StepRel pN m1 m2) (h23 : StepRel pN m2 m3) : StepRel pN m1 m3 := by
  obtain ⟨p12, n12, o12⟩ := h12
  obtain ⟨p23, n23, o23⟩ := h23
  refine ⟨fun y x hc => (p23 y x hc).trans (p12 y x hc),
    nodeMapRel_trans n12 n23, ?_⟩
  intro l2 h2
  rcases o23 l2 h2 with hin | ⟨l1, hl1, hf, hs, ht⟩
  · exact o12 l2 hin
  · rcases o12 l1 hl1 with hin1 | ⟨l0, hl0, hf0, hs0, _⟩
    · exact Or.inr ⟨l1, hin1, hf, hs, ht⟩
    · exact Or.inr ⟨l0, hl0, hf.trans hf0, hs.trans hs0, ht⟩

theorem stepRel_addLink (pN : String) (m : Material) (L : Link)
    (hL : L.toNode = pN)
    (hfrom : ∃ l, l ∈ m.links ∧ L.fromNode = l.fromNode ∧ L.fromSocket = l.fromSocket)
    (hch : bridgedChannelNames.contains L.toSocket = true) :
    StepRel pN m (addLinkReplacing m L) := by
  refine ⟨?_, nodeMapRel_of_nodes_eq rfl rfl rfl, ?_⟩
  · intro y x hc
    apply linksInto_addLink_other
    rcases hc with hy | hx
    · have : (y == L.toNode) = false := by rw [hL]; exact hy
      rw [this]
      rfl
    · cases hxL : (x == L.toSocket)
      · simp
      · rw [eq_of_beq hxL] at hx
        rw [hx] at hch
        exact absurd hch (by simp)
  · intro l2 h2
    rcases List.mem_append.mp h2 with hmem | hmem
    · exact Or.inl (List.mem_filter.mp hmem).1
    · obtain ⟨l, hl, hf, hs⟩ := hfrom
      have : l2 = L := by
        cases List.mem_singleton.mp hmem
        rfl
      rw [this]
      exact Or.inr ⟨l, hl, hf, hs, hL⟩

theorem stepRel_setNID (pN : String) (m : Material) (i : String) (v : Value) :
    StepRel pN m (setNodeInputDefault m pN i v) :=
  ⟨fun _ _ _ => rfl, nodeMapRel_setNID pN m i v, fun l2 h2 => Or.inl h2⟩

theorem stepRel_blend (pN : String) (m : Material) (c : String) :
    StepRel pN m { m with blend_method := c } :=
  ⟨fun _ _ _ => rfl, nodeMapRel_of_nodes_eq rfl rfl rfl, fun l2 h2 => Or.inl h2⟩

theorem cnl_step (i ng src : String) (inp : InputSocket) (m : Material)
    (f : Bool) (m2 : Material)
    (hch : bridgedChannelNames.contains i = true)
    (h : create_node_links i ng src inp m = some (f, m2)) :
    f = !(linksInto m src inp.name).isEmpty ∧ StepRel ng m m2 := by
  unfold create_node_links at h
  split at h
  next l ls heq =>
    split at h
    next => exact absurd h (by simp)
    next =>
      have h2 := (Option.some.injEq _ _).mp h
      have hf : f = true := (congrArg Prod.fst h2).symm
      have hm : m2 = addLinkReplacing m _ := (congrArg Prod.snd h2).symm
      constructor
      · rw [hf, heq]
        rfl
      · rw [hm]
        refine stepRel_addLink ng m _ rfl ⟨l, ?_, rfl, rfl⟩ hch
        have : l ∈ linksInto m src inp.name := by
          rw [heq]
          exact List.mem_cons_self l ls
        exact mem_links_of_mem_linksInto m src inp.name l this
  next heq =>
    have hflag : f = false ∧ ∃ w, m2 = setNodeInputDefault m ng i w := by
      split at h
      next => exact absurd h (by simp)
      next tgt htgt =>
        split at h
        next => exact absurd h (by simp)
        next v hv =>
          split at h
          next w hw =>
            have h2 := (Option.some.injEq _ _).mp h
            exact ⟨(congrArg Prod.fst h2).symm, w, (congrArg Prod.snd h2).symm⟩
          next => exact absurd h (by simp)
          next =>
            split at h
            next => exact absurd h (by simp)
            next v3 hv3 =>
              split at h
              next w hw =>
                have h2 := (Option.some.injEq _ _).mp h
                exact ⟨(congrArg Prod.fst h2).symm, w, (congrArg Prod.snd h2).symm⟩
              next => exact absurd h (by simp)
              next => exact absurd h (by simp)
    obtain ⟨hf, w, hm⟩ := hflag
    constructor
    · rw [hf, heq]
      rfl
    · rw [hm]
      exact stepRel_setNID ng m i w

theorem bridge_step (u : Bool) (name pName srcName : String)
    (inputs : List InputSocket) (found f2 : Bool) (m m2 : Material)
    (h : bridgeChannels u name pName srcName inputs found m = some (f2, m2)) :
    StepRel pName m m2 := by
  induction inputs generalizing found f2 m m2 with
  | nil =>
    simp only [bridgeChannels] at h
    have h2 := (Option.some.injEq _ _).mp h
    have hm : m2 = m := (congrArg Prod.snd h2).symm
    rw [hm]
    exact stepRel_refl _ _
  | cons inp rest ih =>
    simp only [bridgeChannels] at h
    split at h
    next hcond =>
      cases hcnl : create_node_links inp.name pName srcName inp m with
      | none => simp [hcnl] at h
      | some p =>
        obtain ⟨f3, mB⟩ := p
        simp only [hcnl] at h
        rw [Bool.and_eq_true] at hcond
        have hnm : inp.name = Glob.COLOR_NAME := eq_of_beq hcond.2
        have hch : bridgedChannelNames.contains inp.name = true := by
          rw [hnm]
          decide
        exact stepRel_trans (cnl_step _ _ _ _ _ _ _ hch hcnl).2 (ih _ _ _ _ h)
    next =>
      split at h
      next hcond =>
        cases hcnl : create_node_links inp.name pName srcName inp m with
        | none => simp [hcnl] at h
        | some p =>
          obtain ⟨f3, mB⟩ := p
          simp only [hcnl] at h
          rw [Bool.and_eq_true] at hcond
          have hnm : inp.name = "Emission Color" := eq_of_beq hcond.2
          have hch : bridgedChannelNames.contains inp.name = true := by
            rw [hnm]
            decide
          exact stepRel_trans (cnl_step _ _ _ _ _ _ _ hch hcnl).2 (ih _ _ _ _ h)
      next =>
        split at h
        next hcond =>
          cases hcnl : create_node_links inp.name pName srcName inp m with
          | none => simp [hcnl] at h
          | some p =>
            obtain ⟨f3, mB⟩ := p
            simp only [hcnl] at h
            rw [Bool.and_eq_true] at hcond
            have hnm : inp.name = Glob.ROUGHNESS_NAME := eq_of_beq hcond.2
            have hch : bridgedChannelNames.contains inp.name = true := by
              rw [hnm]
              decide
            exact stepRel_trans (cnl_step _ _ _ _ _ _ _ hch hcnl).2 (ih _ _ _ _ h)
        next =>
          split at h
          next hcond =>
            cases hcnl : create_node_links inp.name pName srcName inp m with
            | none => simp [hcnl] at h
            | some p =>
              obtain ⟨f3, mB⟩ := p
              simp only [hcnl] at h
              rw [Bool.and_eq_true] at hcond
              have hnm : inp.name = Glob.METALLIC_NAME := eq_of_beq hcond.2
              have hch : bridgedChannelNames.contains inp.name = true := by
                rw [hnm]
                decide
              exact stepRel_trans (cnl_step _ _ _ _ _ _ _ hch hcnl).2 (ih _ _ _ _ h)
          next =>
            split at h
            next hcond =>
              cases hcnl : create_node_links inp.name pName srcName inp m with
              | none => simp [hcnl] at h
              | some p =>
                obtain ⟨f3, mB⟩ := p
                simp only [hcnl] at h
                rw [Bool.and_eq_true] at hcond
                have hnm : inp.name = Glob.ALPHA_NAME := eq_of_beq hcond.2
                have hch : bridgedChannelNames.contains inp.name = true := by
                  rw [hnm]
                  decide
                refine stepRel_trans (cnl_step _ _ _ _ _ _ _ hch hcnl).2 ?_
                refine stepRel_trans ?_ (ih _ _ _ _ h)
                split
                · exact stepRel_blend _ _ _
                · exact stepRel_refl _ _
            next =>
              split at h
              next hcond =>
                cases hcnl : create_node_links inp.name pName srcName inp m with
                | none => simp [hcnl] at h
                | some p =>
                  obtain ⟨f3, mB⟩ := p
                  simp only [hcnl] at h
                  rw [Bool.and_eq_true] at hcond
                  have hnm : inp.name = "Normal" := eq_of_beq hcond.2
                  have hch : bridgedChannelNames.contains inp.name = true := by
                    rw [hnm]
                    decide
                  refine stepRel_trans (cnl_step _ _ _ _ _ _ _ hch hcnl).2 ?_
                  refine stepRel_trans ?_ (ih _ _ _ _ h)
                  split
                  · exact stepRel_blend _ _ _
                  · exact stepRel_refl _ _
              next =>
                split at h
                next hcond =>
                  cases hcnl : create_node_links inp.name pName srcName inp m with
                  | none => simp [hcnl] at h
                  | some p =>
                    obtain ⟨f3, mB⟩ := p
                    simp only [hcnl] at h
                    rw [Bool.and_eq_true] at hcond
                    have hnm : inp.name = "Normal" := eq_of_beq hcond.2
                    have hch : bridgedChannelNames.contains inp.name = true := by
                      rw [hnm]
                      decide
                    exact stepRel_trans (cnl_step _ _ _ _ _ _ _ hch hcnl).2 (ih _ _ _ _ h)
                next =>
                  split at h
                  next hcond =>
                    have h2 := (Option.some.injEq _ _).mp h
                    have hm : m2 = m := (congrArg Prod.snd h2).symm
                    rw [hm]
                    exact stepRel_refl _ _
                  next hcond =>
                    exact ih _ _ _ _ h

/-- With no input matching the recipe, `bridgeChannels` changes nothing:
every arm falls through to the `elif node_found: break` / pass pair. -/
theorem bridge_flag_nomatch (u : Bool) (name pName srcName : String)
    (inputs : List InputSocket) (found f2 : Bool) (m m2 : Material)
    (hfilter : inputs.filter (fun i => matchesChannel name i.name) = [])
    (h : bridgeChannels u name pName srcName inputs found m = some (f2, m2)) :
    f2 = found ∧ m2 = m := by
  induction inputs generalizing found f2 m m2 with
  | nil =>
    simp only [bridgeChannels] at h
    have h2 := (Option.some.injEq _ _).mp h
    exact ⟨(congrArg Prod.fst h2).symm, (congrArg Prod.snd h2).symm⟩
  | cons inp rest ih =>
    simp only [bridgeChannels] at h
    split at h
    next hcond =>
      have hT : matchesChannel name inp.name = true := by
        simp only [matchesChannel, hcond, Bool.true_or, Bool.or_true]
      rw [List.filter_cons, if_pos hT] at hfilter
      exact absurd hfilter (by simp)
    next hc1 =>
      split at h
      next hcond =>
        have hT : matchesChannel name inp.name = true := by
          simp only [matchesChannel, hcond, Bool.true_or, Bool.or_true]
        rw [List.filter_cons, if_pos hT] at hfilter
        exact absurd hfilter (by simp)
      next hc2 =>
        split at h
        next hcond =>
          have hT : matchesChannel name inp.name = true := by
            simp only [matchesChannel, hcond, Bool.true_or, Bool.or_true]
          rw [List.filter_cons, if_pos hT] at hfilter
          exact absurd hfilter (by simp)
        next hc3 =>
          split at h
          next hcond =>
            have hT : matchesChannel name inp.name = true := by
              simp only [matchesChannel, hcond, Bool.true_or, Bool.or_true]
            rw [List.filter_cons, if_pos hT] at hfilter
            exact absurd hfilter (by simp)
          next hc4 =>
            split at h
            next hcond =>
              have hT : matchesChannel name inp.name = true := by
                simp only [matchesChannel, hcond, Bool.true_or, Bool.or_true]
              rw [List.filter_cons, if_pos hT] at hfilter
              exact absurd hfilter (by simp)
            next hc5 =>
              split at h
              next hcond =>
                have hT : matchesChannel name inp.name = true := by
                  simp only [matchesChannel, hcond, Bool.true_or, Bool.or_true]
                rw [List.filter_cons, if_pos hT] at hfilter
                exact absurd hfilter (by simp)
              next hc6 =>
                split at h
                next hcond =>
                  have hT : matchesChannel name inp.name = true := by
                    simp only [matchesChannel, hcond, Bool.true_or, Bool.or_true]
                  rw [List.filter_cons, if_pos hT] at hfilter
                  exact absurd hfilter (by simp)
                next hc7 =>
                  split at h
                  next =>
                    have h2 := (Option.some.injEq _ _).mp h
                    exact ⟨(congrArg Prod.fst h2).symm, (congrArg Prod.snd h2).symm⟩
                  next =>
                    have hF : matchesChannel name inp.name = false := by
                      simp only [matchesChannel]
                      rw [bool_not_true hc1, bool_not_true hc2, bool_not_true hc3,
                          bool_not_true hc4, bool_not_true hc5, bool_not_true hc6,
                          bool_not_true hc7]
                      decide
                    rw [List.filter_cons, if_neg (by simp [hF])] at hfilter
                    exact ih found f2 m m2 hfilter h

/-- The flag produced by `bridgeChannels` starting from `node_found =
False`, when at most one input socket matches the recipe: it is set
exactly when the matching socket carries an incoming link, judged on the
material as it stood before the bridging. -/
theorem bridge_flag (u : Bool) (name pName srcName : String)
    (inputs : List InputSocket) (found f2 : Bool) (m m2 : Material)
    (hfound : found = false)
    (hlen : (inputs.filter (fun i => matchesChannel name i.name)).length ≤ 1)
    (h : bridgeChannels u name pName srcName inputs found m = some (f2, m2)) :
    f2 = (inputs.filter (fun i => matchesChannel name i.name)).any
      (fun i => !(linksInto m srcName i.name).isEmpty) := by
  induction inputs generalizing found f2 m m2 with
  | nil =>
    simp only [bridgeChannels] at h
    have h2 := (Option.some.injEq _ _).mp h
    have hf : f2 = found := (congrArg Prod.fst h2).symm
    rw [hf, hfound]
    simp
  | cons inp rest ih =>
    simp only [bridgeChannels] at h
    split at h
    next hcond =>
      cases hcnl : create_node_links inp.name pName srcName inp m with
      | none => simp [hcnl] at h
      | some p =>
        obtain ⟨f3, mB⟩ := p
        simp only [hcnl] at h
        have hT : matchesChannel name inp.name = true := by
          simp only [matchesChannel, hcond, Bool.true_or, Bool.or_true]
        have hfc : (inp :: rest).filter (fun i => matchesChannel name i.name)
            = inp :: rest.filter (fun i => matchesChannel name i.name) := by
          rw [List.filter_cons, if_pos hT]
        rw [hfc, List.length_cons] at hlen
        have hrestnil : rest.filter (fun i => matchesChannel name i.name) = [] :=
          List.eq_nil_of_length_eq_zero (Nat.le_zero.mp (Nat.le_of_succ_le_succ hlen))
        rw [Bool.and_eq_true] at hcond
        have hnm : inp.name = Glob.COLOR_NAME := eq_of_beq hcond.2
        have hch : bridgedChannelNames.contains inp.name = true := by
          rw [hnm]
          decide
        have hf3 := (cnl_step inp.name pName srcName inp m f3 mB hch hcnl).1
        have hrest := bridge_flag_nomatch u name pName srcName rest f3 f2 _ m2 hrestnil h
        rw [hfc, hrestnil, List.any_cons, List.any_nil, Bool.or_false]
        exact hrest.1.trans hf3
    next hc1 =>
      split at h
      next hcond =>
        cases hcnl : create_node_links inp.name pName srcName inp m with
        | none => simp [hcnl] at h
        | some p =>
          obtain ⟨f3, mB⟩ := p
          simp only [hcnl] at h
          have hT : matchesChannel name inp.name = true := by
            simp only [matchesChannel, hcond, Bool.true_or, Bool.or_true]
          have hfc : (inp :: rest).filter (fun i => matchesChannel name i.name)
              = inp :: rest.filter (fun i => matchesChannel name i.name) := by
            rw [List.filter_cons, if_pos hT]
          rw [hfc, List.length_cons] at hlen
          have hrestnil : rest.filter (fun i => matchesChannel name i.name) = [] :=
            List.eq_nil_of_length_eq_zero (Nat.le_zero.mp (Nat.le_of_succ_le_succ hlen))
          rw [Bool.and_eq_true] at hcond
          have hnm : inp.name = "Emission Color" := eq_of_beq hcond.2
          have hch : bridgedChannelNames.contains inp.name = true := by
            rw [hnm]
            decide
          have hf3 := (cnl_step inp.name pName srcName inp m f3 mB hch hcnl).1
          have hrest := bridge_flag_nomatch u name pName srcName rest f3 f2 _ m2 hrestnil h
          rw [hfc, hrestnil, List.any_cons, List.any_nil, Bool.or_false]
          exact hrest.1.trans hf3
      next hc2 =>
        split at h
        next hcond =>
          cases hcnl : create_node_links inp.name pName srcName inp m with
          | none => simp [hcnl] at h
          | some p =>
            obtain ⟨f3, mB⟩ := p
            simp only [hcnl] at h
            have hT : matchesChannel name inp.name = true := by
              simp only [matchesChannel, hcond, Bool.true_or, Bool.or_true]
            have hfc : (inp :: rest).filter (fun i => matchesChannel name i.name)
                = inp :: rest.filter (fun i => matchesChannel name i.name) := by
              rw [List.filter_cons, if_pos hT]
            rw [hfc, List.length_cons] at hlen
            have hrestnil : rest.filter (fun i => matchesChannel name i.name) = [] :=
              List.eq_nil_of_length_eq_zero (Nat.le_zero.mp (Nat.le_of_succ_le_succ hlen))
            rw [Bool.and_eq_true] at hcond
            have hnm : inp.name = Glob.ROUGHNESS_NAME := eq_of_beq hcond.2
            have hch : bridgedChannelNames.contains inp.name = true := by
              rw [hnm]
              decide
            have hf3 := (cnl_step inp.name pName srcName inp m f3 mB hch hcnl).1
            have hrest := bridge_flag_nomatch u name pName srcName rest f3 f2 _ m2 hrestnil h
            rw [hfc, hrestnil, List.any_cons, List.any_nil, Bool.or_false]
            exact hrest.1.trans hf3
        next hc3 =>
          split at h
          next hcond =>
            cases hcnl : create_node_links inp.name pName srcName inp m with
            | none => simp [hcnl] at h
            | some p =>
              obtain ⟨f3, mB⟩ := p
              simp only [hcnl] at h
              have hT : matchesChannel name inp.name = true := by
                simp only [matchesChannel, hcond, Bool.true_or, Bool.or_true]
              have hfc : (inp :: rest).filter (fun i => matchesChannel name i.name)
                  = inp :: rest.filter (fun i => matchesChannel name i.name) := by
                rw [List.filter_cons, if_pos hT]
              rw [hfc, List.length_cons] at hlen
              have hrestnil : rest.filter (fun i => matchesChannel name i.name) = [] :=
                List.eq_nil_of_length_eq_zero (Nat.le_zero.mp (Nat.le_of_succ_le_succ hlen))
              rw [Bool.and_eq_true] at hcond
              have hnm : inp.name = Glob.METALLIC_NAME := eq_of_beq hcond.2
              have hch : bridgedChannelNames.contains inp.name = true := by
                rw [hnm]
                decide
              have hf3 := (cnl_step inp.name pName srcName inp m f3 mB hch hcnl).1
              have hrest := bridge_flag_nomatch u name pName srcName rest f3 f2 _ m2 hrestnil h
              rw [hfc, hrestnil, List.any_cons, List.any_nil, Bool.or_false]
              exact hrest.1.trans hf3
          next hc4 =>
            split at h
            next hcond =>
              cases hcnl : create_node_links inp.name pName srcName inp m with
              | none => simp [hcnl] at h
              | some p =>
                obtain ⟨f3, mB⟩ := p
                simp only [hcnl] at h
                have hT : matchesChannel name inp.name = true := by
                  simp only [matchesChannel, hcond, Bool.true_or, Bool.or_true]
                have hfc : (inp :: rest).filter (fun i => matchesChannel name i.name)
                    = inp :: rest.filter (fun i => matchesChannel name i.name) := by
                  rw [List.filter_cons, if_pos hT]
                rw [hfc, List.length_cons] at hlen
                have hrestnil : rest.filter (fun i => matchesChannel name i.name) = [] :=
                  List.eq_nil_of_length_eq_zero (Nat.le_zero.mp (Nat.le_of_succ_le_succ hlen))
                rw [Bool.and_eq_true] at hcond
                have hnm : inp.name = Glob.ALPHA_NAME := eq_of_beq hcond.2
                have hch : bridgedChannelNames.contains inp.name = true := by
                  rw [hnm]
                  decide
                have hf3 := (cnl_step inp.name pName srcName inp m f3 mB hch hcnl).1
                have hrest := bridge_flag_nomatch u name pName srcName rest f3 f2 _ m2 hrestnil h
                rw [hfc, hrestnil, List.any_cons, List.any_nil, Bool.or_false]
                exact hrest.1.trans hf3
            next hc5 =>
              split at h
              next hcond =>
                cases hcnl : create_node_links inp.name pName srcName inp m with
                | none => simp [hcnl] at h
                | some p =>
                  obtain ⟨f3, mB⟩ := p
                  simp only [hcnl] at h
                  have hT : matchesChannel name inp.name = true := by
                    simp only [matchesChannel, hcond, Bool.true_or, Bool.or_true]
                  have hfc : (inp :: rest).filter (fun i => matchesChannel name i.name)
                      = inp :: rest.filter (fun i => matchesChannel name i.name) := by
                    rw [List.filter_cons, if_pos hT]
                  rw [hfc, List.length_cons] at hlen
                  have hrestnil : rest.filter (fun i => matchesChannel name i.name) = [] :=
                    List.eq_nil_of_length_eq_zero (Nat.le_zero.mp (Nat.le_of_succ_le_succ hlen))
                  rw [Bool.and_eq_true] at hcond
                  have hnm : inp.name = "Normal" := eq_of_beq hcond.2
                  have hch : bridgedChannelNames.contains inp.name = true := by
                    rw [hnm]
                    decide
                  have hf3 := (cnl_step inp.name pName srcName inp m f3 mB hch hcnl).1
                  have hrest := bridge_flag_nomatch u name pName srcName rest f3 f2 _ m2 hrestnil h
                  rw [hfc, hrestnil, List.any_cons, List.any_nil, Bool.or_false]
                  exact hrest.1.trans hf3
              next hc6 =>
                split at h
                next hcond =>
                  cases hcnl : create_node_links inp.name pName srcName inp m with
                  | none => simp [hcnl] at h
                  | some p =>
                    obtain ⟨f3, mB⟩ := p
                    simp only [hcnl] at h
                    have hT : matchesChannel name inp.name = true := by
                      simp only [matchesChannel, hcond, Bool.true_or, Bool.or_true]
                    have hfc : (inp :: rest).filter (fun i => matchesChannel name i.name)
                        = inp :: rest.filter (fun i => matchesChannel name i.name) := by
                      rw [List.filter_cons, if_pos hT]
                    rw [hfc, List.length_cons] at hlen
                    have hrestnil : rest.filter (fun i => matchesChannel name i.name) = [] :=
                      List.eq_nil_of_length_eq_zero (Nat.le_zero.mp (Nat.le_of_succ_le_succ hlen))
                    rw [Bool.and_eq_true] at hcond
                    have hnm : inp.name = "Normal" := eq_of_beq hcond.2
                    have hch : bridgedChannelNames.contains inp.name = true := by
                      rw [hnm]
                      decide
                    have hf3 := (cnl_step inp.name pName srcName inp m f3 mB hch hcnl).1
                    have hrest := bridge_flag_nomatch u name pName srcName rest f3 f2 _ m2 hrestnil h
                    rw [hfc, hrestnil, List.any_cons, List.any_nil, Bool.or_false]
                    exact hrest.1.trans hf3
                next hc7 =>
                  split at h
                  next hfd =>
                    rw [hfound] at hfd
                    exact absurd hfd (by decide)
                  next =>
                    have hF : matchesChannel name inp.name = false := by
                      simp only [matchesChannel]
                      rw [bool_not_true hc1, bool_not_true hc2, bool_not_true hc3,
                          bool_not_true hc4, bool_not_true hc5, bool_not_true hc6,
                          bool_not_true hc7]
                      decide
                    rw [List.filter_cons, if_neg (by simp [hF])] at hlen
                    rw [List.filter_cons, if_neg (by simp [hF])]
                    exact ih found f2 m m2 hfound hlen h

theorem any_congr_mem {α : Type} (f g : α → Bool) (l : List α)
    (h : ∀ a, a ∈ l → f a = g a) : l.any f = l.any g := by
  induction l with
  | nil => rfl
  | cons a as ih =>
    rw [List.any_cons, List.any_cons, h a (List.mem_cons_self a as),
      ih (fun b hb => h b (List.mem_cons_of_mem a hb))]

theorem length_filter_name (p : String → Bool) (l : List InputSocket) :
    (l.filter (fun i => p i.name)).length
      = ((l.map (fun i => i.name)).filter p).length := by
  induction l with
  | nil => rfl
  | cons a as ih =>
    rw [List.map_cons, List.filter_cons, List.filter_cons]
    cases hp : p a.name
    · rw [if_neg (by simp [hp]), if_neg (by simp [hp])]
      exact ih
    · rw [if_pos (by simp [hp]), if_pos (by simp [hp]), List.length_cons,
        List.length_cons, ih]

theorem stepRelW_refl (pN : String) (m : Material) : StepRelW pN m m :=
  ⟨fun _ _ _ => rfl, nodeMapRel_refl pN m, fun l2 h2 => Or.inl h2⟩

theorem stepRelW_trans {pN : String} {m1 m2 m3 : Material}
    (h12 : StepRelW pN m1 m2) (h23 : StepRelW pN m2 m3) : StepRelW pN m1 m3 := by
  obtain ⟨p12, n12, o12⟩ := h12
  obtain ⟨p23, n23, o23⟩ := h23
  refine ⟨fun y x hc => (p23 y x hc).trans (p12 y x hc),
    nodeMapRel_trans n12 n23, ?_⟩
  intro l2 h2
  rcases o23 l2 h2 with hin | ⟨l1, hl1, hf, hs, ht⟩
  · exact o12 l2 hin
  · rcases o12 l1 hl1 with hin1 | ⟨l0, hl0, hf0, hs0, _⟩
    · exact Or.inr ⟨l1, hin1, hf, hs, ht⟩
    · exact Or.inr ⟨l0, hl0, hf.trans hf0, hs.trans hs0, ht⟩

theorem stepRel_weaken {pN : String} {m m2 : Material} (h : StepRel pN m m2) :
    StepRelW pN m m2 :=
  ⟨fun y x hy => h.1 y x (Or.inl hy), h.2.1, h.2.2⟩

theorem stepRelW_addLink (pN : String) (m : Material) (L : Link)
    (hL : L.toNode = pN)
    (hfrom : ∃ l, l ∈ m.links ∧ L.fromNode = l.fromNode ∧ L.fromSocket = l.fromSocket) :
    StepRelW pN m (addLinkReplacing m L) := by
  refine ⟨?_, nodeMapRel_of_nodes_eq rfl rfl rfl, ?_⟩
  · intro y x hy
    apply linksInto_addLink_other
    have hyt : (y == L.toNode) = false := by
      rw [hL]
      exact hy
    rw [hyt]
    rfl
  · intro l2 h2
    rcases List.mem_append.mp h2 with hmem | hmem
    · exact Or.inl (List.mem_filter.mp hmem).1
    · obtain ⟨l, hl, hf, hs⟩ := hfrom
      have hl2 : l2 = L := by
        cases List.mem_singleton.mp hmem
        rfl
      rw [hl2]
      exact Or.inr ⟨l, hl, hf, hs, hL⟩

theorem stepRelW_fromNode {pN : String} {m m2 : Material}
    (hrel : StepRelW pN m m2)
    (hfrom : ∀ l, l ∈ m.links → (l.fromNode == pN) = false) :
    ∀ l2, l2 ∈ m2.links → (l2.fromNode == pN) = false := by
  intro l2 h2
  rcases hrel.2.2 l2 h2 with hin | ⟨l, hl, hf, _, _⟩
  · exact hfrom l2 hin
  · rw [hf]
    exact hfrom l hl

theorem stepRelW_mem_links {pN : String} {m m2 : Material}
    (hrel : StepRelW pN m m2) (l : Link) (hl : l ∈ m.links)
    (ht : (l.toNode == pN) = false) : l ∈ m2.links := by
  have h1 : l ∈ linksInto m l.toNode l.toSocket := mem_linksInto_self m l hl
  rw [← hrel.1 l.toNode l.toSocket ht] at h1
  exact mem_links_of_mem_linksInto m2 l.toNode l.toSocket l h1

theorem nodeMapRel_single {pN : String} {m m2 : Material} (nm : String)
    (hrel : NodeMapRel pN m m2)
    (hs : ∀ n, n ∈ m.nodes →
      (n.inputs.filter (fun i => matchesChannel nm i.name)).length ≤ 1) :
    ∀ n, n ∈ m2.nodes →
      (n.inputs.filter (fun i => matchesChannel nm i.name)).length ≤ 1 := by
  obtain ⟨_, _, F, hnodes, hF⟩ := hrel
  intro n2 h2
  rw [hnodes] at h2
  obtain ⟨n, hn, rfl⟩ := List.mem_map.mp h2
  have hlen : ((F n).inputs.filter (fun i => matchesChannel nm i.name)).length
      = (n.inputs.filter (fun i => matchesChannel nm i.name)).length := by
    rw [length_filter_name, length_filter_name, (hF n).2.2.2.1]
  rw [hlen]
  exact hs n hn

theorem linkChannelOk_congr {pN : String} {m m2 : Material} (nm : String) (l : Link)
    (hrel : StepRelW pN m m2) (hfrom : (l.fromNode == pN) = false) :
    linkChannelOk nm m2 l = linkChannelOk nm m l := by
  obtain ⟨hpres, hnodes, _⟩ := hrel
  have hfind2 : findNode m2 l.fromNode = findNode m l.fromNode :=
    nodeMapRel_find hnodes l.fromNode hfrom
  cases hfind : findNode m l.fromNode with
  | none => simp only [linkChannelOk, hfind2, hfind]
  | some src =>
    simp only [linkChannelOk, hfind2, hfind]
    have hfind1 : m.nodes.find? (fun x => x.name == l.fromNode) = some src := hfind
    have hsrc : src.name = l.fromNode :=
      eq_of_beq (find?_prop (fun x => x.name == l.fromNode) m.nodes src hfind1)
    have hy : (src.name == pN) = false := by
      rw [hsrc]
      exact hfrom
    split
    next hc => rfl
    next hc =>
      have hA : (src.inputs.filter (fun i => matchesChannel nm i.name)).any
            (fun i => !(linksInto m2 src.name i.name).isEmpty)
          = (src.inputs.filter (fun i => matchesChannel nm i.name)).any
            (fun i => !(linksInto m src.name i.name).isEmpty) := by
        apply any_congr_mem
        intro a _
        show (!(linksInto m2 src.name a.name).isEmpty)
          = (!(linksInto m src.name a.name).isEmpty)
        rw [hpres src.name a.name hy]
      rw [hA, hnodes.1]

theorem processLinkStep_flag (u : Bool) (name pN : String)
    (pIns : List String) (inpName : String) (l : Link) (m : Material)
    (ok : Bool) (m2 : Material)
    (hlmem : l ∈ m.links)
    (hfrom : (l.fromNode == pN) = false)
    (hsingle : ∀ n, n ∈ m.nodes →
      (n.inputs.filter (fun i => matchesChannel name i.name)).length ≤ 1)
    (h : processLinkStep u name pN pIns inpName l m = some (ok, m2)) :
    ok = linkChannelOk name m l ∧ StepRelW pN m m2 := by
  simp only [processLinkStep] at h
  split at h
  next => exact absurd h (by simp)
  next src hfind =>
    generalize hM : (if pIns.contains inpName && src.outputs.contains l.fromSocket
        then addLinkReplacing m
          { fromNode := l.fromNode, fromSocket := l.fromSocket,
            toNode := pN, toSocket := inpName }
        else m) = mat1 at h
    have hfind1 : m.nodes.find? (fun x => x.name == l.fromNode) = some src := hfind
    have hsrc : src.name = l.fromNode :=
      eq_of_beq (find?_prop (fun x => x.name == l.fromNode) m.nodes src hfind1)
    have hy : (src.name == pN) = false := by
      rw [hsrc]
      exact hfrom
    have hstep1 : StepRelW pN m mat1 := by
      rw [← hM]
      split
      · exact stepRelW_addLink pN m _ rfl ⟨l, hlmem, rfl, rfl⟩
      · exact stepRelW_refl pN m
    simp only [linkChannelOk, hfind]
    split at h
    next hcont =>
      have h2 := (Option.some.injEq _ _).mp h
      have hok : ok = true := (congrArg Prod.fst h2).symm
      have hm : m2 = mat1 := (congrArg Prod.snd h2).symm
      refine ⟨?_, by rw [hm]; exact hstep1⟩
      rw [hok, if_pos hcont]
    next hcont =>
      cases hb : bridgeChannels u name pN src.name src.inputs false mat1 with
      | none => simp [hb] at h
      | some p =>
        obtain ⟨found, mB⟩ := p
        simp only [hb] at h
        have h2 := (Option.some.injEq _ _).mp h
        have hok : ok = (found || name == Glob.NORMAL_NODE
            || mB.name == Glob.GD_MATERIAL_NAME) := (congrArg Prod.fst h2).symm
        have hm : m2 = mB := (congrArg Prod.snd h2).symm
        have hbridge : StepRel pN mat1 mB := bridge_step u name pN src.name
          src.inputs false found mat1 mB hb
        have hrelW : StepRelW pN m mB := stepRelW_trans hstep1 (stepRel_weaken hbridge)
        refine ⟨?_, by rw [hm]; exact hrelW⟩
        have hlen1 : (src.inputs.filter (fun i => matchesChannel name i.name)).length ≤ 1 :=
          hsingle src (List.mem_of_find?_eq_some hfind1)
        have hfound : found = (src.inputs.filter (fun i => matchesChannel name i.name)).any
            (fun i => !(linksInto mat1 src.name i.name).isEmpty) :=
          bridge_flag u name pN src.name src.inputs false found mat1 mB rfl hlen1 hb
        have hA : (src.inputs.filter (fun i => matchesChannel name i.name)).any
              (fun i => !(linksInto mat1 src.name i.name).isEmpty)
            = (src.inputs.filter (fun i => matchesChannel name i.name)).any
              (fun i => !(linksInto m src.name i.name).isEmpty) := by
          apply any_congr_mem
          intro a _
          show (!(linksInto mat1 src.name a.name).isEmpty)
            = (!(linksInto m src.name a.name).isEmpty)
          rw [hstep1.1 src.name a.name hy]
        have hname : mB.name = m.name := (hbridge.2.1.1).trans hstep1.2.1.1
        rw [hok, if_neg hcont, hfound, hA, hname]

theorem processInputLinks_flag (u : Bool) (name pN : String)
    (pIns : List String) (inpName : String) (links : List Link) (m : Material)
    (ok : Bool) (m2 : Material)
    (hmem : ∀ l, l ∈ links → l ∈ m.links)
    (hto : ∀ l, l ∈ links → (l.toNode == pN) = false)
    (hfrom : ∀ l, l ∈ m.links → (l.fromNode == pN) = false)
    (hsingle : ∀ n, n ∈ m.nodes →
      (n.inputs.filter (fun i => matchesChannel name i.name)).length ≤ 1)
    (h : processInputLinks u name pN pIns inpName links m = some (ok, m2)) :
    ok = links.all (fun l => linkChannelOk name m l) ∧ StepRelW pN m m2 := by
  induction links generalizing m ok m2 with
  | nil =>
    simp only [processInputLinks] at h
    have h2 := (Option.some.injEq _ _).mp h
    refine ⟨(congrArg Prod.fst h2).symm, ?_⟩
    have hm : m2 = m := (congrArg Prod.snd h2).symm
    rw [hm]
    exact stepRelW_refl pN m
  | cons l rest ih =>
    simp only [processInputLinks] at h
    cases hs : processLinkStep u name pN pIns inpName l m with
    | none => simp [hs] at h
    | some p =>
      obtain ⟨ok1, mB⟩ := p
      simp only [hs] at h
      cases hr : processInputLinks u name pN pIns inpName rest mB with
      | none => simp [hr] at h
      | some q =>
        obtain ⟨ok2, mC⟩ := q
        simp only [hr] at h
        have h2 := (Option.some.injEq _ _).mp h
        have hok : ok = (ok1 && ok2) := (congrArg Prod.fst h2).symm
        have hm : m2 = mC := (congrArg Prod.snd h2).symm
        have hstep := processLinkStep_flag u name pN pIns inpName l m ok1 mB
          (hmem l (List.mem_cons_self l rest))
          (hfrom l (hmem l (List.mem_cons_self l rest))) hsingle hs
        have hmem2 : ∀ l2, l2 ∈ rest → l2 ∈ mB.links := fun l2 hl2 =>
          stepRelW_mem_links hstep.2 l2 (hmem l2 (List.mem_cons_of_mem l hl2))
            (hto l2 (List.mem_cons_of_mem l hl2))
        have hto2 : ∀ l2, l2 ∈ rest → (l2.toNode == pN) = false := fun l2 hl2 =>
          hto l2 (List.mem_cons_of_mem l hl2)
        have hfrom2 : ∀ l2, l2 ∈ mB.links → (l2.fromNode == pN) = false :=
          stepRelW_fromNode hstep.2 hfrom
        have hsingle2 := nodeMapRel_single name hstep.2.2.1 hsingle
        have hih := ih mB ok2 mC hmem2 hto2 hfrom2 hsingle2 hr
        refine ⟨?_, by rw [hm]; exact stepRelW_trans hstep.2 hih.2⟩
        have hall : rest.all (fun x => linkChannelOk name mB x)
            = rest.all (fun x => linkChannelOk name m x) := by
          apply all_congr_mem
          intro a ha
          show linkChannelOk name mB a = linkChannelOk name m a
          exact linkChannelOk_congr name a hstep.2
            (hfrom a (hmem a (List.mem_cons_of_mem l ha)))
        rw [hok, List.all_cons, hstep.1, hih.1, hall]

theorem findNode_some_of_contains (m : Material) (x : String)
    (hc : (nodeNames m).contains x = true) : ∃ nd, findNode m x = some nd := by
  cases hf : m.nodes.find? (fun n => n.name == x) with
  | some nd => exact ⟨nd, hf⟩
  | none =>
    have hfalse := any_false_of_find?_none (fun n => n.name == x) m.nodes hf
    have hc2 : m.nodes.any (fun n => n.name == x) = true := by
      rw [contains_nodeNames] at hc
      exact hc
    rw [hfalse] at hc2
    exact absurd hc2 (by decide)

theorem find?_name_nodup (l : List Node) (nd : Node)
    (hnodup : (l.map (fun n => n.name)).Nodup) (hmem : nd ∈ l) :
    l.find? (fun x => x.name == nd.name) = some nd := by
  induction l with
  | nil => cases hmem
  | cons b bs ih =>
    rw [List.map_cons, List.nodup_cons] at hnodup
    rcases List.mem_cons.mp hmem with heq | hmem2
    · subst heq
      exact find?_cons_pos (fun x => x.name == nd.name) nd bs (by simp)
    · have hne : (b.name == nd.name) = false := by
        cases hbe : b.name == nd.name
        · rfl
        · exfalso
          apply hnodup.1
          rw [eq_of_beq hbe]
          exact List.mem_map_of_mem (fun n => n.name) hmem2
      rw [find?_cons_neg (fun x => x.name == nd.name) b bs hne]
      exact ih hnodup.2 hmem2

theorem linkChannelOk_append2 (nm : String) (mat : Material) (ns1 ns2 : List Node)
    (l : Link) (hc : (nodeNames mat).contains l.fromNode = true) :
    linkChannelOk nm { mat with nodes := (mat.nodes ++ ns1) ++ ns2 } l
      = linkChannelOk nm mat l := by
  obtain ⟨src, hsrc⟩ := findNode_some_of_contains mat l.fromNode hc
  have h1 : findNode { mat with nodes := (mat.nodes ++ ns1) ++ ns2 } l.fromNode
      = some src :=
    find?_append_some _ _ _ _ (find?_append_some _ _ _ _ hsrc)
  simp only [linkChannelOk, hsrc, h1]
  rfl

theorem processOutputInputs_flag (u : Bool) (name pN o : String)
    (pIns : List String) (inputs : List InputSocket) (m : Material)
    (ok : Bool) (m2 : Material)
    (ho : (o == pN) = false)
    (hfrom : ∀ l, l ∈ m.links → (l.fromNode == pN) = false)
    (hsingle : ∀ n, n ∈ m.nodes →
      (n.inputs.filter (fun i => matchesChannel name i.name)).length ≤ 1)
    (h : processOutputInputs u name pN o pIns inputs m = some (ok, m2)) :
    ok = inputs.all (fun inp =>
        (linksInto m o inp.name).all (fun l => linkChannelOk name m l))
      ∧ StepRelW pN m m2 := by
  induction inputs generalizing m ok m2 with
  | nil =>
    simp only [processOutputInputs] at h
    have h2 := (Option.some.injEq _ _).mp h
    refine ⟨(congrArg Prod.fst h2).symm, ?_⟩
    have hm : m2 = m := (congrArg Prod.snd h2).symm
    rw [hm]
    exact stepRelW_refl pN m
  | cons inp rest ih =>
    simp only [processOutputInputs] at h
    cases hs : processInputLinks u name pN pIns inp.name (linksInto m o inp.name) m with
    | none => simp [hs] at h
    | some p =>
      obtain ⟨ok1, mB⟩ := p
      simp only [hs] at h
      cases hr : processOutputInputs u name pN o pIns rest mB with
      | none => simp [hr] at h
      | some q =>
        obtain ⟨ok2, mC⟩ := q
        simp only [hr] at h
        have h2 := (Option.some.injEq _ _).mp h
        have hok : ok = (ok1 && ok2) := (congrArg Prod.fst h2).symm
        have hm : m2 = mC := (congrArg Prod.snd h2).symm
        have hmemL : ∀ l, l ∈ linksInto m o inp.name → l ∈ m.links :=
          fun l hl => mem_links_of_mem_linksInto m o inp.name l hl
        have htoL : ∀ l, l ∈ linksInto m o inp.name → (l.toNode == pN) = false := by
          intro l hl
          rw [(toNode_of_mem_linksInto m o inp.name l hl).1]
          exact ho
        have hstep := processInputLinks_flag u name pN pIns inp.name
          (linksInto m o inp.name) m ok1 mB hmemL htoL hfrom hsingle hs
        have hih := ih mB ok2 mC (stepRelW_fromNode hstep.2 hfrom)
          (nodeMapRel_single name hstep.2.2.1 hsingle) hr
        refine ⟨?_, by rw [hm]; exact stepRelW_trans hstep.2 hih.2⟩
        have hrest : rest.all (fun inp2 =>
              (linksInto mB o inp2.name).all (fun l => linkChannelOk name mB l))
            = rest.all (fun inp2 =>
              (linksInto m o inp2.name).all (fun l => linkChannelOk name m l)) := by
          apply all_congr_mem
          intro a _
          show (linksInto mB o a.name).all (fun l => linkChannelOk name mB l)
            = (linksInto m o a.name).all (fun l => linkChannelOk name m l)
          rw [hstep.2.1 o a.name ho]
          apply all_congr_mem
          intro b hb
          show linkChannelOk name mB b = linkChannelOk name m b
          exact linkChannelOk_congr name b hstep.2
            (hfrom b (mem_links_of_mem_linksInto m o a.name b hb))
        rw [hok, List.all_cons, hstep.1, hih.1, hrest]

theorem processOutput_flag (u : Bool) (name : String) (g : NodeGroup) (o : String)
    (mat : Material) (texts : List (String × String)) (ok : Bool) (m2 : Material)
    (t2 : List (String × String)) (out0 : Node)
    (hnn : hasNode mat name = false)
    (hfindo : findNode mat o = some out0)
    (hlinks : ∀ l, l ∈ mat.links → (nodeNames mat).contains l.fromNode = true)
    (hsgl : ∀ n, n ∈ mat.nodes →
      (n.inputs.filter (fun i => matchesChannel name i.name)).length ≤ 1)
    (hwfg : (g.ifaceInputs.filter (fun i => matchesChannel name i.name)).length ≤ 1)
    (h : processOutput u name g o mat texts = some (ok, m2, t2)) :
    ok = out0.inputs.all (fun inp =>
        (linksInto mat o inp.name).all (fun l => linkChannelOk name mat l)) := by
  have huniq : uniquify name (nodeNames mat) = name := by
    apply uniquify_of_not_contains
    rw [contains_nodeNames]
    exact hnn
  have hfindo1 : mat.nodes.find? (fun (x : Node) => x.name == o) = some out0 := hfindo
  have hho : hasNode mat o = true :=
    any_of_find?_some (fun (x : Node) => x.name == o) mat.nodes out0 hfindo1
  have ho' : (o == name) = false := by
    cases hoe : (o == name)
    · rfl
    · rw [← eq_of_beq hoe] at hnn
      rw [hho] at hnn
      exact absurd hnn (by decide)
  have hfromA : ∀ l, l ∈ mat.links →
      (l.fromNode == uniquify name (nodeNames mat)) = false := by
    intro l hl
    rw [huniq]
    cases hfe : l.fromNode == name
    · rfl
    · have hcf := hlinks l hl
      rw [eq_of_beq hfe, contains_nodeNames, hnn] at hcf
      exact absurd hcf (by decide)
  have hsingleA : ∀ (nd1 nd2 : Node), nd1.inputs = g.ifaceInputs →
      nd2.inputs = ([] : List InputSocket) →
      ∀ n, n ∈ ((mat.nodes ++ [nd1]) ++ [nd2] : List Node) →
        (n.inputs.filter (fun i => matchesChannel name i.name)).length ≤ 1 := by
    intro nd1 nd2 h1 hf2 n hn
    rcases List.mem_append.mp hn with hn1 | hn2
    · rcases List.mem_append.mp hn1 with hno | hnp
      · exact hsgl n hno
      · rw [List.mem_singleton.mp hnp, h1]
        exact hwfg
    · rw [List.mem_singleton.mp hn2, hf2]
      simp
  have e1 : ∀ (nd1 : Node),
      (mat.nodes ++ [nd1]).find? (fun (x : Node) => x.name == o) = some out0 :=
    fun nd1 => find?_append_some (fun (x : Node) => x.name == o) mat.nodes [nd1] out0 hfindo1
  have e2 : ∀ (nd1 nd2 : Node),
      findNode { mat with nodes := (mat.nodes ++ [nd1]) ++ [nd2] } o = some out0 :=
    fun nd1 nd2 =>
      find?_append_some (fun (x : Node) => x.name == o) (mat.nodes ++ [nd1]) [nd2] out0 (e1 nd1)
  simp only [processOutput] at h
  split at h
  next hout => exact absurd h (by simp)
  next out hout =>
    split at h
    next => exact absurd h (by simp)
    next ok1 m3 hpoi =>
      split at h
      next => exact absurd h (by simp)
      next hvol =>
        split at h
        next => exact absurd h (by simp)
        next hdisp =>
          split at h
          next => exact absurd h (by simp)
          next hsurf =>
            split at h
            next => exact absurd h (by simp)
            next hshader =>
              have h2 := (Option.some.injEq _ _).mp h
              have hok : ok = ok1 := (congrArg (fun x => x.1) h2).symm
              have hoo : out = out0 :=
                (Option.some.injEq _ _).mp (hout.symm.trans (e2 _ _))
              have happ := fun hoX hfromX hsingleX => processOutputInputs_flag u name
                (uniquify name (nodeNames mat)) o _ out.inputs _ ok1 m3
                hoX hfromX hsingleX hpoi
              have hoA : (o == uniquify name (nodeNames mat)) = false := by
                rw [huniq]
                exact ho'
              obtain ⟨hfok, hrel⟩ := happ hoA hfromA (hsingleA _ _ rfl rfl)
              rw [hok, hfok, hoo]
              refine all_congr_mem _ _ _ (fun inp _ => ?_)
              refine all_congr_mem _ _ _ (fun a ha => ?_)
              exact linkChannelOk_append2 name mat _ _ a
                (hlinks a (mem_links_of_mem_linksInto mat o inp.name a ha))

theorem spliceCore_flag (u : Bool) (name : String) (g : NodeGroup) (mat : Material)
    (texts : List (String × String)) (ok : Bool) (mS : Material)
    (tS : List (String × String))
    (hnn : hasNode mat name = false)
    (hwf : wfChannels name mat = true)
    (hwfg : (g.ifaceInputs.filter (fun i => matchesChannel name i.name)).length ≤ 1)
    (h : spliceCore u name g mat texts = some (ok, mS, tS)) :
    ok = channelsOk name mat := by
  simp only [wfChannels, Bool.and_eq_true, decide_eq_true_eq, List.all_eq_true] at hwf
  obtain ⟨⟨⟨hnodup, hlinks⟩, hsgl⟩, hone⟩ := hwf
  obtain ⟨out0, hout0⟩ := List.length_eq_one.mp hone
  have hmem0 : out0 ∈ mat.nodes := by
    have hx : out0 ∈ mat.nodes.filter (fun n => n.type == "OUTPUT_MATERIAL") := by
      rw [hout0]
      exact List.mem_singleton_self out0
    exact List.mem_of_mem_filter hx
  have hfind0 : findNode mat out0.name = some out0 :=
    find?_name_nodup mat.nodes out0 hnodup hmem0
  have hchan : channelsOk name mat
      = out0.inputs.all (fun inp =>
          (linksInto mat out0.name inp.name).all (fun l => linkChannelOk name mat l)) := by
    simp only [channelsOk, hout0, List.map_cons, List.map_nil, List.all_cons,
      List.all_nil, Bool.and_true, hfind0]
  simp only [spliceCore] at h
  rw [hout0] at h
  simp only [List.map_cons, List.map_nil] at h
  rw [if_neg (by simp)] at h
  simp only [processOutputsList] at h
  cases hpo : processOutput u name g out0.name mat texts with
  | none => simp [hpo] at h
  | some p =>
    obtain ⟨ok1, mB, tB⟩ := p
    simp only [hpo] at h
    have h2 := (Option.some.injEq _ _).mp h
    have hok : ok = (ok1 && true) := (congrArg (fun x => x.1) h2).symm
    have hfok := processOutput_flag u name g out0.name mat texts ok1 mB tB out0
      hnn hfind0 (fun l hl => hlinks l hl) (fun n hn => hsgl n hn) hwfg hpo
    rw [hok, Bool.and_true, hfok, hchan]

theorem spliceMaterial_state (u : Bool) (name : String) (st : BState)
    (s : Option String) (ok : Bool) (st2 : BState)
    (h : spliceMaterial u name st s = some (ok, st2)) :
    st2.node_groups = st.node_groups
    ∧ ∃ mw, st2.materials = replaceFirst st.materials mw ∧ mw.name = slotMatName s := by
  simp only [spliceMaterial] at h
  split at h
  next => exact absurd h (by simp)
  next m0 hm0 =>
    have hname0 : m0.name = slotMatName s :=
      eq_of_beq (find?_prop (fun m => m.name == slotMatName s) st.materials m0 hm0)
    split at h
    next hskip =>
      have h2 := (Option.some.injEq _ _).mp h
      have hst : st2 = writeMaterial st { m0 with use_nodes := true } :=
        (congrArg Prod.snd h2).symm
      rw [hst]
      exact ⟨rfl, ⟨{ m0 with use_nodes := true }, rfl, hname0⟩⟩
    next hskip =>
      split at h
      next => exact absurd h (by simp)
      next g0 hg0 =>
        cases hsc : spliceCore u name g0 { m0 with use_nodes := true } st.texts with
        | none => simp [hsc] at h
        | some p =>
          obtain ⟨ok1, m2, t2⟩ := p
          simp only [hsc] at h
          have h2 := (Option.some.injEq _ _).mp h
          have hst : st2 = { writeMaterial st m2 with texts := t2 } :=
            (congrArg Prod.snd h2).symm
          rw [hst]
          refine ⟨rfl, ⟨m2, rfl, ?_⟩⟩
          have hnn1 : hasNode { m0 with use_nodes := true } name = false :=
            bool_not_true hskip
          have hpost := spliceCore_post u name g0 { m0 with use_nodes := true }
            st.texts ok1 m2 t2 hnn1 hsc
          exact hpost.1.trans hname0

theorem spliceMaterial_flag (u : Bool) (name : String) (st : BState)
    (s : Option String) (ok : Bool) (st2 : BState)
    (hwfm : ∀ m0, st.materials.find? (fun m => m.name == slotMatName s) = some m0 →
      wfChannels name m0 = true)
    (hg : ∀ g0, st.node_groups.find? (fun x => x.name == name) = some g0 →
      (g0.ifaceInputs.filter (fun i => matchesChannel name i.name)).length ≤ 1)
    (h : spliceMaterial u name st s = some (ok, st2)) :
    ok = slotFlag name st s := by
  simp only [spliceMaterial] at h
  split at h
  next => exact absurd h (by simp)
  next m0 hm0 =>
    simp only [slotFlag, hm0]
    split at h
    next hskip =>
      have h2 := (Option.some.injEq _ _).mp h
      have hok : ok = true := (congrArg Prod.fst h2).symm
      rw [hok, if_pos (show hasNode m0 name = true from hskip)]
    next hskip =>
      split at h
      next => exact absurd h (by simp)
      next g0 hg0 =>
        cases hsc : spliceCore u name g0 { m0 with use_nodes := true } st.texts with
        | none => simp [hsc] at h
        | some p =>
          obtain ⟨ok1, m2, t2⟩ := p
          simp only [hsc] at h
          have h2 := (Option.some.injEq _ _).mp h
          have hok : ok = ok1 := (congrArg Prod.fst h2).symm
          have hnn1 : hasNode { m0 with use_nodes := true } name = false :=
            bool_not_true hskip
          have hflag := spliceCore_flag u name g0 { m0 with use_nodes := true }
            st.texts ok1 m2 t2 hnn1 (hwfm m0 hm0) (hg g0 hg0) hsc
          rw [hok, hflag, if_neg (show ¬(hasNode m0 name = true) from hskip)]
          rfl

theorem slotFlag_congr (name : String) (stB st : BState) (s : Option String)
    (hfe : stB.materials.find? (fun m => m.name == slotMatName s)
      = st.materials.find? (fun m => m.name == slotMatName s)) :
    slotFlag name stB s = slotFlag name st s := by
  simp only [slotFlag, hfe]

theorem applySlots_find_other (u : Bool) (name : String) (st : BState)
    (slots : List (Option String)) (ok : Bool) (st2 : BState) (sn : String)
    (hnot : ∀ s, s ∈ slots → (sn == slotMatName s) = false)
    (h : applySlots u name st slots = some (ok, st2)) :
    st2.materials.find? (fun m => m.name == sn)
      = st.materials.find? (fun m => m.name == sn)
    ∧ st2.node_groups = st.node_groups := by
  induction slots generalizing st ok st2 with
  | nil =>
    simp only [applySlots] at h
    have h2 := (Option.some.injEq _ _).mp h
    have hst : st2 = st := (congrArg Prod.snd h2).symm
    rw [hst]
    exact ⟨rfl, rfl⟩
  | cons s rest ih =>
    simp only [applySlots] at h
    cases hsm : spliceMaterial u name st s with
    | none => simp [hsm] at h
    | some p =>
      obtain ⟨ok1, stB⟩ := p
      simp only [hsm] at h
      cases hr : applySlots u name stB rest with
      | none => simp [hr] at h
      | some q =>
        obtain ⟨ok2, stC⟩ := q
        simp only [hr] at h
        have h2 := (Option.some.injEq _ _).mp h
        have hst : st2 = stC := (congrArg Prod.snd h2).symm
        obtain ⟨hng1, mw, hmat1, hmw⟩ := spliceMaterial_state u name st s ok1 stB hsm
        have hB : stB.materials.find? (fun m => m.name == sn)
            = st.materials.find? (fun m => m.name == sn) := by
          rw [hmat1]
          apply find?_replaceFirst_other
          rw [hmw, Bool.beq_comm]
          exact hnot s (List.mem_cons_self s rest)
        have hih := ih stB ok2 stC
          (fun s2 hs2 => hnot s2 (List.mem_cons_of_mem s hs2)) hr
        rw [hst]
        exact ⟨hih.1.trans hB, hih.2.trans hng1⟩

theorem applySlots_flag (u : Bool) (name : String) (st : BState)
    (slots : List (Option String)) (ok : Bool) (st2 : BState)
    (hnd : (slots.map slotMatName).Nodup)
    (hwfm : ∀ s, s ∈ slots → ∀ m0,
      st.materials.find? (fun m => m.name == slotMatName s) = some m0 →
      wfChannels name m0 = true)
    (hg : ∀ g0, st.node_groups.find? (fun x => x.name == name) = some g0 →
      (g0.ifaceInputs.filter (fun i => matchesChannel name i.name)).length ≤ 1)
    (h : applySlots u name st slots = some (ok, st2)) :
    ok = slots.all (fun s => slotFlag name st s) := by
  induction slots generalizing st ok st2 with
  | nil =>
    simp only [applySlots] at h
    have h2 := (Option.some.injEq _ _).mp h
    exact (congrArg Prod.fst h2).symm
  | cons s rest ih =>
    rw [List.map_cons, List.nodup_cons] at hnd
    simp only [applySlots] at h
    cases hsm : spliceMaterial u name st s with
    | none => simp [hsm] at h
    | some p =>
      obtain ⟨ok1, stB⟩ := p
      simp only [hsm] at h
      cases hr : applySlots u name stB rest with
      | none => simp [hr] at h
      | some q =>
        obtain ⟨ok2, stC⟩ := q
        simp only [hr] at h
        have h2 := (Option.some.injEq _ _).mp h
        have hok : ok = (ok1 && ok2) := (congrArg Prod.fst h2).symm
        have hflag1 : ok1 = slotFlag name st s :=
          spliceMaterial_flag u name st s ok1 stB
            (hwfm s (List.mem_cons_self s rest)) hg hsm
        obtain ⟨hng1, mw, hmat1, hmw⟩ := spliceMaterial_state u name st s ok1 stB hsm
        have hfe : ∀ s2, s2 ∈ rest →
            stB.materials.find? (fun m => m.name == slotMatName s2)
              = st.materials.find? (fun m => m.name == slotMatName s2) := by
          intro s2 hs2
          rw [hmat1]
          apply find?_replaceFirst_other
          rw [hmw]
          cases hbe : slotMatName s == slotMatName s2
          · rfl
          · exfalso
            apply hnd.1
            rw [eq_of_beq hbe]
            exact List.mem_map_of_mem slotMatName hs2
        have hwfm2 : ∀ s2, s2 ∈ rest → ∀ m0,
            stB.materials.find? (fun m => m.name == slotMatName s2) = some m0 →
            wfChannels name m0 = true := by
          intro s2 hs2 m0 hm0
          rw [hfe s2 hs2] at hm0
          exact hwfm s2 (List.mem_cons_of_mem s hs2) m0 hm0
        have hg2 : ∀ g0, stB.node_groups.find? (fun x => x.name == name) = some g0 →
            (g0.ifaceInputs.filter (fun i => matchesChannel name i.name)).length ≤ 1 := by
          intro g0 hg0
          rw [hng1] at hg0
          exact hg g0 hg0
        have hih := ih stB ok2 stC hnd.2 hwfm2 hg2 hr
        have hrest : rest.all (fun s2 => slotFlag name stB s2)
            = rest.all (fun s2 => slotFlag name st s2) := by
          apply all_congr_mem
          intro s2 hs2
          show slotFlag name stB s2 = slotFlag name st s2
          exact slotFlag_congr name stB st s2 (hfe s2 hs2)
        rw [hok, List.all_cons, hflag1, hih, hrest]

theorem applySlots_ng (u : Bool) (name : String) (st : BState)
    (slots : List (Option String)) (ok : Bool) (st2 : BState)
    (h : applySlots u name st slots = some (ok, st2)) :
    st2.node_groups = st.node_groups := by
  induction slots generalizing st ok st2 with
  | nil =>
    simp only [applySlots] at h
    have h2 := (Option.some.injEq _ _).mp h
    have hst : st2 = st := (congrArg Prod.snd h2).symm
    rw [hst]
  | cons s rest ih =>
    simp only [applySlots] at h
    cases hsm : spliceMaterial u name st s with
    | none => simp [hsm] at h
    | some p =>
      obtain ⟨ok1, stB⟩ := p
      simp only [hsm] at h
      cases hr : applySlots u name stB rest with
      | none => simp [hr] at h
      | some q =>
        obtain ⟨ok2, stC⟩ := q
        simp only [hr] at h
        have h2 := (Option.some.injEq _ _).mp h
        have hst : st2 = stC := (congrArg Prod.snd h2).symm
        rw [hst]
        exact (ih stB ok2 stC hr).trans (spliceMaterial_state u name st s ok1 stB hsm).1

theorem applyObject_flag (u : Bool) (name : String) (st : BState) (ob : Obj)
    (ok : Bool) (ob2 : Obj) (st2 : BState)
    (hp1 : ob.material_slots.isEmpty = false)
    (hp2 : ob.material_slots.any (fun s => s.isNone) = false)
    (hnd : (ob.material_slots.map slotMatName).Nodup)
    (hwfm : ∀ s, s ∈ ob.material_slots → ∀ m0,
      st.materials.find? (fun m => m.name == slotMatName s) = some m0 →
      wfChannels name m0 = true)
    (hg : ∀ g0, st.node_groups.find? (fun x => x.name == name) = some g0 →
      (g0.ifaceInputs.filter (fun i => matchesChannel name i.name)).length ≤ 1)
    (h : applyObject u name st ob = some (ok, ob2, st2)) :
    ok = ob.material_slots.all (fun s => slotFlag name st s) := by
  simp only [applyObject, prepareObject_id st ob hp1 hp2] at h
  split at h
  next => exact absurd h (by simp)
  next ok1 st3 happ =>
    have h2 := (Option.some.injEq _ _).mp h
    have hok : ok = ok1 := (congrArg (fun x => x.1) h2).symm
    rw [hok]
    exact applySlots_flag u name st ob.material_slots ok1 st3 hnd hwfm hg happ

theorem applyObject_find_other (u : Bool) (name : String) (st : BState) (ob : Obj)
    (ok : Bool) (ob2 : Obj) (st2 : BState) (sn : String)
    (hp1 : ob.material_slots.isEmpty = false)
    (hp2 : ob.material_slots.any (fun s => s.isNone) = false)
    (hnot : ∀ s, s ∈ ob.material_slots → (sn == slotMatName s) = false)
    (h : applyObject u name st ob = some (ok, ob2, st2)) :
    st2.materials.find? (fun m => m.name == sn)
      = st.materials.find? (fun m => m.name == sn)
    ∧ st2.node_groups = st.node_groups := by
  simp only [applyObject, prepareObject_id st ob hp1 hp2] at h
  split at h
  next => exact absurd h (by simp)
  next ok1 st3 happ =>
    have h2 := (Option.some.injEq _ _).mp h
    have hst : st2 = st3 := (congrArg (fun x => x.2.2) h2).symm
    rw [hst]
    exact applySlots_find_other u name st ob.material_slots ok1 st3 sn hnot happ

theorem apply_node_flag (u : Bool) (name : String) (objs : List Obj) (st : BState)
    (ok : Bool) (obs2 : List Obj) (st2 : BState)
    (hprep : ∀ ob, ob ∈ objs → ob.material_slots.isEmpty = false
      ∧ ob.material_slots.any (fun s => s.isNone) = false)
    (hnd : ((objs.flatMap (fun ob => ob.material_slots)).map slotMatName).Nodup)
    (hwfm : ∀ s, s ∈ objs.flatMap (fun ob => ob.material_slots) → ∀ m0,
      st.materials.find? (fun m => m.name == slotMatName s) = some m0 →
      wfChannels name m0 = true)
    (hg : ∀ g0, st.node_groups.find? (fun x => x.name == name) = some g0 →
      (g0.ifaceInputs.filter (fun i => matchesChannel name i.name)).length ≤ 1)
    (h : apply_node_to_objects u name objs st = some (ok, obs2, st2)) :
    ok = objs.all (fun ob =>
      ob.material_slots.all (fun s => slotFlag name st s)) := by
  induction objs generalizing st ok obs2 st2 with
  | nil =>
    simp only [apply_node_to_objects] at h
    have h2 := (Option.some.injEq _ _).mp h
    exact (congrArg (fun x => x.1) h2).symm
  | cons ob rest ih =>
    simp only [List.flatMap_cons, List.map_append, List.nodup_append] at hnd
    obtain ⟨hndA, hndB, hdisj⟩ := hnd
    simp only [apply_node_to_objects] at h
    cases hao : applyObject u name st ob with
    | none => simp [hao] at h
    | some p =>
      obtain ⟨ok1, obB, stB⟩ := p
      simp only [hao] at h
      cases hr : apply_node_to_objects u name rest stB with
      | none => simp [hr] at h
      | some q =>
        obtain ⟨ok2, obsC, stC⟩ := q
        simp only [hr] at h
        have h2 := (Option.some.injEq _ _).mp h
        have hok : ok = (ok1 && ok2) := (congrArg (fun x => x.1) h2).symm
        have hpob := hprep ob (List.mem_cons_self ob rest)
        have hwfmA : ∀ s, s ∈ ob.material_slots → ∀ m0,
            st.materials.find? (fun m => m.name == slotMatName s) = some m0 →
            wfChannels name m0 = true :=
          fun s hs m0 hm0 =>
            hwfm s (List.mem_append.mpr (Or.inl hs)) m0 hm0
        have hflag1 : ok1 = ob.material_slots.all (fun s => slotFlag name st s) :=
          applyObject_flag u name st ob ok1 obB stB hpob.1 hpob.2 hndA hwfmA hg hao
        have hne : ∀ s2, s2 ∈ rest.flatMap (fun o2 => o2.material_slots) →
            ∀ s, s ∈ ob.material_slots →
            (slotMatName s2 == slotMatName s) = false := by
          intro s2 hs2 s hs
          cases hbe : slotMatName s2 == slotMatName s
          · rfl
          · exfalso
            have hmA : slotMatName s2 ∈ ob.material_slots.map slotMatName := by
              rw [eq_of_beq hbe]
              exact List.mem_map_of_mem slotMatName hs
            have hmB : slotMatName s2
                ∈ (rest.flatMap (fun o2 => o2.material_slots)).map slotMatName :=
              List.mem_map_of_mem slotMatName hs2
            exact hdisj hmA hmB
        have hfe : ∀ s2, s2 ∈ rest.flatMap (fun o2 => o2.material_slots) →
            stB.materials.find? (fun m => m.name == slotMatName s2)
              = st.materials.find? (fun m => m.name == slotMatName s2) :=
          fun s2 hs2 =>
            (applyObject_find_other u name st ob ok1 obB stB (slotMatName s2)
              hpob.1 hpob.2 (hne s2 hs2) hao).1
        have hng : stB.node_groups = st.node_groups := by
          simp only [applyObject, prepareObject_id st ob hpob.1 hpob.2] at hao
          split at hao
          next => exact absurd hao (by simp)
          next ok1x st3x happ =>
            have h2x := (Option.some.injEq _ _).mp hao
            have hstx : stB = st3x := (congrArg (fun x => x.2.2) h2x).symm
            rw [hstx]
            exact applySlots_ng u name st ob.material_slots ok1x st3x happ
        have hwfm2 : ∀ s2, s2 ∈ rest.flatMap (fun o2 => o2.material_slots) → ∀ m0,
            stB.materials.find? (fun m => m.name == slotMatName s2) = some m0 →
            wfChannels name m0 = true := by
          intro s2 hs2 m0 hm0
          rw [hfe s2 hs2] at hm0
          exact hwfm s2 (List.mem_append.mpr (Or.inr hs2)) m0 hm0
        have hg2 : ∀ g0, stB.node_groups.find? (fun x => x.name == name) = some g0 →
            (g0.ifaceInputs.filter (fun i => matchesChannel name i.name)).length ≤ 1 := by
          intro g0 hg0
          rw [hng] at hg0
          exact hg g0 hg0
        have hih := ih stB ok2 obsC stC
          (fun o2 ho2 => hprep o2 (List.mem_cons_of_mem ob ho2)) hndB hwfm2 hg2 hr
        have hrest : rest.all (fun o2 =>
              o2.material_slots.all (fun s => slotFlag name stB s))
            = rest.all (fun o2 =>
              o2.material_slots.all (fun s => slotFlag name st s)) := by
          apply all_congr_mem
          intro o2 ho2
          show o2.material_slots.all (fun s => slotFlag name stB s)
            = o2.material_slots.all (fun s => slotFlag name st s)
          apply all_congr_mem
          intro s3 hs3
          show slotFlag name stB s3 = slotFlag name st s3
          exact slotFlag_congr name stB st s3
            (hfe s3 (List.mem_flatMap.mpr ⟨o2, ho2, hs3⟩))
        rw [hok, List.all_cons, hflag1, hih, hrest]

theorem channelsOk_gd (name : String) (mat : Material)
    (hgd : (mat.name == Glob.GD_MATERIAL_NAME) = true) :
    channelsOk name mat = true := by
  simp only [channelsOk]
  apply all_true_of_mem
  intro o _
  cases hf : findNode mat o with
  | none => simp only [hf]
  | some out =>
    simp only [hf]
    apply all_true_of_mem
    intro inp _
    apply all_true_of_mem
    intro l _
    simp only [linkChannelOk]
    cases hfn : findNode mat l.fromNode with
    | none => simp only [hfn]
    | some src =>
      simp only [hfn]
      split
      · rfl
      · rw [hgd]
        simp

theorem processLinkStep_normal (u : Bool) (pN : String)
    (pIns : List String) (inpName : String) (l : Link) (m : Material)
    (ok : Bool) (m2 : Material)
    (h : processLinkStep u Glob.NORMAL_NODE pN pIns inpName l m = some (ok, m2)) :
    ok = true := by
  simp only [processLinkStep] at h
  split at h
  next => exact absurd h (by simp)
  next src hfind =>
    split at h
    next hcont =>
      have h2 := (Option.some.injEq _ _).mp h
      exact (congrArg Prod.fst h2).symm
    next hcont =>
      split at h
      next => exact absurd h (by simp)
      next found mB hbr =>
        have h2 := (Option.some.injEq _ _).mp h
        have hok : ok = (found || Glob.NORMAL_NODE == Glob.NORMAL_NODE
            || mB.name == Glob.GD_MATERIAL_NAME) := (congrArg Prod.fst h2).symm
        rw [hok]
        simp

theorem processInputLinks_normal (u : Bool) (pN : String)
    (pIns : List String) (inpName : String) (links : List Link) (m : Material)
    (ok : Bool) (m2 : Material)
    (h : processInputLinks u Glob.NORMAL_NODE pN pIns inpName links m
      = some (ok, m2)) :
    ok = true := by
  induction links generalizing m ok m2 with
  | nil =>
    simp only [processInputLinks] at h
    have h2 := (Option.some.injEq _ _).mp h
    exact (congrArg Prod.fst h2).symm
  | cons l rest ih =>
    simp only [processInputLinks] at h
    split at h
    next => exact absurd h (by simp)
    next ok1 mB hs =>
      split at h
      next => exact absurd h (by simp)
      next ok2 mC hr =>
        have h2 := (Option.some.injEq _ _).mp h
        have hok : ok = (ok1 && ok2) := (congrArg Prod.fst h2).symm
        rw [hok, processLinkStep_normal u pN pIns inpName l m ok1 mB hs,
          ih mB ok2 mC hr]
        rfl

theorem processOutputInputs_normal (u : Bool) (pN outName : String)
    (pIns : List String) (inputs : List InputSocket) (m : Material)
    (ok : Bool) (m2 : Material)
    (h : processOutputInputs u Glob.NORMAL_NODE pN outName pIns inputs m
      = some (ok, m2)) :
    ok = true := by
  induction inputs generalizing m ok m2 with
  | nil =>
    simp only [processOutputInputs] at h
    have h2 := (Option.some.injEq _ _).mp h
    exact (congrArg Prod.fst h2).symm
  | cons inp rest ih =>
    simp only [processOutputInputs] at h
    split at h
    next => exact absurd h (by simp)
    next ok1 mB hs =>
      split at h
      next => exact absurd h (by simp)
      next ok2 mC hr =>
        have h2 := (Option.some.injEq _ _).mp h
        have hok : ok = (ok1 && ok2) := (congrArg Prod.fst h2).symm
        rw [hok, processInputLinks_normal u pN pIns inp.name _ m ok1 mB hs,
          ih mB ok2 mC hr]
        rfl

theorem processOutput_normal (u : Bool) (g : NodeGroup) (o : String)
    (mat : Material) (texts : List (String × String)) (ok : Bool) (m2 : Material)
    (t2 : List (String × String))
    (h : processOutput u Glob.NORMAL_NODE g o mat texts = some (ok, m2, t2)) :
    ok = true := by
  simp only [processOutput] at h
  split at h
  next => exact absurd h (by simp)
  next out hout =>
    split at h
    next => exact absurd h (by simp)
    next ok1 m3 hpoi =>
      split at h
      next => exact absurd h (by simp)
      next hvol =>
        split at h
        next => exact absurd h (by simp)
        next hdisp =>
          split at h
          next => exact absurd h (by simp)
          next hsurf =>
            split at h
            next => exact absurd h (by simp)
            next hshader =>
              have h2 := (Option.some.injEq _ _).mp h
              have hok : ok = ok1 := (congrArg (fun x => x.1) h2).symm
              rw [hok]
              exact processOutputInputs_normal u _ o _ out.inputs _ ok1 m3 hpoi

theorem processOutputsList_normal (u : Bool) (g : NodeGroup)
    (outs : List String) (mat : Material) (texts : List (String × String))
    (ok : Bool) (m2 : Material) (t2 : List (String × String))
    (h : processOutputsList u Glob.NORMAL_NODE g outs mat texts = some (ok, m2, t2)) :
    ok = true := by
  induction outs generalizing mat texts ok m2 t2 with
  | nil =>
    simp only [processOutputsList] at h
    have h2 := (Option.some.injEq _ _).mp h
    exact (congrArg (fun x => x.1) h2).symm
  | cons o rest ih =>
    simp only [processOutputsList] at h
    split at h
    next => exact absurd h (by simp)
    next ok1 mB tB hpo =>
      split at h
      next => exact absurd h (by simp)
      next ok2 mC tC hrest =>
        have h2 := (Option.some.injEq _ _).mp h
        have hok : ok = (ok1 && ok2) := (congrArg (fun x => x.1) h2).symm
        rw [hok, processOutput_normal u g o mat texts ok1 mB tB hpo,
          ih mB tB ok2 mC tC hrest]
        rfl

theorem spliceCore_normal (u : Bool) (g : NodeGroup) (mat : Material)
    (texts : List (String × String)) (ok : Bool) (m2 : Material)
    (t2 : List (String × String))
    (h : spliceCore u Glob.NORMAL_NODE g mat texts = some (ok, m2, t2)) :
    ok = true := by
  simp only [spliceCore] at h
  split at h
  next => exact absurd h (by simp)
  next houts =>
    exact processOutputsList_normal u g _ mat texts ok m2 t2 h

theorem spliceMaterial_normal (u : Bool) (st : BState) (s : Option String)
    (ok : Bool) (st2 : BState)
    (h : spliceMaterial u Glob.NORMAL_NODE st s = some (ok, st2)) :
    ok = true := by
  simp only [spliceMaterial] at h
  split at h
  next => exact absurd h (by simp)
  next m0 hm0 =>
    split at h
    next hskip =>
      have h2 := (Option.some.injEq _ _).mp h
      exact (congrArg Prod.fst h2).symm
    next hskip =>
      split at h
      next => exact absurd h (by simp)
      next g0 hg0 =>
        split at h
        next => exact absurd h (by simp)
        next ok1 m2 t2 hsc =>
          have h2 := (Option.some.injEq _ _).mp h
          have hok : ok = ok1 := (congrArg Prod.fst h2).symm
          rw [hok]
          exact spliceCore_normal u g0 _ st.texts ok1 m2 t2 hsc

theorem applySlots_normal (u : Bool) (st : BState)
    (slots : List (Option String)) (ok : Bool) (st2 : BState)
    (h : applySlots u Glob.NORMAL_NODE st slots = some (ok, st2)) :
    ok = true := by
  induction slots generalizing st ok st2 with
  | nil =>
    simp only [applySlots] at h
    have h2 := (Option.some.injEq _ _).mp h
    exact (congrArg Prod.fst h2).symm
  | cons s rest ih =>
    simp only [applySlots] at h
    split at h
    next => exact absurd h (by simp)
    next ok1 stB hsm =>
      split at h
      next => exact absurd h (by simp)
      next ok2 stC hr =>
        have h2 := (Option.some.injEq _ _).mp h
        have hok : ok = (ok1 && ok2) := (congrArg Prod.fst h2).symm
        rw [hok, spliceMaterial_normal u st s ok1 stB hsm, ih stB ok2 stC hr]
        rfl

theorem applyObject_normal (u : Bool) (st : BState) (ob : Obj)
    (ok : Bool) (ob2 : Obj) (st2 : BState)
    (h : applyObject u Glob.NORMAL_NODE st ob = some (ok, ob2, st2)) :
    ok = true := by
  simp only [applyObject] at h
  split at h
  next => exact absurd h (by simp)
  next ok1 st3 happ =>
    have h2 := (Option.some.injEq _ _).mp h
    have hok : ok = ok1 := (congrArg (fun x => x.1) h2).symm
    rw [hok]
    exact applySlots_normal u _ _ ok1 st3 happ

theorem apply_node_normal (u : Bool) (objs : List Obj) (st : BState)
    (ok : Bool) (obs2 : List Obj) (st2 : BState)
    (h : apply_node_to_objects u Glob.NORMAL_NODE objs st = some (ok, obs2, st2)) :
    ok = true := by
  induction objs generalizing st ok obs2 st2 with
  | nil =>
    simp only [apply_node_to_objects] at h
    have h2 := (Option.some.injEq _ _).mp h
    exact (congrArg (fun x => x.1) h2).symm
  | cons ob rest ih =>
    simp only [apply_node_to_objects] at h
    split at h
    next => exact absurd h (by simp)
    next ok1 obB stB hao =>
      split at h
      next => exact absurd h (by simp)
      next ok2 obsC stC hr =>
        have h2 := (Option.some.injEq _ _).mp h
        have hok : ok = (ok1 && ok2) := (congrArg (fun x => x.1) h2).symm
        rw [hok, applyObject_normal u st ob ok1 obB stB hao,
          ih stB ok2 obsC stC hr]
        rfl

/-- Claim C5 (amended): `apply_node_to_objects` returns a boolean rather
than raising on a channel-bridging mismatch.  For the Normal recipe the
flag is always `True`.  The add-on's default material passes the channel
check unconditionally.  For every recipe, every object list and every
document satisfying what Blender guarantees (no empty slots, distinct
slot material names, and for each touched material distinct node names,
links leaving existing nodes, at most one expected channel socket per
node and a single material-output node; the recipe group offers at most
one expected channel socket), the flag equals the conjunction over every
touched material of its channel check: `False` exactly when some
expected channel socket of a BSDF feeding the material output carries no
incoming link — a present-but-unlinked socket also flips it. -/
theorem apply_success_iff_channel_link :
    (∀ (u : Bool) (objs : List Obj) (st : BState) (ok : Bool)
        (obs2 : List Obj) (st2 : BState),
      apply_node_to_objects u Glob.NORMAL_NODE objs st = some (ok, obs2, st2) →
      ok = true)
    ∧ (∀ (name : String) (mat : Material),
        (mat.name == Glob.GD_MATERIAL_NAME) = true → channelsOk name mat = true)
    ∧ (∀ (u : Bool) (name : String) (objs : List Obj) (st : BState) (ok : Bool)
        (obs2 : List Obj) (st2 : BState),
      (∀ ob, ob ∈ objs → ob.material_slots.isEmpty = false
        ∧ ob.material_slots.any (fun s => s.isNone) = false) →
      ((objs.flatMap (fun ob => ob.material_slots)).map slotMatName).Nodup →
      (∀ s m0, s ∈ objs.flatMap (fun ob => ob.material_slots) →
        st.materials.find? (fun m => m.name == slotMatName s) = some m0 →
        wfChannels name m0 = true) →
      (∀ g0, st.node_groups.find? (fun x => x.name == name) = some g0 →
        (g0.ifaceInputs.filter (fun i => matchesChannel name i.name)).length ≤ 1) →
      apply_node_to_objects u name objs st = some (ok, obs2, st2) →
      ok = objs.all (fun ob =>
        ob.material_slots.all (fun s => slotFlag name st s))) := by
  refine ⟨?_, ?_, ?_⟩
  · intro u objs st ok obs2 st2 h
    exact apply_node_normal u objs st ok obs2 st2 h
  · intro name mat hgd
    exact channelsOk_gd name mat hgd
  · intro u name objs st ok obs2 st2 hprep hnd hwfm hg h
    exact apply_node_flag u name objs st ok obs2 st2 hprep hnd
      (fun s hs m0 hm0 => hwfm s m0 hs hm0) hg h

/-- Witness for C5: the general flag characterization applied to the
Roughness recipe over the unlinked-channel material; the computed flag
is `false`, matching the channel check. -/
theorem apply_success_iff_channel_link_witness :
    apply_node_to_objects true Glob.ROUGHNESS_NODE [exObMat] (exChannelState false)
      = some exFlagRun
    ∧ exFlagRun.1 = false
    ∧ exFlagRun.1 = [exObMat].all (fun ob => ob.material_slots.all
        (fun s => slotFlag Glob.ROUGHNESS_NODE (exChannelState false) s)) :=
  ⟨by decide, by decide,
    apply_success_iff_channel_link.2.2 true Glob.ROUGHNESS_NODE [exObMat]
      (exChannelState false) exFlagRun.1 exFlagRun.2.1 exFlagRun.2.2
      (fun ob hob => by
        rw [List.mem_singleton.mp hob]
        exact ⟨rfl, rfl⟩)
      (by decide)
      (fun s m0 hs hm0 => by
        have hseq : s = some "Mat" := List.mem_singleton.mp hs
        rw [hseq] at hm0
        have hfind : (exChannelState false).materials.find?
            (fun m => m.name == slotMatName (some "Mat"))
            = some (exChannelMat false) := by decide
        rw [hfind] at hm0
        have hm : m0 = exChannelMat false := ((Option.some.injEq _ _).mp hm0).symm
        rw [hm]
        decide)
      (fun g0 hg0 => by
        have hfind : (exChannelState false).node_groups.find?
            (fun x => x.name == Glob.ROUGHNESS_NODE) = some roughnessGroup := by decide
        rw [hfind] at hg0
        have hgg : g0 = roughnessGroup := ((Option.some.injEq _ _).mp hg0).symm
        rw [hgg]
        decide)
      (by decide)⟩

theorem listStarts_refl (l : List Char) : listStarts l l = true := by
  induction l with
  | nil => rfl
  | cons c cs ih => simp [listStarts, ih]

theorem strStarts_self (s : String) : strStarts s s = true :=
  listStarts_refl s.toList

theorem listStarts_append (l e : List Char) : listStarts l (l ++ e) = true := by
  induction l with
  | nil => rfl
  | cons c cs ih => simp [listStarts, ih]

theorem strStarts_append (s t : String) : strStarts (s ++ t) s = true := by
  show listStarts s.toList (s ++ t).toList = true
  have hd : (s ++ t).toList = s.toList ++ t.toList := String.data_append s t
  rw [hd]
  exact listStarts_append s.toList t.toList

theorem beq_false_of_length_ne (s t : String) (h : ¬ s.length = t.length) :
    (s == t) = false := by
  cases hb : s == t
  · rfl
  · exact absurd (congrArg String.length (eq_of_beq hb)) h

theorem dotSuffix_beq_false (s : String) :
    ((s ++ "." ++ padNum 1) == s) = false := by
  apply beq_false_of_length_ne
  rw [String.length_append, String.length_append]
  have hdot : (".").length = 1 := by decide
  have hpad : (padNum 1).length = 3 := by decide
  omega

theorem uniquifyGo_second (base : String) (used : List String) (fuel : Nat)
    (h0 : used.contains base = true)
    (h1 : used.contains (base ++ "." ++ padNum 1) = false) :
    uniquifyGo base used (fuel + 2) 0 = base ++ "." ++ padNum 1 := by
  show (if used.contains (uniquifyCandidate base 0)
      then uniquifyGo base used (fuel + 1) (0 + 1) else uniquifyCandidate base 0)
    = base ++ "." ++ padNum 1
  have hc0 : uniquifyCandidate base 0 = base := rfl
  rw [hc0, h0, if_pos rfl]
  show (if used.contains (uniquifyCandidate base (0 + 1))
      then uniquifyGo base used fuel (0 + 1 + 1) else uniquifyCandidate base (0 + 1))
    = base ++ "." ++ padNum 1
  have hc1 : uniquifyCandidate base (0 + 1) = base ++ "." ++ padNum 1 := rfl
  rw [hc1, h1, if_neg (by decide)]

theorem uniquify_second (base : String) (used : List String)
    (h0 : used.contains base = true)
    (h1 : used.contains (base ++ "." ++ padNum 1) = false) :
    uniquify base used = base ++ "." ++ padNum 1 := by
  cases used with
  | nil => exact Bool.noConfusion h0
  | cons a as =>
    show uniquifyGo base (a :: as) ((a :: as).length + 1) 0 = base ++ "." ++ padNum 1
    have hl : (a :: as).length + 1 = as.length + 2 := by
      rw [List.length_cons]
    rw [hl]
    exact uniquifyGo_second base (a :: as) as.length h0 h1

theorem length_le_one_cases {α : Type} (l : List α) (h : l.length ≤ 1) :
    l = [] ∨ ∃ a, l = [a] := by
  cases l with
  | nil => exact Or.inl rfl
  | cons a t =>
    cases t with
    | nil => exact Or.inr ⟨a, rfl⟩
    | cons b t2 =>
      exfalso
      simp [List.length_cons] at h

theorem find?_none_of_any_false {α : Type} (p : α → Bool) (l : List α)
    (h : l.any p = false) : l.find? p = none := by
  cases hf : l.find? p with
  | none => rfl
  | some a =>
    rw [any_of_find?_some p l a hf] at h
    exact absurd h (by decide)

theorem filter_eq_nil_of_false {α : Type} (p : α → Bool) (l : List α)
    (h : ∀ a, a ∈ l → p a = false) : l.filter p = [] := by
  induction l with
  | nil => rfl
  | cons a t ih =>
    rw [List.filter_cons, if_neg (by simp [h a (List.mem_cons_self a t)])]
    exact ih (fun b hb => h b (List.mem_cons_of_mem a hb))

theorem filter_id_of_mem {α : Type} (p : α → Bool) (l : List α)
    (h : ∀ a, a ∈ l → p a = true) : l.filter p = l := by
  induction l with
  | nil => rfl
  | cons a t ih =>
    rw [List.filter_cons, if_pos (h a (List.mem_cons_self a t)),
      ih (fun b hb => h b (List.mem_cons_of_mem a hb))]

theorem map_id_of_mem {α : Type} (f : α → α) (l : List α)
    (h : ∀ a, a ∈ l → f a = a) : l.map f = l := by
  induction l with
  | nil => rfl
  | cons a t ih =>
    rw [List.map_cons, h a (List.mem_cons_self a t),
      ih (fun b hb => h b (List.mem_cons_of_mem a hb))]

theorem contains_append_iff {α : Type} [BEq α] (l1 l2 : List α) (a : α) :
    (l1 ++ l2).contains a = (l1.contains a || l2.contains a) := by
  induction l1 with
  | nil => rfl
  | cons b t ih =>
    rw [List.cons_append, List.contains_cons, List.contains_cons, ih,
      Bool.or_assoc]

theorem find?_some_of_names_contains (l : List InputSocket) (x : String)
    (h : (l.map (fun s => s.name)).contains x = true) :
    ∃ s, l.find? (fun s => s.name == x) = some s := by
  induction l with
  | nil => exact Bool.noConfusion h
  | cons a t ih =>
    rw [List.map_cons, List.contains_cons] at h
    cases hax : x == a.name
    · rw [hax] at h
      obtain ⟨s, hs⟩ := ih (by simpa using h)
      cases hb : a.name == x
      · exact ⟨s, by rw [find?_cons_neg (fun s => s.name == x) a t hb]; exact hs⟩
      · exact ⟨a, find?_cons_pos (fun s => s.name == x) a t hb⟩
    · refine ⟨a, find?_cons_pos (fun s => s.name == x) a t ?_⟩
      rw [eq_of_beq hax]
      simp

theorem findSome?_key {α : Type} [BEq α] [LawfulBEq α] (f : α → Option String) (l : List α)
    (key : α) (v : String)
    (hkey : l.contains key = true)
    (hother : ∀ a, a ∈ l → (a == key) = false → f a = none)
    (hself : ∀ a, a ∈ l → (a == key) = true → f a = some v) :
    l.findSome? f = some v := by
  induction l with
  | nil => exact Bool.noConfusion hkey
  | cons a t ih =>
    rw [List.findSome?_cons]
    cases hak : a == key
    · rw [hother a (List.mem_cons_self a t) hak]
      rw [List.contains_cons] at hkey
      have hka : (key == a) = false := by
        cases hka : key == a
        · rfl
        · rw [eq_of_beq hka] at hak
          rw [beq_self_eq_true] at hak
          exact absurd hak (by decide)
      rw [hka] at hkey
      exact ih (by simpa using hkey)
        (fun b hb => hother b (List.mem_cons_of_mem a hb))
        (fun b hb => hself b (List.mem_cons_of_mem a hb))
    · rw [hself a (List.mem_cons_self a t) hak]

theorem linksInto_removeNode (m : Material) (n y x : String) :
    linksInto (removeNode m n) y x
      = (linksInto m y x).filter
          (fun l => !(l.fromNode == n) && !(l.toNode == n)) := by
  show (m.links.filter (fun l => !(l.fromNode == n) && !(l.toNode == n))).filter
      (fun l => l.toNode == y && l.toSocket == x)
    = (m.links.filter (fun l => l.toNode == y && l.toSocket == x)).filter
      (fun l => !(l.fromNode == n) && !(l.toNode == n))
  rw [List.filter_filter, List.filter_filter]
  apply List.filter_congr
  intro l _
  rw [Bool.and_comm]

theorem cleanupRestoreLinks_skip (mat : Material) (outName inpName : String)
    (links : List Link)
    (hlw : get_material_output_inputs.any (fun p => p.1 == lastWord inpName) = false) :
    cleanupRestoreLinks mat outName inpName links = some mat := by
  induction links with
  | nil => rfl
  | cons l rest ih =>
    show (if !(get_material_output_inputs.any (fun p => p.1 == lastWord inpName))
        then cleanupRestoreLinks mat outName inpName rest
        else _) = some mat
    rw [hlw]
    exact ih

theorem contains_false_of_not_mem {α : Type} [BEq α] [LawfulBEq α]
    (l : List α) (a : α) (h : ¬ a ∈ l) : l.contains a = false := by
  induction l with
  | nil => rfl
  | cons b t ih =>
    rw [List.contains_cons]
    cases hb : a == b
    · rw [ih (fun hm => h (List.mem_cons_of_mem b hm))]
      rfl
    · exact absurd (by rw [eq_of_beq hb]; exact List.mem_cons_self b t) h

theorem processLinkStep_store (u : Bool) (name pN : String)
    (pIns : List String) (inpName : String) (l : Link) (m : Material)
    (ok : Bool) (m2 : Material)
    (hlmem : l ∈ m.links)
    (hch : bridgedChannelNames.contains inpName = false)
    (hpins : pIns.contains inpName = true)
    (hout : ∀ src, findNode m l.fromNode = some src →
      src.outputs.contains l.fromSocket = true)
    (h : processLinkStep u name pN pIns inpName l m = some (ok, m2)) :
    linksInto m2 pN inpName
      = [{ fromNode := l.fromNode, fromSocket := l.fromSocket,
           toNode := pN, toSocket := inpName }]
    ∧ (∀ x, (x == inpName) = false → bridgedChannelNames.contains x = false →
        linksInto m2 pN x = linksInto m pN x)
    ∧ StepRelW pN m m2 := by
  simp only [processLinkStep] at h
  split at h
  next => exact absurd h (by simp)
  next src hfind =>
    have hguard : (pIns.contains inpName && src.outputs.contains l.fromSocket) = true := by
      rw [hpins, hout src hfind]
      rfl
    rw [if_pos hguard] at h
    have hA1 : linksInto (addLinkReplacing m
        { fromNode := l.fromNode, fromSocket := l.fromSocket,
          toNode := pN, toSocket := inpName }) pN inpName
        = [{ fromNode := l.fromNode, fromSocket := l.fromSocket,
             toNode := pN, toSocket := inpName }] :=
      linksInto_addLink_self m _
    have hA2 : ∀ x, (x == inpName) = false →
        linksInto (addLinkReplacing m
          { fromNode := l.fromNode, fromSocket := l.fromSocket,
            toNode := pN, toSocket := inpName }) pN x = linksInto m pN x := by
      intro x hx
      apply linksInto_addLink_other
      show (pN == pN && x == inpName) = false
      rw [hx, Bool.and_false]
    have hArel : StepRelW pN m (addLinkReplacing m
        { fromNode := l.fromNode, fromSocket := l.fromSocket,
          toNode := pN, toSocket := inpName }) :=
      stepRelW_addLink pN m _ rfl ⟨l, hlmem, rfl, rfl⟩
    split at h
    next hcont =>
      have h2 := (Option.some.injEq _ _).mp h
      have hm : m2 = addLinkReplacing m
          { fromNode := l.fromNode, fromSocket := l.fromSocket,
            toNode := pN, toSocket := inpName } := (congrArg Prod.snd h2).symm
      refine ⟨by rw [hm]; exact hA1, fun x hx _ => by rw [hm]; exact hA2 x hx,
        by rw [hm]; exact hArel⟩
    next hcont =>
      split at h
      next => exact absurd h (by simp)
      next found mB hbr =>
        have h2 := (Option.some.injEq _ _).mp h
        have hm : m2 = mB := (congrArg Prod.snd h2).symm
        have hbrel := bridge_step u name pN src.name src.inputs false found _ mB hbr
        refine ⟨?_, ?_, ?_⟩
        · rw [hm, hbrel.1 pN inpName (Or.inr hch)]
          exact hA1
        · intro x hx hchx
          rw [hm, hbrel.1 pN x (Or.inr hchx)]
          exact hA2 x hx
        · rw [hm]
          exact stepRelW_trans hArel (stepRel_weaken hbrel)

theorem processInputLinks_store (u : Bool) (name pN : String)
    (pIns : List String) (inpName : String) (links : List Link) (m : Material)
    (ok : Bool) (m2 : Material)
    (hcase : links = [] ∨ ∃ l0, links = [l0])
    (hmem : ∀ l, l ∈ links → l ∈ m.links)
    (hch : bridgedChannelNames.contains inpName = false)
    (hpins : pIns.contains inpName = true)
    (hout : ∀ l, l ∈ links → ∀ src, findNode m l.fromNode = some src →
      src.outputs.contains l.fromSocket = true)
    (hpre : linksInto m pN inpName = [])
    (h : processInputLinks u name pN pIns inpName links m = some (ok, m2)) :
    linksInto m2 pN inpName
      = links.map (fun l =>
          { fromNode := l.fromNode, fromSocket := l.fromSocket,
            toNode := pN, toSocket := inpName })
    ∧ (∀ x, (x == inpName) = false → bridgedChannelNames.contains x = false →
        linksInto m2 pN x = linksInto m pN x)
    ∧ StepRelW pN m m2 := by
  rcases hcase with hnil | ⟨l0, hl0⟩
  · subst hnil
    simp only [processInputLinks] at h
    have h2 := (Option.some.injEq _ _).mp h
    have hm : m2 = m := (congrArg Prod.snd h2).symm
    refine ⟨by rw [hm, hpre]; rfl, fun x _ _ => by rw [hm],
      by rw [hm]; exact stepRelW_refl pN m⟩
  · subst hl0
    simp only [processInputLinks] at h
    split at h
    next => exact absurd h (by simp)
    next ok1 mB hs =>
      have h2 := (Option.some.injEq _ _).mp h
      have hm : m2 = mB := (congrArg Prod.snd h2).symm
      have hst := processLinkStep_store u name pN pIns inpName l0 m ok1 mB
        (hmem l0 (List.mem_cons_self l0 []))
        hch hpins (hout l0 (List.mem_cons_self l0 [])) hs
      refine ⟨by rw [hm]; exact hst.1, fun x hx hchx => by
        rw [hm]; exact hst.2.1 x hx hchx, by rw [hm]; exact hst.2.2⟩

theorem processOutputInputs_store (u : Bool) (name pN o : String)
    (pIns : List String) (inputs : List InputSocket) (m : Material)
    (ok : Bool) (m2 : Material)
    (ho : (o == pN) = false)
    (hnames : ∀ inp, inp ∈ inputs →
      bridgedChannelNames.contains inp.name = false
      ∧ pIns.contains inp.name = true)
    (hnd : (inputs.map (fun i => i.name)).Nodup)
    (hlen : ∀ inp, inp ∈ inputs → (linksInto m o inp.name).length ≤ 1)
    (hfrom : ∀ l, l ∈ m.links → (l.fromNode == pN) = false)
    (hout : ∀ l, l ∈ m.links → ∀ src, findNode m l.fromNode = some src →
      src.outputs.contains l.fromSocket = true)
    (hpre : ∀ inp, inp ∈ inputs → linksInto m pN inp.name = [])
    (h : processOutputInputs u name pN o pIns inputs m = some (ok, m2)) :
    (∀ inp, inp ∈ inputs → linksInto m2 pN inp.name
      = (linksInto m o inp.name).map (fun l =>
          { fromNode := l.fromNode, fromSocket := l.fromSocket,
            toNode := pN, toSocket := inp.name }))
    ∧ (∀ x, bridgedChannelNames.contains x = false →
        (inputs.map (fun i => i.name)).contains x = false →
        linksInto m2 pN x = linksInto m pN x)
    ∧ StepRelW pN m m2 := by
  induction inputs generalizing m ok m2 with
  | nil =>
    simp only [processOutputInputs] at h
    have h2 := (Option.some.injEq _ _).mp h
    have hm : m2 = m := (congrArg Prod.snd h2).symm
    refine ⟨fun inp h2x => absurd h2x (List.not_mem_nil inp),
      fun x _ _ => by rw [hm], by rw [hm]; exact stepRelW_refl pN m⟩
  | cons inp rest ih =>
    rw [List.map_cons, List.nodup_cons] at hnd
    simp only [processOutputInputs] at h
    split at h
    next => exact absurd h (by simp)
    next ok1 mB hs =>
      split at h
      next => exact absurd h (by simp)
      next ok2 mC hr =>
        have h2 := (Option.some.injEq _ _).mp h
        have hm : m2 = mC := (congrArg Prod.snd h2).symm
        have hnamesI := hnames inp (List.mem_cons_self inp rest)
        have hst := processInputLinks_store u name pN pIns inp.name
          (linksInto m o inp.name) m ok1 mB
          (length_le_one_cases _ (hlen inp (List.mem_cons_self inp rest)))
          (fun l hl => mem_links_of_mem_linksInto m o inp.name l hl)
          hnamesI.1 hnamesI.2
          (fun l hl src hsrc => hout l (mem_links_of_mem_linksInto m o inp.name l hl)
            src hsrc)
          (hpre inp (List.mem_cons_self inp rest)) hs
        have hnames2 : ∀ inp2, inp2 ∈ rest →
            bridgedChannelNames.contains inp2.name = false
            ∧ pIns.contains inp2.name = true :=
          fun inp2 h2x => hnames inp2 (List.mem_cons_of_mem inp h2x)
        have hnameNe : ∀ inp2, inp2 ∈ rest → (inp2.name == inp.name) = false := by
          intro inp2 h2x
          cases hb : inp2.name == inp.name
          · rfl
          · exfalso
            apply hnd.1
            rw [← eq_of_beq hb]
            exact List.mem_map_of_mem (fun i => i.name) h2x
        have hlen2 : ∀ inp2, inp2 ∈ rest → (linksInto mB o inp2.name).length ≤ 1 := by
          intro inp2 h2x
          rw [hst.2.2.1 o inp2.name ho]
          exact hlen inp2 (List.mem_cons_of_mem inp h2x)
        have hfrom2 : ∀ l, l ∈ mB.links → (l.fromNode == pN) = false :=
          stepRelW_fromNode hst.2.2 hfrom
        have hout2 : ∀ l, l ∈ mB.links → ∀ src, findNode mB l.fromNode = some src →
            src.outputs.contains l.fromSocket = true := by
          intro l2 hl2 src2 hsrc2
          rcases hst.2.2.2.2 l2 hl2 with hin | ⟨l1, hl1, hf, hsk, _⟩
          · rw [nodeMapRel_find hst.2.2.2.1 l2.fromNode (hfrom l2 hin)] at hsrc2
            exact hout l2 hin src2 hsrc2
          · rw [hf] at hsrc2
            rw [nodeMapRel_find hst.2.2.2.1 l1.fromNode (hfrom l1 hl1)] at hsrc2
            rw [hsk]
            exact hout l1 hl1 src2 hsrc2
        have hpre2 : ∀ inp2, inp2 ∈ rest → linksInto mB pN inp2.name = [] := by
          intro inp2 h2x
          rw [hst.2.1 inp2.name (hnameNe inp2 h2x) (hnames2 inp2 h2x).1]
          exact hpre inp2 (List.mem_cons_of_mem inp h2x)
        have hih := ih mB ok2 mC hnames2 hnd.2 hlen2 hfrom2 hout2 hpre2 hr
        refine ⟨?_, ?_, by rw [hm]; exact stepRelW_trans hst.2.2 hih.2.2⟩
        · intro inp2 h2x
          rcases List.mem_cons.mp h2x with heq | hmem2
          · subst heq
            have hcont : (rest.map (fun i => i.name)).contains inp2.name = false :=
              contains_false_of_not_mem _ _ hnd.1
            rw [hm, hih.2.1 inp2.name hnamesI.1 hcont]
            exact hst.1
          · rw [hm, hih.1 inp2 hmem2, hst.2.2.1 o inp2.name ho]
        · intro x hchx hcontx
          rw [List.map_cons, List.contains_cons] at hcontx
          have hx1 : (x == inp.name) = false ∧
              (rest.map (fun i => i.name)).contains x = false := by
            cases hxa : x == inp.name
            · cases hxb : (rest.map (fun i => i.name)).contains x
              · exact ⟨rfl, rfl⟩
              · rw [hxa, hxb] at hcontx
                exact absurd hcontx (by decide)
            · rw [hxa] at hcontx
              simp at hcontx
          rw [hm, hih.2.1 x hchx hx1.2]
          exact hst.2.1 x hx1.1 hchx

theorem findNode_append2 (mat : Material) (n1 n2 : Node) (x : String) (nd : Node)
    (hf : findNode mat x = some nd) :
    findNode { mat with nodes := (mat.nodes ++ [n1]) ++ [n2] } x = some nd := by
  have h1 : (mat.nodes ++ [n1]).find? (fun (y : Node) => y.name == x) = some nd :=
    find?_append_some (fun (y : Node) => y.name == x) mat.nodes [n1] nd hf
  exact find?_append_some (fun (y : Node) => y.name == x) (mat.nodes ++ [n1]) [n2] nd h1

theorem linksInto_nil_of_toNode_absent (m : Material) (nm x : String)
    (h : ∀ l, l ∈ m.links → (l.toNode == nm) = false) :
    linksInto m nm x = [] := by
  apply filter_eq_nil_of_false
  intro l hl
  rw [h l hl, Bool.false_and]

theorem processOutput_round (u : Bool) (name : String) (g : NodeGroup) (o : String)
    (mat : Material) (texts : List (String × String)) (ok : Bool) (mS : Material)
    (tS : List (String × String)) (out0 : Node)
    (hnn : hasNode mat name = false)
    (hnodup : (nodeNames mat).Nodup)
    (hstart : ∀ n, n ∈ mat.nodes → strStarts n.name name = false)
    (hlinks : ∀ l, l ∈ mat.links → (nodeNames mat).contains l.fromNode = true
      ∧ (nodeNames mat).contains l.toNode = true)
    (hwf4 : ∀ l, l ∈ mat.links → ∀ src, findNode mat l.fromNode = some src →
      src.outputs.contains l.fromSocket = true)
    (hfindo : findNode mat o = some out0)
    (hinputs : out0.inputs.map (fun s => s.name)
      = ["Surface", "Volume", "Displacement"])
    (hlen3 : ∀ x, x ∈ (["Surface", "Volume", "Displacement"] : List String) →
      (linksInto mat o x).length ≤ 1)
    (hgS : (g.ifaceInputs.map (fun s => s.name)).contains "Surface" = true)
    (hgV : (g.ifaceInputs.map (fun s => s.name)).contains "Volume" = true)
    (hgD : (g.ifaceInputs.map (fun s => s.name)).contains "Displacement" = true)
    (h : processOutput u name g o mat texts = some (ok, mS, tS)) :
    (mS.name = mat.name ∧ mS.use_nodes = mat.use_nodes)
    ∧ (∃ P, mS.nodes = mat.nodes ++ [P,
          { name := name ++ "." ++ padNum 1, type := "FRAME",
            inputs := [], outputs := [] }]
        ∧ P.name = name ∧ P.outputs = g.ifaceOutputs
        ∧ P.inputs.map (fun s => s.name) = g.ifaceInputs.map (fun s => s.name))
    ∧ (∀ x, x ∈ (["Surface", "Volume", "Displacement"] : List String) →
        linksInto mS name x = (linksInto mat o x).map (fun l =>
          { fromNode := l.fromNode, fromSocket := l.fromSocket,
            toNode := name, toSocket := x }))
    ∧ linksInto mS o "Surface"
        = [{ fromNode := name, fromSocket := "Shader",
             toNode := o, toSocket := "Surface" }]
    ∧ (linksInto mS o "Volume" = [] ∧ linksInto mS o "Displacement" = [])
    ∧ (∃ pre, mS.links = pre
          ++ [{ fromNode := name, fromSocket := "Shader",
                toNode := o, toSocket := "Surface" }]
        ∧ ∀ l, l ∈ pre → (l.fromNode == name) = false)
    ∧ (∀ l, l ∈ mS.links →
        ((l.fromNode == name) = true ∨ (nodeNames mat).contains l.fromNode = true)
        ∧ ((l.toNode == name) = true ∨ (nodeNames mat).contains l.toNode = true))
    ∧ g.ifaceOutputs.contains "Shader" = true := by
  have hcn : (nodeNames mat).contains name = false := by
    rw [contains_nodeNames]
    exact hnn
  have huniq : uniquify name (nodeNames mat) = name :=
    uniquify_of_not_contains name (nodeNames mat) hcn
  have hfindo1 : mat.nodes.find? (fun (x : Node) => x.name == o) = some out0 := hfindo
  have hho : hasNode mat o = true :=
    any_of_find?_some (fun (x : Node) => x.name == o) mat.nodes out0 hfindo1
  have ho' : (o == name) = false := by
    cases hoe : (o == name)
    · rfl
    · rw [← eq_of_beq hoe] at hnn
      rw [hho] at hnn
      exact absurd hnn (by decide)
  have hno : (name == o) = false := by
    rw [@Bool.beq_comm String _ _ name o]
    exact ho'
  have hnameNe : ∀ n, n ∈ mat.nodes → (n.name == name) = false := by
    intro n hn
    cases hb : n.name == name
    · rfl
    · have := hstart n hn
      rw [eq_of_beq hb, strStarts_self name] at this
      exact absurd this (by decide)
  have hfromA : ∀ l, l ∈ mat.links → (l.fromNode == name) = false := by
    intro l hl
    cases hb : l.fromNode == name
    · rfl
    · have hc := (hlinks l hl).1
      rw [eq_of_beq hb, hcn] at hc
      exact absurd hc (by decide)
  have htoA : ∀ l, l ∈ mat.links → (l.toNode == name) = false := by
    intro l hl
    cases hb : l.toNode == name
    · rfl
    · have hc := (hlinks l hl).2
      rw [eq_of_beq hb, hcn] at hc
      exact absurd hc (by decide)
  have hfn : uniquify name (nodeNames mat ++ [name]) = name ++ "." ++ padNum 1 := by
    apply uniquify_second
    · rw [contains_append_iff]
      have : ([name] : List String).contains name = true := by simp
      rw [this, Bool.or_true]
    · rw [contains_append_iff]
      have h1 : (nodeNames mat).contains (name ++ "." ++ padNum 1) = false := by
        apply contains_false_of_not_mem
        intro hmem
        obtain ⟨n, hn, hname⟩ := List.mem_map.mp hmem
        have := hstart n hn
        rw [hname, String.append_assoc, strStarts_append] at this
        exact absurd this (by decide)
      have h2 : ([name] : List String).contains (name ++ "." ++ padNum 1) = false := by
        rw [List.contains_cons]
        rw [dotSuffix_beq_false name]
        rfl
      rw [h1, h2]
      rfl
  simp only [processOutput] at h
  rw [huniq] at h
  have hnn2 : nodeNames { mat with nodes := mat.nodes
      ++ [{ name := name, type := "GROUP", inputs := g.ifaceInputs,
            outputs := g.ifaceOutputs }] } = nodeNames mat ++ [name] := by
    show (mat.nodes ++
        [({ name := name, type := "GROUP", inputs := g.ifaceInputs,
            outputs := g.ifaceOutputs } : Node)]).map (fun (n : Node) => n.name)
      = (mat.nodes.map (fun (n : Node) => n.name)) ++ [name]
    rw [List.map_append]
    rfl
  rw [hnn2, hfn] at h
  split at h
  next => exact absurd h (by simp)
  next out hout =>
    have e2 : ∀ (nd1 nd2 : Node),
        findNode { mat with nodes := (mat.nodes ++ [nd1]) ++ [nd2] } o = some out0 :=
      fun nd1 nd2 => findNode_append2 mat nd1 nd2 o out0 hfindo
    have hoo : out = out0 :=
      (Option.some.injEq _ _).mp (hout.symm.trans (e2 _ _))
    subst hoo
    split at h
    next => exact absurd h (by simp)
    next ok1 m3 hpoi =>
      split at h
      next => exact absurd h (by simp)
      next hvol =>
        split at h
        next => exact absurd h (by simp)
        next hdisp =>
          split at h
          next => exact absurd h (by simp)
          next hsurf =>
            split at h
            next => exact absurd h (by simp)
            next hshader =>
              have hshader2 : g.ifaceOutputs.contains "Shader" = true := by
                have hb := bool_not_true hshader
                cases hc : g.ifaceOutputs.contains "Shader"
                · rw [hc] at hb
                  exact absurd hb (by decide)
                · rfl
              have h2 := (Option.some.injEq _ _).mp h
              have hmS : mS = addLinkReplacing
                  (removeLinksInto (removeLinksInto m3 o "Volume") o "Displacement")
                  { fromNode := name, fromSocket := "Shader",
                    toNode := o, toSocket := "Surface" } :=
                (congrArg (fun x => x.2.1) h2).symm
              have hmemName : ∀ inp, inp ∈ out.inputs →
                  inp.name ∈ (["Surface", "Volume", "Displacement"] : List String) := by
                intro inp hinp
                rw [← hinputs]
                exact List.mem_map_of_mem (fun s => s.name) hinp
              have happ := fun hoX hnamesX hndX hlenX hfromX houtX hpreX =>
                processOutputInputs_store u name name o _ out.inputs _ ok1 m3
                  hoX hnamesX hndX hlenX hfromX houtX hpreX hpoi
              have hnamesA : ∀ inp, inp ∈ out.inputs →
                  bridgedChannelNames.contains inp.name = false
                  ∧ (g.ifaceInputs.map (fun s => s.name)).contains inp.name = true := by
                intro inp hinp
                have hx := hmemName inp hinp
                have hxn : inp.name = "Surface" ∨ inp.name = "Volume"
                    ∨ inp.name = "Displacement" := by simpa using hx
                rcases hxn with he | he | he <;> rw [he]
                · exact ⟨by decide, hgS⟩
                · exact ⟨by decide, hgV⟩
                · exact ⟨by decide, hgD⟩
              have hndA : (out.inputs.map (fun i => i.name)).Nodup := by
                have : out.inputs.map (fun i => i.name)
                    = ["Surface", "Volume", "Displacement"] := hinputs
                rw [this]
                decide
              have hlenA : ∀ inp, inp ∈ out.inputs →
                  (linksInto mat o inp.name).length ≤ 1 :=
                fun inp hinp => hlen3 inp.name (hmemName inp hinp)
              have houtA : ∀ l, l ∈ mat.links → ∀ src,
                  findNode { mat with nodes := (mat.nodes
                    ++ [{ name := name, type := "GROUP", inputs := g.ifaceInputs,
                          outputs := g.ifaceOutputs }])
                    ++ [{ name := name ++ "." ++ padNum 1, type := "FRAME",
                          inputs := [], outputs := [] }] } l.fromNode = some src →
                  src.outputs.contains l.fromSocket = true := by
                intro l hl src hsrc
                obtain ⟨src0, hsrc0⟩ :=
                  findNode_some_of_contains mat l.fromNode (hlinks l hl).1
                have hss : src = src0 :=
                  (Option.some.injEq _ _).mp (hsrc.symm.trans
                    (findNode_append2 mat _ _ l.fromNode src0 hsrc0))
                rw [hss]
                exact hwf4 l hl src0 hsrc0
              have hpreA : ∀ inp, inp ∈ out.inputs →
                  linksInto mat name inp.name = [] :=
                fun inp _ => linksInto_nil_of_toNode_absent mat name inp.name htoA
              obtain ⟨hstores, huntouched, hrelW⟩ :=
                happ ho' hnamesA hndA hlenA hfromA houtA hpreA
              have hm3name : m3.name = mat.name := hrelW.2.1.1
              have hm3use : m3.use_nodes = mat.use_nodes := hrelW.2.1.2.1
              have hm3from : ∀ l, l ∈ m3.links → (l.fromNode == name) = false :=
                stepRelW_fromNode hrelW hfromA
              refine ⟨⟨?_, ?_⟩, ?_, ?_, ?_, ⟨?_, ?_⟩, ?_, ?_, hshader2⟩
              · rw [hmS]
                exact hm3name
              · rw [hmS]
                exact hm3use
              · -- nodes shape
                obtain ⟨F, hnodes, hF⟩ := hrelW.2.1.2.2
                refine ⟨F
                  { name := name, type := "GROUP", inputs := g.ifaceInputs,
                    outputs := g.ifaceOutputs }, ?_, ?_, ?_, ?_⟩
                · rw [hmS]
                  show m3.nodes = _
                  rw [hnodes]
                  show ((mat.nodes ++
                      [({ name := name, type := "GROUP",
                          inputs := g.ifaceInputs,
                          outputs := g.ifaceOutputs } : Node)])
                      ++
                      [({ name := name ++ "." ++ padNum 1, type := "FRAME",
                          inputs := [], outputs := [] } : Node)]).map F = _
                  rw [List.map_append, List.map_append, List.map_singleton,
                    List.map_singleton]
                  have hid : mat.nodes.map F = mat.nodes :=
                    map_id_of_mem F mat.nodes
                      (fun n hn => (hF n).2.2.2.2.2 (hnameNe n hn))
                  have hfl : F
                      { name := name ++ "." ++ padNum 1, type := "FRAME",
                        inputs := [], outputs := [] }
                      =
                      { name := name ++ "." ++ padNum 1, type := "FRAME",
                        inputs := [], outputs := [] } :=
                    (hF _).2.2.2.2.2 (dotSuffix_beq_false name)
                  rw [hid, hfl, List.append_assoc]
                  rfl
                · exact (hF _).1
                · exact (hF _).2.2.1
                · exact (hF _).2.2.2.1
              · -- stored copies
                intro x hx
                obtain ⟨inp, hinp, hname⟩ := by
                  rw [← hinputs] at hx
                  exact List.mem_map.mp hx
                rw [← hname, hmS]
                have e1 : linksInto (addLinkReplacing
                    (removeLinksInto (removeLinksInto m3 o "Volume") o "Displacement")
                    { fromNode := name, fromSocket := "Shader",
                      toNode := o, toSocket := "Surface" }) name inp.name
                    = linksInto (removeLinksInto (removeLinksInto m3 o "Volume")
                        o "Displacement") name inp.name := by
                  apply linksInto_addLink_other
                  show (name == o && inp.name == "Surface") = false
                  rw [hno, Bool.false_and]
                have e2x : linksInto (removeLinksInto (removeLinksInto m3 o "Volume")
                      o "Displacement") name inp.name
                    = linksInto (removeLinksInto m3 o "Volume") name inp.name := by
                  apply linksInto_removeLinks_other
                  rw [hno, Bool.false_and]
                have e3 : linksInto (removeLinksInto m3 o "Volume") name inp.name
                    = linksInto m3 name inp.name := by
                  apply linksInto_removeLinks_other
                  rw [hno, Bool.false_and]
                rw [e1, e2x, e3]
                exact hstores inp hinp
              · -- Surface link
                rw [hmS]
                exact linksInto_addLink_self _ _
              · -- Volume empty
                rw [hmS]
                have e1 : linksInto (addLinkReplacing
                    (removeLinksInto (removeLinksInto m3 o "Volume") o "Displacement")
                    { fromNode := name, fromSocket := "Shader",
                      toNode := o, toSocket := "Surface" }) o "Volume"
                    = linksInto (removeLinksInto (removeLinksInto m3 o "Volume")
                        o "Displacement") o "Volume" := by
                  apply linksInto_addLink_other
                  show (o == o && ("Volume" : String) == "Surface") = false
                  rw [show (("Volume" : String) == "Surface") = false from by decide,
                    Bool.and_false]
                have e2x : linksInto (removeLinksInto (removeLinksInto m3 o "Volume")
                      o "Displacement") o "Volume"
                    = linksInto (removeLinksInto m3 o "Volume") o "Volume" := by
                  apply linksInto_removeLinks_other
                  rw [show (("Volume" : String) == "Displacement") = false from by decide,
                    Bool.and_false]
                rw [e1, e2x]
                exact linksInto_removeLinks_self m3 o "Volume"
              · -- Displacement empty
                rw [hmS]
                have e1 : linksInto (addLinkReplacing
                    (removeLinksInto (removeLinksInto m3 o "Volume") o "Displacement")
                    { fromNode := name, fromSocket := "Shader",
                      toNode := o, toSocket := "Surface" }) o "Displacement"
                    = linksInto (removeLinksInto (removeLinksInto m3 o "Volume")
                        o "Displacement") o "Displacement" := by
                  apply linksInto_addLink_other
                  show (o == o && ("Displacement" : String) == "Surface") = false
                  rw [show (("Displacement" : String) == "Surface") = false
                    from by decide, Bool.and_false]
                rw [e1]
                exact linksInto_removeLinks_self _ o "Displacement"
              · -- pre decomposition
                refine ⟨(removeLinksInto (removeLinksInto m3 o "Volume")
                    o "Displacement").links.filter (fun x =>
                      !(x.toNode == o && x.toSocket == "Surface")), ?_, ?_⟩
                · rw [hmS]
                  rfl
                · intro l hl
                  have hl3 : l ∈ m3.links := by
                    have h1 := List.mem_filter.mp hl
                    have h2x := List.mem_filter.mp h1.1
                    have h3x := List.mem_filter.mp h2x.1
                    exact h3x.1
                  exact hm3from l hl3
              · -- link universe
                intro l hl
                rw [hmS] at hl
                rcases List.mem_append.mp hl with hpre | hsurfl
                · have hl3 : l ∈ m3.links := by
                    have h1 := List.mem_filter.mp hpre
                    have h2x := List.mem_filter.mp h1.1
                    have h3x := List.mem_filter.mp h2x.1
                    exact h3x.1
                  rcases hrelW.2.2 l hl3 with hin | ⟨l1, hl1, hf, _, ht⟩
                  · exact ⟨Or.inr (hlinks l hin).1, Or.inr (hlinks l hin).2⟩
                  · constructor
                    · rw [hf]
                      exact Or.inr (hlinks l1 hl1).1
                    · rw [ht]
                      exact Or.inl (by simp)
                · have hls : l =
                      { fromNode := name, fromSocket := "Shader",
                        toNode := o, toSocket := "Surface" } := by
                    cases List.mem_singleton.mp hsurfl
                    rfl
                  rw [hls]
                  constructor
                  · exact Or.inl (by simp)
                  · refine Or.inr ?_
                    show (nodeNames mat).contains o = true
                    rw [contains_nodeNames]
                    exact hho

theorem spliceCore_round (u : Bool) (name : String) (g : NodeGroup) (mat : Material)
    (texts : List (String × String)) (ok : Bool) (mS : Material)
    (tS : List (String × String))
    (hwf : wfRoundtrip name mat = true)
    (hgS : (g.ifaceInputs.map (fun s => s.name)).contains "Surface" = true)
    (hgV : (g.ifaceInputs.map (fun s => s.name)).contains "Volume" = true)
    (hgD : (g.ifaceInputs.map (fun s => s.name)).contains "Displacement" = true)
    (h : spliceCore u name g mat texts = some (ok, mS, tS)) :
    ∃ out0, findNode mat out0.name = some out0
      ∧ out0.inputs.map (fun s => s.name) = ["Surface", "Volume", "Displacement"]
      ∧ (mS.name = mat.name ∧ mS.use_nodes = mat.use_nodes)
      ∧ (∃ P, mS.nodes = mat.nodes ++ [P,
            { name := name ++ "." ++ padNum 1, type := "FRAME",
              inputs := [], outputs := [] }]
          ∧ P.name = name ∧ P.outputs = g.ifaceOutputs
          ∧ P.inputs.map (fun s => s.name) = g.ifaceInputs.map (fun s => s.name))
      ∧ (∀ x, x ∈ (["Surface", "Volume", "Displacement"] : List String) →
          linksInto mS name x = (linksInto mat out0.name x).map (fun l =>
            { fromNode := l.fromNode, fromSocket := l.fromSocket,
              toNode := name, toSocket := x }))
      ∧ linksInto mS out0.name "Surface"
          = [{ fromNode := name, fromSocket := "Shader",
               toNode := out0.name, toSocket := "Surface" }]
      ∧ (linksInto mS out0.name "Volume" = []
          ∧ linksInto mS out0.name "Displacement" = [])
      ∧ (∃ pre, mS.links = pre
            ++ [{ fromNode := name, fromSocket := "Shader",
                  toNode := out0.name, toSocket := "Surface" }]
          ∧ ∀ l, l ∈ pre → (l.fromNode == name) = false)
      ∧ (∀ l, l ∈ mS.links →
          ((l.fromNode == name) = true ∨ (nodeNames mat).contains l.fromNode = true)
          ∧ ((l.toNode == name) = true ∨ (nodeNames mat).contains l.toNode = true))
      ∧ g.ifaceOutputs.contains "Shader" = true
      ∧ out0.type = "OUTPUT_MATERIAL" := by
  simp only [wfRoundtrip, Bool.and_eq_true, decide_eq_true_eq, List.all_eq_true] at hwf
  obtain ⟨⟨⟨⟨⟨hnodup, hstart0⟩, hlinks0⟩, hw4⟩, hw5⟩, hgd⟩ := hwf
  have hstart : ∀ n, n ∈ mat.nodes → strStarts n.name name = false := by
    intro n hn
    have := hstart0 n hn
    cases hb : strStarts n.name name
    · rfl
    · rw [hb] at this
      exact absurd this (by decide)
  have hnn : hasNode mat name = false := by
    cases hhn : hasNode mat name
    · rfl
    · obtain ⟨n, hn, hp⟩ := List.any_eq_true.mp hhn
      have := hstart n hn
      rw [eq_of_beq hp, strStarts_self name] at this
      exact absurd this (by decide)
  have hlinks : ∀ l, l ∈ mat.links → (nodeNames mat).contains l.fromNode = true
      ∧ (nodeNames mat).contains l.toNode = true := fun l hl => hlinks0 l hl
  have hwf4 : ∀ l, l ∈ mat.links → ∀ src, findNode mat l.fromNode = some src →
      src.outputs.contains l.fromSocket = true := by
    intro l hl src hsrc
    have := hw4 l hl
    rw [hsrc] at this
    exact this
  cases hfil : mat.nodes.filter (fun n => n.type == "OUTPUT_MATERIAL") with
  | nil =>
    rw [hfil] at hw5
    exact Bool.noConfusion hw5
  | cons out0 t =>
    cases t with
    | cons b t2 =>
      rw [hfil] at hw5
      exact Bool.noConfusion hw5
    | nil =>
      rw [hfil] at hw5
      have hw5' : (out0.inputs.map (fun s => s.name)
          = ["Surface", "Volume", "Displacement"])
          ∧ ∀ x ∈ (["Surface", "Volume", "Displacement"] : List String),
            (linksInto mat out0.name x).length ≤ 1 := by
        have h2 := hw5
        rw [Bool.and_eq_true] at h2
        refine ⟨of_decide_eq_true h2.1, ?_⟩
        intro x hx
        have h3 := List.all_eq_true.mp h2.2 x hx
        exact of_decide_eq_true h3
      have hmem0 : out0 ∈ mat.nodes :=
        List.mem_of_mem_filter (hfil ▸ List.mem_singleton_self out0)
      have htype0 : out0.type = "OUTPUT_MATERIAL" := by
        have := (List.mem_filter.mp (hfil ▸ List.mem_singleton_self out0)).2
        exact eq_of_beq this
      have hfind0 : findNode mat out0.name = some out0 :=
        find?_name_nodup mat.nodes out0 hnodup hmem0
      simp only [spliceCore] at h
      rw [hfil] at h
      simp only [List.map_cons, List.map_nil] at h
      rw [if_neg (by simp)] at h
      simp only [processOutputsList] at h
      cases hpo : processOutput u name g out0.name mat texts with
      | none => simp [hpo] at h
      | some p =>
        obtain ⟨ok1, mB, tB⟩ := p
        simp only [hpo] at h
        have h2 := (Option.some.injEq _ _).mp h
        have hmB : mS = mB := (congrArg (fun x => x.2.1) h2).symm
        obtain ⟨hc1, hc2, hc3, hc4, hc5, hc6, hc7, hc8⟩ :=
          processOutput_round u name g out0.name mat texts ok1 mB tB out0
            hnn hnodup hstart hlinks hwf4 hfind0 hw5'.1 hw5'.2 hgS hgV hgD hpo
        rw [hmB]
        exact ⟨out0, hfind0, hw5'.1, hc1, hc2, hc3, hc4, hc5, hc6, hc7, hc8, htype0⟩

theorem contains_of_mem {α : Type} [BEq α] [LawfulBEq α]
    (l : List α) (a : α) (h : a ∈ l) : l.contains a = true := by
  induction l with
  | nil => cases h
  | cons b t ih =>
    rw [List.contains_cons]
    rcases List.mem_cons.mp h with heq | hmem
    · rw [heq]
      simp
    · rw [ih hmem, Bool.or_true]

theorem findNodeInput_some (m : Material) (oN inpName : String) (out2 : Node)
    (hf : findNode m oN = some out2)
    (hc : (out2.inputs.map (fun s => s.name)).contains inpName = true) :
    ∃ s, findNodeInput m oN inpName = some s := by
  obtain ⟨s, hs⟩ := find?_some_of_names_contains out2.inputs inpName hc
  refine ⟨s, ?_⟩
  show (findNode m oN).bind (fun n => n.inputs.find? (fun s => s.name == inpName))
    = some s
  rw [hf]
  exact hs

theorem cleanupRestoreLinks_single (m : Material) (oN inpName : String) (l0 : Link)
    (src : Node)
    (hlw : get_material_output_inputs.any (fun p => p.1 == lastWord inpName) = true)
    (hdict : get_material_output_inputs.any (fun p => p.1 == inpName) = true)
    (hfindsrc : findNode m l0.fromNode = some src)
    (houtsrc : src.outputs.contains l0.fromSocket = true)
    (hinput : ∃ s, findNodeInput m oN inpName = some s) :
    cleanupRestoreLinks m oN inpName [l0]
      = some (addLinkReplacing m
          { fromNode := l0.fromNode, fromSocket := l0.fromSocket,
            toNode := oN, toSocket := inpName }) := by
  obtain ⟨si, hsi⟩ := hinput
  simp only [cleanupRestoreLinks, hlw, hfindsrc, hdict, houtsrc, hsi]
  rfl

theorem cleanupRestoreInputs_round (name oN : String) (inputs : List InputSocket)
    (m : Material)
    (hno : (name == oN) = false)
    (hnodupIns : (inputs.map (fun s => s.name)).Nodup)
    (hout2 : ∃ out2, findNode m oN = some out2
      ∧ out2.inputs.map (fun s => s.name) = ["Surface", "Volume", "Displacement"])
    (hinfo : ∀ inp, inp ∈ inputs →
      get_material_output_inputs.any (fun p => p.1 == lastWord inp.name) = false
      ∨ (inp.name ∈ (["Surface", "Volume", "Displacement"] : List String)
        ∧ (linksInto m name inp.name).length ≤ 1
        ∧ ∀ l, l ∈ linksInto m name inp.name →
            ∃ src, findNode m l.fromNode = some src
              ∧ src.outputs.contains l.fromSocket = true)) :
    ∃ m2, cleanupRestoreInputs m name oN inputs = some m2
      ∧ m2.nodes = m.nodes
      ∧ (∀ y x, (y == oN) = false → linksInto m2 y x = linksInto m y x)
      ∧ (∀ x, ((inputs.map (fun s => s.name)).contains x) = false →
          linksInto m2 oN x = linksInto m oN x)
      ∧ (∀ inp, inp ∈ inputs →
          inp.name ∈ (["Surface", "Volume", "Displacement"] : List String) →
          linksInto m2 oN inp.name
            = (linksInto m name inp.name).map (fun l =>
                { fromNode := l.fromNode, fromSocket := l.fromSocket,
                  toNode := oN, toSocket := inp.name })
              ++ (if (linksInto m name inp.name).isEmpty
                  then linksInto m oN inp.name else [])) := by
  induction inputs generalizing m with
  | nil =>
    exact ⟨m, rfl, rfl, fun y x _ => rfl, fun x _ => rfl,
      fun inp h2 => absurd h2 (List.not_mem_nil inp)⟩
  | cons inp rest ih =>
    rw [List.map_cons, List.nodup_cons] at hnodupIns
    have hcontrest : (rest.map (fun s => s.name)).contains inp.name = false :=
      contains_false_of_not_mem _ _ hnodupIns.1
    rcases hinfo inp (List.mem_cons_self inp rest) with hskip | ⟨hsvd, hlen, hsrcs⟩
    · obtain ⟨m2, hrec, hn2, hother2, huntouched2, hper2⟩ :=
        ih m hnodupIns.2 hout2
          (fun inp2 h2 => hinfo inp2 (List.mem_cons_of_mem inp h2))
      refine ⟨m2, ?_, hn2, hother2, ?_, ?_⟩
      · show (match cleanupRestoreLinks m oN inp.name (linksInto m name inp.name) with
          | none => none
          | some m3 => cleanupRestoreInputs m3 name oN rest) = some m2
        rw [cleanupRestoreLinks_skip m oN inp.name (linksInto m name inp.name) hskip]
        exact hrec
      · intro x hx
        rw [List.map_cons, List.contains_cons] at hx
        exact huntouched2 x (Bool.or_eq_false_iff.mp hx).2
      · intro inp2 h2 hsvd2
        rcases List.mem_cons.mp h2 with heq | hmem2
        · have hxn : inp2.name = "Surface" ∨ inp2.name = "Volume"
              ∨ inp2.name = "Displacement" := by simpa using hsvd2
          rw [heq] at hxn
          rcases hxn with he | he | he <;> rw [he] at hskip <;>
            exact absurd hskip (by decide)
        · exact hper2 inp2 hmem2 hsvd2
    · have hxn : inp.name = "Surface" ∨ inp.name = "Volume"
          ∨ inp.name = "Displacement" := by simpa using hsvd
      have hlw : get_material_output_inputs.any
          (fun p => p.1 == lastWord inp.name) = true := by
        rcases hxn with he | he | he <;> rw [he] <;> decide
      have hdict : get_material_output_inputs.any
          (fun p => p.1 == inp.name) = true := by
        rcases hxn with he | he | he <;> rw [he] <;> decide
      rcases length_le_one_cases _ hlen with hL | ⟨l0, hL⟩
      · obtain ⟨m2, hrec, hn2, hother2, huntouched2, hper2⟩ :=
          ih m hnodupIns.2 hout2
            (fun inp2 h2 => hinfo inp2 (List.mem_cons_of_mem inp h2))
        refine ⟨m2, ?_, hn2, hother2, ?_, ?_⟩
        · show (match cleanupRestoreLinks m oN inp.name
              (linksInto m name inp.name) with
            | none => none
            | some m3 => cleanupRestoreInputs m3 name oN rest) = some m2
          rw [hL]
          exact hrec
        · intro x hx
          rw [List.map_cons, List.contains_cons] at hx
          exact huntouched2 x (Bool.or_eq_false_iff.mp hx).2
        · intro inp2 h2 hsvd2
          rcases List.mem_cons.mp h2 with heq | hmem2
          · rw [heq]
            rw [huntouched2 inp.name hcontrest, hL]
            simp
          · exact hper2 inp2 hmem2 hsvd2
      · obtain ⟨src, hfindsrc, houtsrc⟩ := hsrcs l0 (by
          rw [hL]
          exact List.mem_cons_self l0 [])
        obtain ⟨out2, hfout2, hnames2⟩ := hout2
        have hinput : ∃ s, findNodeInput m oN inp.name = some s := by
          refine findNodeInput_some m oN inp.name out2 hfout2 ?_
          rw [hnames2]
          exact contains_of_mem _ _ hsvd
        have hCRL := cleanupRestoreLinks_single m oN inp.name l0 src
          hlw hdict hfindsrc houtsrc hinput
        have hNameEq : ∀ x, linksInto (addLinkReplacing m
            { fromNode := l0.fromNode, fromSocket := l0.fromSocket,
              toNode := oN, toSocket := inp.name }) name x = linksInto m name x := by
          intro x
          apply linksInto_addLink_other
          show (name == oN && x == inp.name) = false
          rw [hno, Bool.false_and]
        have hinfo2 : ∀ inp2, inp2 ∈ rest →
            get_material_output_inputs.any
              (fun p => p.1 == lastWord inp2.name) = false
            ∨ (inp2.name ∈ (["Surface", "Volume", "Displacement"] : List String)
              ∧ (linksInto (addLinkReplacing m
                  { fromNode := l0.fromNode, fromSocket := l0.fromSocket,
                    toNode := oN, toSocket := inp.name }) name inp2.name).length ≤ 1
              ∧ ∀ l, l ∈ linksInto (addLinkReplacing m
                  { fromNode := l0.fromNode, fromSocket := l0.fromSocket,
                    toNode := oN, toSocket := inp.name }) name inp2.name →
                  ∃ src2, findNode (addLinkReplacing m
                    { fromNode := l0.fromNode, fromSocket := l0.fromSocket,
                      toNode := oN, toSocket := inp.name }) l.fromNode = some src2
                    ∧ src2.outputs.contains l.fromSocket = true) := by
          intro inp2 h2
          rcases hinfo inp2 (List.mem_cons_of_mem inp h2) with hsk | ⟨hs, hl, hsr⟩
          · exact Or.inl hsk
          · refine Or.inr ⟨hs, ?_, ?_⟩
            · rw [hNameEq inp2.name]
              exact hl
            · intro l hl2
              rw [hNameEq inp2.name] at hl2
              obtain ⟨src2, hf2, ho2⟩ := hsr l hl2
              exact ⟨src2, hf2, ho2⟩
        obtain ⟨m2, hrec, hn2, hother2, huntouched2, hper2⟩ :=
          ih (addLinkReplacing m
              { fromNode := l0.fromNode, fromSocket := l0.fromSocket,
                toNode := oN, toSocket := inp.name })
            hnodupIns.2 ⟨out2, hfout2, hnames2⟩ hinfo2
        refine ⟨m2, ?_, hn2, ?_, ?_, ?_⟩
        · show (match cleanupRestoreLinks m oN inp.name
              (linksInto m name inp.name) with
            | none => none
            | some m3 => cleanupRestoreInputs m3 name oN rest) = some m2
          rw [hL, hCRL]
          exact hrec
        · intro y x hy
          rw [hother2 y x hy]
          apply linksInto_addLink_other
          show (y == oN && x == inp.name) = false
          rw [hy, Bool.false_and]
        · intro x hx
          rw [List.map_cons, List.contains_cons] at hx
          have hparts := Bool.or_eq_false_iff.mp hx
          rw [huntouched2 x hparts.2]
          apply linksInto_addLink_other
          show (oN == oN && x == inp.name) = false
          rw [hparts.1, Bool.and_false]
        · intro inp2 h2 hsvd2
          rcases List.mem_cons.mp h2 with heq | hmem2
          · rw [heq]
            rw [huntouched2 inp.name hcontrest]
            have hself : linksInto (addLinkReplacing m
                { fromNode := l0.fromNode, fromSocket := l0.fromSocket,
                  toNode := oN, toSocket := inp.name }) oN inp.name
                = [{ fromNode := l0.fromNode, fromSocket := l0.fromSocket,
                     toNode := oN, toSocket := inp.name }] :=
              linksInto_addLink_self m _
            rw [hself, hL]
            rfl
          · have hne2 : (inp2.name == inp.name) = false := by
              cases hb : inp2.name == inp.name
              · rfl
              · exfalso
                apply hnodupIns.1
                rw [← eq_of_beq hb]
                exact List.mem_map_of_mem (fun s => s.name) hmem2
            have hoip : linksInto (addLinkReplacing m
                { fromNode := l0.fromNode, fromSocket := l0.fromSocket,
                  toNode := oN, toSocket := inp.name }) oN inp2.name
                = linksInto m oN inp2.name := by
              apply linksInto_addLink_other
              show (oN == oN && inp2.name == inp.name) = false
              rw [hne2, Bool.and_false]
            rw [hper2 inp2 hmem2 hsvd2, hNameEq inp2.name, hoip]

end GrabDoc
